import Mathlib

/-!
# The p2p scheduler (`scheduler/schimpl.go`): a shallow embedding

The global variables of the Go package (`p2pSDL`, `schTaskNodePool`,
`schTimerNodePool`) are gathered in one record `Sched` that every operation
takes and returns.  Pointers into the two node pools are pool indices,
`none` is the nil pointer.  An operation returns `none` when the Go code does
not return: a run-time panic (nil dereference, closing a nil or closed channel,
index out of range) or a wait that nothing can end.

Go `int` values are `Int`; every counter of the scheduler stays far inside the
64-bit range, so no wrap-around is modelled for them.  The one sum a caller
feeds with a value of its choice, the identifier of a timer event, wraps as
the 64-bit `int` does (`wrapInt`).

The definitions of the scheduler come first (namespace `Scheduler`), then those
of the discovery messages of `discover/udpmsg/udpmsg.go` (namespace `Udpmsg`);
the theorems about both follow, in the same order.
-/

namespace Scheduler

/-! ## Data model -/

/-- Error codes of the scheduler (`SchErrno`), the ones `schimpl.go` returns. -/
inductive SchErrno where
  | SchEnoNone
  | SchEnoParameter
  | SchEnoResource
  | SchEnoNotFound
  | SchEnoDuplicated
  | SchEnoMismatched
  | SchEnoKilled
  | SchEnoSuspended
  | SchEnoInternal
  | SchEnoUnknown
  deriving DecidableEq, Repr

open SchErrno

/-- Modelled from the spec: the compile-time constants that `schimpl.go` uses
and that are declared outside it (pool sizes, per-task timer maximum, group
maximum, start flags, watchdog defaults), and `schMaxChanSize`, the largest
buffer size for which `make(chan schMessage, n)` succeeds on the platform (the
Go run time panics on a larger one).  They are parameters of the model. -/
structure SchConst where
  schMaxChanSize : Nat
  schTaskNodePoolSize : Nat
  schTimerNodePoolSize : Nat
  schMaxTaskTimer : Nat
  schMaxGroupSize : Nat
  SchCreatedGo : Int
  SchCreatedSuspend : Int
  SchDefaultDogCycle : Int
  SchDefaultDogDieThresold : Int

/-- A Go map as an association list with at most one entry per key. -/
abbrev GoMap (κ ν : Type) := List (κ × ν)

/-- Map lookup `v, ok := m[k]`. -/
def mapGet {κ ν : Type} [DecidableEq κ] : GoMap κ ν → κ → Option ν
  | [], _ => none
  | (k1, v) :: t, k => if k1 = k then some v else mapGet t k

/-- Builtin `delete(m, k)`. -/
def mapDel {κ ν : Type} [DecidableEq κ] (m : GoMap κ ν) (k : κ) : GoMap κ ν :=
  m.filter (fun e => decide (e.1 ≠ k))

/-- Assignment `m[k] = v`. -/
def mapPut {κ ν : Type} [DecidableEq κ] (m : GoMap κ ν) (k : κ) (v : ν) : GoMap κ ν :=
  (k, v) :: mapDel m k

/-- Builtin `len(m)`. -/
def mapLen {κ ν : Type} (m : GoMap κ ν) : Int := m.length

/-- A Go channel value: capacity, buffered elements (oldest first), closed flag. -/
structure Chan (α : Type) where
  cap : Nat
  buf : List α
  closed : Bool
  deriving DecidableEq

/-- Builtin `make(chan T, size)`: panics on a negative size and on a size above
`limit`, the largest the run time can allocate for the element type. -/
def chanMake {α : Type} (limit : Nat) (size : Int) : Option (Chan α) :=
  if size < 0 ∨ (limit : Int) < size then none
  else some { cap := size.toNat, buf := [], closed := false }

/-- Builtin `close(ch)`: panics on a nil channel and on a closed one. -/
def chanClose {α : Type} (ch : Option (Chan α)) : Option Unit :=
  match ch with
  | none => none
  | some c => if c.closed then none else some ()

/-- Send `ch <- v` taken alone: it completes only on an open channel with room
in its buffer; on a nil channel or a full buffer it waits, on a closed channel
it panics. -/
def chanSend {α : Type} (ch : Option (Chan α)) (v : α) : Option (Chan α) :=
  match ch with
  | none => none
  | some c =>
    if c.closed then none
    else if c.buf.length < c.cap then some { c with buf := c.buf ++ [v] }
    else none

/-- Send `ch <- v` on a channel a receiver may be waiting on (`waiting`): it
completes into room of the buffer, or, with nothing buffered, by handing the
value to the waiting receiver; a handed value is kept in `buf` until the step
of the receiver that takes it.  Otherwise as `chanSend`. -/
def chanSendTo {α : Type} (ch : Option (Chan α)) (v : α) (waiting : Bool) : Option (Chan α) :=
  match ch with
  | none => none
  | some c =>
    if c.closed then none
    else if c.buf.length < c.cap ∨ (waiting = true ∧ c.buf.length = 0) then
      some { c with buf := c.buf ++ [v] }
    else none

/-- A non-nil `*schTaskNode`: a node of the task pool or one of the two static
nodes `rawSchTsk`, `rawTmTsk` that stand for the scheduler as a sender. -/
inductive TaskPtr where
  | pool (i : Nat)
  | rawSchTsk
  | rawTmTsk
  deriving DecidableEq

/-- Modelled from the spec: `schMessage`, declared outside `schimpl.go`; the
fields are those the file reads and writes. -/
structure schMessage where
  sender : Option TaskPtr
  recver : Option TaskPtr
  Id : Int
  Body : Option Nat
  deriving DecidableEq

/-- Modelled from the spec: the watchdog descriptor (`SchWatchDog`, converted
to `schWatchDog` on creation), declared outside `schimpl.go`. -/
structure schWatchDog where
  HaveDog : Bool
  Inited : Bool
  Cycle : Int
  BiteCounter : Int
  DieThreshold : Int
  deriving DecidableEq

/-- Mailbox of a task: pointer to the message channel and the requested size. -/
structure schMailBox where
  que : Option (Chan schMessage)
  size : Int
  deriving DecidableEq

/-- Modelled from the spec: the task control block `schTask`, declared outside
`schimpl.go`; the fields are those the file reads and writes.  A handler
(`utep`) and the user data are opaque references; a death callback is
represented by the code it returns and is taken not to touch the scheduler. -/
structure schTask where
  name : String
  utep : Option Nat
  mailbox : schMailBox
  done : Option (Chan SchErrno)
  stopped : Option (Chan Bool)
  dog : schWatchDog
  dieCb : Option SchErrno
  goStatus : Int
  userData : Option Nat
  tmTab : Nat → Option Nat
  tmIdxTab : GoMap Nat Int

/-- A node of the task pool: control block and the two intrusive links. -/
@[ext]
structure schTaskNode where
  task : schTask
  last : Option Nat
  next : Option Nat

/-- Modelled from the spec: the timer control block `schTmcb`, declared outside
`schimpl.go`. -/
structure schTmcb where
  name : String
  utid : Int
  tmt : Int
  dur : Int
  taskNode : Option Nat
  extra : Option Nat
  stop : Option (Chan Bool)
  stopped : Option (Chan Bool)
  deriving DecidableEq

/-- A node of the timer pool. -/
@[ext]
structure schTmcbNode where
  tmcb : schTmcb
  last : Option Nat
  next : Option Nat
  deriving DecidableEq

/-- The global state: the fields of `p2pSDL` that `schimpl.go` uses, and the two
pools `schTaskNodePool` and `schTimerNodePool`. -/
@[ext]
structure Sched where
  tkFree : Option Nat
  freeSize : Int
  tkBusy : Option Nat
  busySize : Int
  tmFree : Option Nat
  tmFreeSize : Int
  tkMap : GoMap String Nat
  tmMap : GoMap Nat Nat
  grpMap : GoMap String (List (Option Nat))
  grpCnt : Int
  schTaskNodePool : Nat → schTaskNode
  schTimerNodePool : Nat → schTmcbNode

/-- Modelled from the spec: `SchTaskDescription`, declared outside
`schimpl.go`.  `Wd` is a pointer. -/
structure schTaskDescription where
  Name : String
  MbSize : Int
  Ep : Option Nat
  Wd : Option schWatchDog
  Flag : Int
  DieCb : Option SchErrno
  UserDa : Option Nat

/-- Modelled from the spec: `SchTaskGroupDescription`, declared outside
`schimpl.go`. -/
structure schTaskGroupDescription where
  Grp : String
  MbList : List String
  MbSize : Int
  Ep : Option Nat
  Wd : Option schWatchDog
  Flag : Int
  DieCb : Option SchErrno

/-! ## Zero values and field updates -/

/-- Zero value of `schTask`. -/
def zeroTask : schTask :=
  { name := "", utep := none, mailbox := { que := none, size := 0 }, done := none,
    stopped := none,
    dog := { HaveDog := false, Inited := false, Cycle := 0, BiteCounter := 0, DieThreshold := 0 },
    dieCb := none, goStatus := 0, userData := none, tmTab := fun _ => none, tmIdxTab := [] }

/-- Zero value of `schTmcb`. -/
def zeroTmcb : schTmcb :=
  { name := "", utid := 0, tmt := 0, dur := 0, taskNode := none, extra := none,
    stop := none, stopped := none }

/-- The global variables before `schimplSchedulerInit` has run. -/
def zeroSched : Sched :=
  { tkFree := none, freeSize := 0, tkBusy := none, busySize := 0, tmFree := none,
    tmFreeSize := 0, tkMap := [], tmMap := [], grpMap := [], grpCnt := 0,
    schTaskNodePool := fun _ => { task := zeroTask, last := none, next := none },
    schTimerNodePool := fun _ => { tmcb := zeroTmcb, last := none, next := none } }

/-- The task pool after `p.next = v`. -/
def updNext (pool : Nat → schTaskNode) (p : Nat) (v : Option Nat) : Nat → schTaskNode :=
  Function.update pool p { pool p with next := v }

/-- The task pool after `p.last = v`. -/
def updLast (pool : Nat → schTaskNode) (p : Nat) (v : Option Nat) : Nat → schTaskNode :=
  Function.update pool p { pool p with last := v }

/-- The task pool after an assignment to the control block of node `p`. -/
def updTask (pool : Nat → schTaskNode) (p : Nat) (t : schTask) : Nat → schTaskNode :=
  Function.update pool p { pool p with task := t }

/-- The timer pool after `p.next = v`. -/
def updTmNext (pool : Nat → schTmcbNode) (p : Nat) (v : Option Nat) : Nat → schTmcbNode :=
  Function.update pool p { pool p with next := v }

/-- The timer pool after `p.last = v`. -/
def updTmLast (pool : Nat → schTmcbNode) (p : Nat) (v : Option Nat) : Nat → schTmcbNode :=
  Function.update pool p { pool p with last := v }

/-- The timer pool after an assignment to the control block of node `p`. -/
def updTmcb (pool : Nat → schTmcbNode) (p : Nat) (t : schTmcb) : Nat → schTmcbNode :=
  Function.update pool p { pool p with tmcb := t }

/-- Assignment `p.next = v` on a task node. -/
def setTaskNext (s : Sched) (p : Nat) (v : Option Nat) : Sched :=
  { s with schTaskNodePool := updNext s.schTaskNodePool p v }

/-- Assignment `p.last = v` on a task node. -/
def setTaskLast (s : Sched) (p : Nat) (v : Option Nat) : Sched :=
  { s with schTaskNodePool := updLast s.schTaskNodePool p v }

/-- Assignment to the control block of task node `p`. -/
def setTask (s : Sched) (p : Nat) (t : schTask) : Sched :=
  { s with schTaskNodePool := updTask s.schTaskNodePool p t }

/-- Assignment `p.next = v` on a timer node. -/
def setTimerNext (s : Sched) (p : Nat) (v : Option Nat) : Sched :=
  { s with schTimerNodePool := updTmNext s.schTimerNodePool p v }

/-- Assignment `p.last = v` on a timer node. -/
def setTimerLast (s : Sched) (p : Nat) (v : Option Nat) : Sched :=
  { s with schTimerNodePool := updTmLast s.schTimerNodePool p v }

/-- Assignment to the control block of timer node `p`. -/
def setTmcb (s : Sched) (p : Nat) (t : schTmcb) : Sched :=
  { s with schTimerNodePool := updTmcb s.schTimerNodePool p t }

/-! ## Initialisation -/

/-- One round of the first loop of `schimplSchedulerInit`.  Go computes
`(loop - 1 + size) & (size - 1)` on signed integers; `loop + size - 1` is the
same number on naturals. -/
def initTaskNode (c : SchConst) (s : Sched) (loop : Nat) : Sched :=
  let s := setTaskLast s loop
    (some ((loop + c.schTaskNodePoolSize - 1) &&& (c.schTaskNodePoolSize - 1)))
  let s := setTaskNext s loop (some ((loop + 1) &&& (c.schTaskNodePoolSize - 1)))
  setTask s loop { (s.schTaskNodePool loop).task with tmIdxTab := [] }

/-- One round of the second loop of `schimplSchedulerInit`. -/
def initTimerNode (c : SchConst) (s : Sched) (loop : Nat) : Sched :=
  let s := setTimerLast s loop
    (some ((loop + c.schTimerNodePoolSize - 1) &&& (c.schTimerNodePoolSize - 1)))
  let s := setTimerNext s loop (some ((loop + 1) &&& (c.schTimerNodePoolSize - 1)))
  setTmcb s loop { (s.schTimerNodePool loop).tmcb with
    stop := some { cap := 1, buf := [], closed := false },
    stopped := some { cap := 0, buf := [], closed := false } }

/-- Function `schimplSchedulerInit`. -/
def schimplSchedulerInit (c : SchConst) (s : Sched) : Sched :=
  let s := { s with tkMap := [], tmMap := [], grpMap := [] }
  let s := (List.range c.schTaskNodePoolSize).foldl (initTaskNode c) s
  let s := { s with freeSize := c.schTaskNodePoolSize, tkFree := some 0 }
  let s := (List.range c.schTimerNodePoolSize).foldl (initTimerNode c) s
  { s with tmFreeSize := c.schTimerNodePoolSize, tmFree := some 0 }

/-- A freshly initialised scheduler. -/
def freshSched (c : SchConst) : Sched := schimplSchedulerInit c zeroSched

/-! ## Node pools -/

/-- Function `schimplGetTimerNode`. -/
def schimplGetTimerNode (s : Sched) : Option (SchErrno × Option Nat × Sched) :=
  match s.tmFree with
  | none => some (SchEnoResource, none, s)
  | some tmn =>
    if (s.schTimerNodePool tmn).last = some tmn ∧ (s.schTimerNodePool tmn).next = some tmn then
      if s.tmFreeSize - 1 ≠ 0 then some (SchEnoInternal, none, s)
      else
        let s := { s with tmFreeSize := s.tmFreeSize - 1 }
        let s := { s with tmFree := none }
        let s := setTimerNext s tmn (some tmn)
        let s := setTimerLast s tmn (some tmn)
        some (SchEnoNone, some tmn, s)
    else
      if s.tmFreeSize - 1 ≤ 0 then some (SchEnoInternal, none, s)
      else
        match (s.schTimerNodePool tmn).last, (s.schTimerNodePool tmn).next with
        | some last, some next =>
          let s := setTimerLast s next (some last)
          let s := setTimerNext s last (some next)
          let s := { s with tmFree := some next }
          let s := { s with tmFreeSize := s.tmFreeSize - 1 }
          let s := setTimerNext s tmn (some tmn)
          let s := setTimerLast s tmn (some tmn)
          some (SchEnoNone, some tmn, s)
        | _, _ => none

/-- Function `schimplRetTimerNode`. -/
def schimplRetTimerNode (s : Sched) (ptm : Option Nat) : Option (SchErrno × Sched) :=
  match ptm with
  | none => some (SchEnoParameter, s)
  | some ptm =>
    match s.tmFree with
    | none =>
      let s := setTimerLast s ptm (some ptm)
      let s := setTimerNext s ptm (some ptm)
      let s := { s with tmFree := some ptm }
      some (SchEnoNone, { s with tmFreeSize := s.tmFreeSize + 1 })
    | some head =>
      match (s.schTimerNodePool head).last with
      | none => none
      | some last =>
        let s := setTimerLast s ptm (some last)
        let s := setTimerNext s last (some ptm)
        let s := setTimerNext s ptm (some head)
        let s := setTimerLast s head (some ptm)
        let s := { s with tmFree := some ptm }
        some (SchEnoNone, { s with tmFreeSize := s.tmFreeSize + 1 })

/-- Function `schimplGetTaskNode`. -/
def schimplGetTaskNode (s : Sched) : Option (SchErrno × Option Nat × Sched) :=
  match s.tkFree with
  | none => some (SchEnoResource, none, s)
  | some tkn =>
    if (s.schTaskNodePool tkn).last = some tkn ∧ (s.schTaskNodePool tkn).next = some tkn then
      let s := { s with tkFree := none }
      let s := { s with freeSize := s.freeSize - 1 }
      if s.freeSize ≠ 0 then some (SchEnoInternal, none, s)
      else
        let s := setTaskNext s tkn (some tkn)
        let s := setTaskLast s tkn (some tkn)
        some (SchEnoNone, some tkn, s)
    else
      match (s.schTaskNodePool tkn).last, (s.schTaskNodePool tkn).next with
      | some last, some next =>
        let s := setTaskLast s next (some last)
        let s := setTaskNext s last (some next)
        let s := { s with tkFree := some next }
        let s := { s with freeSize := s.freeSize - 1 }
        if s.freeSize ≤ 0 then some (SchEnoInternal, none, s)
        else
          let s := setTaskNext s tkn (some tkn)
          let s := setTaskLast s tkn (some tkn)
          some (SchEnoNone, some tkn, s)
      | _, _ => none

/-- Function `schimplRetTaskNode`. -/
def schimplRetTaskNode (s : Sched) (ptn : Option Nat) : Option (SchErrno × Sched) :=
  match ptn with
  | none => some (SchEnoParameter, s)
  | some ptn =>
    match s.tkFree with
    | none =>
      let s := setTaskLast s ptn (some ptn)
      let s := setTaskNext s ptn (some ptn)
      let s := { s with tkFree := some ptn }
      some (SchEnoNone, { s with freeSize := s.freeSize + 1 })
    | some head =>
      match (s.schTaskNodePool head).last with
      | none => none
      | some last =>
        let s := setTaskLast s ptn (some last)
        let s := setTaskNext s last (some ptn)
        let s := setTaskNext s ptn (some head)
        let s := setTaskLast s head (some ptn)
        let s := { s with tkFree := some ptn }
        some (SchEnoNone, { s with freeSize := s.freeSize + 1 })

/-- Function `schimplTaskBusyEnque`. -/
def schimplTaskBusyEnque (s : Sched) (ptn : Option Nat) : Option (SchErrno × Sched) :=
  match ptn with
  | none => some (SchEnoParameter, s)
  | some ptn =>
    match s.tkBusy with
    | none =>
      let s := setTaskLast s ptn (some ptn)
      let s := setTaskNext s ptn (some ptn)
      let s := { s with tkBusy := some ptn }
      some (SchEnoNone, { s with busySize := s.busySize + 1 })
    | some head =>
      match (s.schTaskNodePool head).last with
      | none => none
      | some last =>
        let s := setTaskLast s ptn (some last)
        let s := setTaskNext s last (some ptn)
        let s := setTaskNext s ptn (some head)
        let s := setTaskLast s head (some ptn)
        let s := { s with tkBusy := some ptn }
        some (SchEnoNone, { s with busySize := s.busySize + 1 })

/-- Function `schimplTaskBusyDeque`. -/
def schimplTaskBusyDeque (s : Sched) (ptn : Option Nat) : Option (SchErrno × Sched) :=
  match ptn with
  | none => some (SchEnoParameter, s)
  | some ptn =>
    if s.busySize ≤ 0 then some (SchEnoInternal, s)
    else if s.busySize = 1 then
      if s.tkBusy ≠ some ptn then some (SchEnoInternal, s)
      else some (SchEnoNone, { s with tkBusy := none, busySize := 0 })
    else if (s.schTaskNodePool ptn).last = some ptn ∧ (s.schTaskNodePool ptn).next = some ptn then
      if some ptn = s.tkBusy then
        let s := { s with tkBusy := none }
        let s := { s with busySize := s.busySize - 1 }
        if s.busySize ≠ 0 then some (SchEnoInternal, s) else some (SchEnoNone, s)
      else some (SchEnoInternal, s)
    else
      match (s.schTaskNodePool ptn).last, (s.schTaskNodePool ptn).next with
      | some last, some next =>
        let s := setTaskNext s last (some next)
        let s := setTaskLast s next (some last)
        let s := if s.tkBusy = some ptn then { s with tkBusy := some next } else s
        let s := { s with busySize := s.busySize - 1 }
        if s.busySize ≤ 0 then some (SchEnoInternal, s) else some (SchEnoNone, s)
      | _, _ => none

/-! ## Task creation -/

/-- Go `unicode.IsSpace`: the white-space characters `strings.TrimSpace` removes. -/
def isSpace (ch : Char) : Bool :=
  let n := ch.toNat
  n == 9 || n == 10 || n == 11 || n == 12 || n == 13 || n == 32 || n == 133 || n == 160 ||
  n == 5760 || (8192 ≤ n && n ≤ 8202) || n == 8232 || n == 8233 || n == 8239 || n == 8287 ||
  n == 12288

/-- Go `strings.TrimSpace`: the string without its leading and trailing white space. -/
def TrimSpace (str : String) : String :=
  String.mk ((str.data.dropWhile isSpace).reverse.dropWhile isSpace).reverse

/-- The three checks of `schimplCreateTask` on the channels a recycled node may
still carry: each non-nil one is closed and nulled. -/
def closeStaleChans (t : schTask) : Option schTask := do
  let t ← (match t.mailbox.que with
    | none => some t
    | some q => do
      chanClose (some q)
      pure { t with mailbox := { que := none, size := 0 } })
  let t ← (match t.done with
    | none => some t
    | some d => do
      chanClose (some d)
      pure { t with done := none })
  match t.stopped with
  | none => some t
  | some d => do
    chanClose (some d)
    pure { t with stopped := none }

/-- The block "setup user task" of `schimplCreateTask`. -/
def setupUserTask (c : SchConst) (t : schTask) (d : schTaskDescription) : Option schTask := do
  let t := { t with name := TrimSpace d.Name }
  let t := { t with utep := d.Ep }
  let mq ← chanMake c.schMaxChanSize d.MbSize
  let t := { t with mailbox := { t.mailbox with que := some mq } }
  let t := { t with mailbox := { t.mailbox with size := d.MbSize } }
  let t := { t with done := some { cap := 1, buf := [], closed := false } }
  let t := { t with stopped := some { cap := 1, buf := [], closed := false } }
  let wd ← d.Wd
  let t := { t with dog := wd }
  let t := { t with dieCb := d.DieCb }
  pure { t with userData := d.UserDa }

/-- The loop "make timer table" of `schimplCreateTask`. -/
def clearTmTab (c : SchConst) (t : schTask) : schTask :=
  (List.range c.schMaxTaskTimer).foldl
    (fun t idx => if t.tmTab idx ≠ none then { t with tmTab := Function.update t.tmTab idx none }
      else t) t

/-- The loop "make timer map clean" of `schimplCreateTask`. -/
def clearTmIdxTab (t : schTask) : schTask :=
  t.tmIdxTab.foldl (fun t e => { t with tmIdxTab := mapDel t.tmIdxTab e.1 }) t

/-- What `schimplCreateTask` does to the control block of the node it got,
before the registry: stale channels, user task, timer table, timer map. -/
def prepareTask (c : SchConst) (t : schTask) (d : schTaskDescription) : Option schTask := do
  let t ← closeStaleChans t
  let t ← setupUserTask c t d
  let t := clearTmTab c t
  pure (clearTmIdxTab t)

/-- The end of `schimplCreateTask`: busy queue, then the start flag. -/
def registerBusy (c : SchConst) (s : Sched) (ptn : Nat) (d : schTaskDescription) :
    Option (SchErrno × Option Nat × Sched) :=
  match schimplTaskBusyEnque s (some ptn) with
  | none => none
  | some (SchEnoNone, s) =>
    let t := (s.schTaskNodePool ptn).task
    if d.Flag = c.SchCreatedGo then
      some (SchEnoNone, some ptn, setTask s ptn { t with goStatus := c.SchCreatedGo })
    else if d.Flag = c.SchCreatedSuspend then
      some (SchEnoNone, some ptn, setTask s ptn { t with goStatus := c.SchCreatedSuspend })
    else
      some (SchEnoSuspended, some ptn, setTask s ptn { t with goStatus := c.SchCreatedSuspend })
  | some (eno, s) => some (eno, none, s)

/-- Function `schimplCreateTask`.  The `go schimplCommonTask(ptn)` of the `Go`
flag starts the handler loop of the task, whose only effect on the scheduler
state is the teardown `schimplStopTaskEx` it runs when it ends. -/
def schimplCreateTask (c : SchConst) (s : Sched) (taskDesc : Option schTaskDescription) :
    Option (SchErrno × Option Nat × Sched) :=
  match taskDesc with
  | none => some (SchEnoParameter, none, s)
  | some d =>
    match schimplGetTaskNode s with
    | none => none
    | some (SchEnoNone, some ptn, s) =>
      match prepareTask c (s.schTaskNodePool ptn).task d with
      | none => none
      | some t =>
        let s := setTask s ptn t
        if t.name.length ≤ 0 then
          registerBusy c s ptn d
        else if (mapGet s.tkMap t.name).isSome then
          some (SchEnoDuplicated, none, s)
        else
          registerBusy c { s with tkMap := mapPut s.tkMap t.name ptn } ptn d
    | some (eno, _, s) => some (eno, none, s)

/-! ## Lookup, start -/

/-- Function `schimplGetTaskNodeByName`. -/
def schimplGetTaskNodeByName (s : Sched) (name : String) : SchErrno × Option Nat :=
  match mapGet s.tkMap name with
  | none => (SchEnoNotFound, none)
  | some ptn => (SchEnoNone, some ptn)

/-- Function `schimplStartTask`. -/
def schimplStartTask (c : SchConst) (s : Sched) (name : String) : SchErrno × Sched :=
  match schimplGetTaskNodeByName s name with
  | (SchEnoNone, some ptn) =>
    let t := (s.schTaskNodePool ptn).task
    if t.goStatus ≠ c.SchCreatedSuspend then (SchEnoMismatched, s)
    else (SchEnoNone, setTask s ptn { t with goStatus := c.SchCreatedGo })
  | (eno, _) => (eno, s)

/-- Function `schimplTaskDone`: the send on the termination channel of the task. -/
def schimplTaskDone (s : Sched) (ptn : Option Nat) (eno : SchErrno) : Option (SchErrno × Sched) :=
  match ptn with
  | none => some (SchEnoParameter, s)
  | some ptn => do
    let t := (s.schTaskNodePool ptn).task
    let ch ← chanSend t.done eno
    pure (SchEnoNone, setTask s ptn { t with done := some ch })

/-! ## Teardown -/

/-- Function `schimplKillTaskTimers`.  With an empty reverse map the loop body
never runs.  Otherwise the first entry visited (Go fixes no order; the model
takes the first of the association list) either fails the cross-check, or gets
the stop signal, after which the function waits for the `stopped` signal of the
timer while holding the lock of the task, which the timer must take before it
can send that signal: the call does not return. -/
def schimplKillTaskTimers (c : SchConst) (s : Sched) (task : Nat) : Option (SchErrno × Sched) :=
  match (s.schTaskNodePool task).task.tmIdxTab with
  | [] => some (SchEnoNone, s)
  | (tm, idx) :: _ =>
    if idx < 0 ∨ (c.schMaxTaskTimer : Int) ≤ idx then none
    else if some tm ≠ (s.schTaskNodePool task).task.tmTab idx.toNat then some (SchEnoInternal, s)
    else none

/-- One round of the loop of `schimplTcbClean` over the timer table. -/
def tcbCleanTimer (tcb : Nat) (s : Sched) (loop : Nat) : Sched :=
  let t := (s.schTaskNodePool tcb).task
  match t.tmTab loop with
  | none => s
  | some tm =>
    let s := setTask s tcb { t with tmIdxTab := mapDel t.tmIdxTab tm }
    let s := { s with tmMap := mapDel s.tmMap tm }
    let t := (s.schTaskNodePool tcb).task
    setTask s tcb { t with tmTab := Function.update t.tmTab loop none }

/-- Function `schimplTcbClean`, on the control block of task node `tcb`. -/
def schimplTcbClean (c : SchConst) (s : Sched) (tcb : Nat) : Option (SchErrno × Sched) := do
  let t := (s.schTaskNodePool tcb).task
  let t := { t with name := "" }
  let t := { t with utep := none }
  let t := { t with dog := { t.dog with Cycle := c.SchDefaultDogCycle } }
  let t := { t with dog := { t.dog with BiteCounter := 0 } }
  let t := { t with dog := { t.dog with DieThreshold := c.SchDefaultDogDieThresold } }
  let t := { t with dieCb := none }
  let t := { t with goStatus := c.SchCreatedSuspend }
  chanClose t.mailbox.que
  let t := { t with mailbox := { que := none, size := 0 } }
  chanClose t.done
  let t := { t with done := none }
  chanClose t.stopped
  let t := { t with stopped := none }
  let s := setTask s tcb t
  pure (SchEnoNone, (List.range c.schMaxTaskTimer).foldl (tcbCleanTimer tcb) s)

/-- The call `ptn.task.dieCb(ptn)` of `schimplStopTaskEx`, made when the callback
is not nil: the code it returns is only logged, and the callback is taken not
to touch the scheduler, so the state is the same either way. -/
def callDieCb (s : Sched) (ptn : Nat) : Sched :=
  match (s.schTaskNodePool ptn).task.dieCb with
  | none => s
  | some _ => s

/-- Function `schimplStopTaskEx`: the teardown the handler loop of a task runs
when `stop_task` or `task_done` ends it. -/
def schimplStopTaskEx (c : SchConst) (s : Sched) (ptn : Option Nat) : Option (SchErrno × Sched) :=
  match ptn with
  | none => some (SchEnoParameter, s)
  | some ptn =>
    match schimplTaskBusyDeque s (some ptn) with
    | none => none
    | some (SchEnoNone, s) =>
      let s := callDieCb s ptn
      match schimplKillTaskTimers c s ptn with
      | none => none
      | some (SchEnoNone, s) =>
        match schimplTcbClean c s ptn with
        | none => none
        | some (SchEnoNone, s) =>
          match schimplRetTaskNode s (some ptn) with
          | none => none
          | some (SchEnoNone, s) =>
            if (s.schTaskNodePool ptn).task.name.length > 0 then
              some (SchEnoNone, { s with tkMap := mapDel s.tkMap (s.schTaskNodePool ptn).task.name })
            else some (SchEnoNone, s)
          | some (eno, s) => some (eno, s)
        | some (eno, s) => some (eno, s)
      | some (eno, s) => some (eno, s)
    | some (eno, s) => some (eno, s)

/-! ## Task groups -/

/-- The member loop of `schimplCreateTaskGroup`: on the first member whose
creation fails the function returns that code; otherwise a nil is appended to
`ptnTab` and the loop goes on. -/
def createMembers (c : SchConst) (tkDesc : schTaskDescription) :
    List String → Sched → List (Option Nat) → Option (SchErrno × List (Option Nat) × Sched)
  | [], s, ptnTab => some (SchEnoNone, ptnTab, s)
  | mbName :: rest, s, ptnTab =>
    match schimplCreateTask c s (some { tkDesc with Name := mbName }) with
    | none => none
    | some (SchEnoNone, some _, s) => createMembers c tkDesc rest s (ptnTab ++ [none])
    | some (eno, _, s) => some (eno, [], s)

/-- Function `schimplCreateTaskGroup`; on an error the returned list is nil. -/
def schimplCreateTaskGroup (c : SchConst) (s : Sched)
    (taskGrpDesc : Option schTaskGroupDescription) :
    Option (SchErrno × List (Option Nat) × Sched) :=
  match taskGrpDesc with
  | none => some (SchEnoParameter, [], s)
  | some g =>
    if g.MbList.length > c.schMaxGroupSize then some (SchEnoResource, [], s)
    else
      let tkDesc : schTaskDescription :=
        { Name := "", MbSize := g.MbSize, Ep := g.Ep, Wd := g.Wd, Flag := g.Flag,
          DieCb := g.DieCb, UserDa := none }
      match createMembers c tkDesc g.MbList s (List.replicate g.MbList.length none) with
      | none => none
      | some (SchEnoNone, ptnTab, s) =>
        let s := { s with grpMap := mapPut s.grpMap g.Grp ptnTab }
        some (SchEnoNone, ptnTab, { s with grpCnt := s.grpCnt + 1 })
      | some (eno, _, s) => some (eno, [], s)

/-- The member loop of `schimplStartTaskGroup`: every member is started by
name, failures are counted. -/
def startMembers (c : SchConst) : List (Option Nat) → Sched → Int → Option (Int × Sched)
  | [], s, failedCount => some (failedCount, s)
  | none :: _, _, _ => none
  | some ptn :: rest, s, failedCount =>
    match schimplStartTask c s (s.schTaskNodePool ptn).task.name with
    | (SchEnoNone, s) => startMembers c rest s failedCount
    | (_, s) => startMembers c rest s (failedCount + 1)

/-- Function `schimplStartTaskGroup`. -/
def schimplStartTaskGroup (c : SchConst) (s : Sched) (grp : String) :
    Option (SchErrno × Int × Sched) :=
  if s.grpCnt ≤ 0 then some (SchEnoNotFound, -1, s)
  else
    match mapGet s.grpMap grp with
    | none => some (SchEnoMismatched, -1, s)
    | some mbTaskMap =>
      match startMembers c mbTaskMap s 0 with
      | none => none
      | some (failedCount, s) =>
        if failedCount > 0 then some (SchEnoUnknown, failedCount, s)
        else some (SchEnoNone, 0, s)

/-- The member loop of `schimplStopTaskGroup`: the first member whose
`schimplTaskDone` fails ends the function with that code. -/
def stopMembers : List (Option Nat) → Sched → Option (SchErrno × Sched)
  | [], s => some (SchEnoNone, s)
  | mbTaskNode :: rest, s =>
    match schimplTaskDone s mbTaskNode SchEnoKilled with
    | none => none
    | some (SchEnoNone, s) => stopMembers rest s
    | some (eno, s) => some (eno, s)

/-- Function `schimplStopTaskGroup`. -/
def schimplStopTaskGroup (s : Sched) (grp : String) : Option (SchErrno × Sched) :=
  if s.grpCnt ≤ 0 then some (SchEnoNotFound, s)
  else
    match mapGet s.grpMap grp with
    | none => some (SchEnoNotFound, s)
    | some mbTaskMap =>
      match stopMembers mbTaskMap s with
      | none => none
      | some (SchEnoNone, s) =>
        let s := { s with grpMap := mapDel s.grpMap grp }
        some (SchEnoNone, { s with grpCnt := s.grpCnt - 1 })
      | some (eno, s) => some (eno, s)

/-! ## The two lists of the task pool, read off the links -/

/-- The nodes met from `head` along `next`, at most `fuel` of them. -/
def ringWalk (next : Nat → Option Nat) : Option Nat → Nat → List Nat
  | _, 0 => []
  | none, _ => []
  | some p, fuel + 1 => p :: ringWalk next (next p) fuel

/-- The `next` links of the task pool. -/
def tkNext (s : Sched) : Nat → Option Nat := fun i => (s.schTaskNodePool i).next

/-- The `last` links of the task pool. -/
def tkLast (s : Sched) : Nat → Option Nat := fun i => (s.schTaskNodePool i).last

/-- The `next` links of the timer pool. -/
def tmNext (s : Sched) : Nat → Option Nat := fun i => (s.schTimerNodePool i).next

/-- The `last` links of the timer pool. -/
def tmLast (s : Sched) : Nat → Option Nat := fun i => (s.schTimerNodePool i).last

/-- The free list of the task pool: `freeSize` nodes from `tkFree`. -/
def freeList (s : Sched) : List Nat := ringWalk (tkNext s) s.tkFree s.freeSize.toNat

/-- The busy list: `busySize` nodes from `tkBusy`. -/
def busyList (s : Sched) : List Nat := ringWalk (tkNext s) s.tkBusy s.busySize.toNat

/-- The free list of the timer pool. -/
def tmFreeList (s : Sched) : List Nat := ringWalk (tmNext s) s.tmFree s.tmFreeSize.toNat

/-! ## Well-formed lists and reachable states -/

/-- Node `x` is followed by `y`: `x.next = y` and `y.last = x`. -/
def Linked (nx ls : Nat → Option Nat) (x y : Nat) : Prop := nx x = some y ∧ ls y = some x

instance (nx ls : Nat → Option Nat) : DecidableRel (Linked nx ls) :=
  fun x y => inferInstanceAs (Decidable (nx x = some y ∧ ls y = some x))

/-- The nodes of `l`, in this order, form a circular doubly-linked list: no node
occurs twice, each is followed by the next one, the final one by the first. -/
def IsRing (nx ls : Nat → Option Nat) (l : List Nat) : Prop :=
  l.Nodup ∧
    match l with
    | [] => True
    | a :: t => List.Chain (Linked nx ls) a t ∧ Linked nx ls (t.getLastD a) a

/-- A well-formed list of a pool: the nodes `l` form a ring, the head pointer is
the first node of `l` (nil when `l` is empty) and the recorded size is the
number of nodes. -/
structure RingAt (nx ls : Nat → Option Nat) (head : Option Nat) (size : Int)
    (l : List Nat) : Prop where
  ring : IsRing nx ls l
  head_eq : head = l.head?
  size_eq : size = l.length

/-- The three channels of a control block are nil. -/
def chansNil (t : schTask) : Prop := t.mailbox.que = none ∧ t.done = none ∧ t.stopped = none

/-- The task pool is well formed, with free list `lf` and busy list `lb`: both
are rings with the recorded head and size, no node is on both, and the nodes of
the free list carry no channel. -/
structure TaskPoolWF (s : Sched) (lf lb : List Nat) : Prop where
  free : RingAt (tkNext s) (tkLast s) s.tkFree s.freeSize lf
  busy : RingAt (tkNext s) (tkLast s) s.tkBusy s.busySize lb
  disjoint : ∀ i, i ∈ lf → i ∉ lb
  chans : ∀ i, i ∈ lf → chansNil (s.schTaskNodePool i).task

/-- A description `schimplCreateTask` can work on without a run-time panic: the
watchdog pointer is not nil and the mailbox size is one `make` accepts, not
negative and not above `schMaxChanSize`. -/
def descOk (c : SchConst) (d : schTaskDescription) : Prop :=
  d.Wd ≠ none ∧ 0 ≤ d.MbSize ∧ d.MbSize ≤ c.schMaxChanSize

instance (c : SchConst) (d : schTaskDescription) : Decidable (descOk c d) :=
  inferInstanceAs (Decidable (d.Wd ≠ none ∧ 0 ≤ d.MbSize ∧ d.MbSize ≤ c.schMaxChanSize))

/-- A valid description: no panic, and the start flag is `Go` or `Suspend`. -/
def validDesc (c : SchConst) (d : schTaskDescription) : Prop :=
  descOk c d ∧ (d.Flag = c.SchCreatedGo ∨ d.Flag = c.SchCreatedSuspend)

instance (c : SchConst) (d : schTaskDescription) : Decidable (validDesc c d) :=
  inferInstanceAs
    (Decidable (descOk c d ∧ (d.Flag = c.SchCreatedGo ∨ d.Flag = c.SchCreatedSuspend)))

/-- The constants are as the package declares them: both pool sizes are powers
of two and the two start flags differ. -/
def validConst (c : SchConst) : Prop :=
  (∃ k, c.schTaskNodePoolSize = 2 ^ k) ∧ (∃ k, c.schTimerNodePoolSize = 2 ^ k) ∧
    c.SchCreatedGo ≠ c.SchCreatedSuspend

/-- States reachable from initialisation by `create_task`, `start_task` and the
teardown of a running task, each taken after it has returned (with any code).
A teardown is run only by the handler loop of a task, that is for a node on the
busy list whose run-state is `Go`. -/
inductive Reachable (c : SchConst) : Sched → Prop where
  | init : Reachable c (freshSched c)
  | create (s : Sched) (d : schTaskDescription) (eno : SchErrno) (ptn : Option Nat) (s1 : Sched) :
      Reachable c s → schimplCreateTask c s (some d) = some (eno, ptn, s1) → Reachable c s1
  | start (s : Sched) (name : String) :
      Reachable c s → Reachable c (schimplStartTask c s name).2
  | teardown (s : Sched) (ptn : Nat) (eno : SchErrno) (s1 : Sched) :
      Reachable c s → ptn ∈ busyList s →
      (s.schTaskNodePool ptn).task.goStatus = c.SchCreatedGo →
      schimplStopTaskEx c s (some ptn) = some (eno, s1) → Reachable c s1

/-! ## Scenarios -/

/-- Acquire a task node and release it at once. -/
def taskAcquireRelease (s : Sched) : Option Sched :=
  match schimplGetTaskNode s with
  | some (SchEnoNone, some p, s1) =>
    match schimplRetTaskNode s1 (some p) with
    | some (SchEnoNone, s2) => some s2
    | _ => none
  | _ => none

/-- Acquire a timer node and release it at once. -/
def timerAcquireRelease (s : Sched) : Option Sched :=
  match schimplGetTimerNode s with
  | some (SchEnoNone, some p, s1) =>
    match schimplRetTimerNode s1 (some p) with
    | some (SchEnoNone, s2) => some s2
    | _ => none
  | _ => none

/-- Run `f` a number of times, each time on the state the round before left. -/
def repeatOpt (f : Sched → Option Sched) : Nat → Sched → Option Sched
  | 0, s => some s
  | n + 1, s => (f s).bind (repeatOpt f n)

/-- Consecutive `create_task` calls, with the code and handle each returned. -/
def createAll (c : SchConst) : List schTaskDescription → Sched →
    Option (List (SchErrno × Option Nat) × Sched)
  | [], s => some ([], s)
  | d :: ds, s =>
    match schimplCreateTask c s (some d) with
    | none => none
    | some (eno, ptn, s1) =>
      match createAll c ds s1 with
      | none => none
      | some (rs, s2) => some ((eno, ptn) :: rs, s2)

/-- Constants of the scenarios: pools of four nodes, two timers per task. -/
def demoConst : SchConst :=
  { schMaxChanSize := 1024, schTaskNodePoolSize := 4, schTimerNodePoolSize := 4,
    schMaxTaskTimer := 2,
    schMaxGroupSize := 4, SchCreatedGo := 0, SchCreatedSuspend := 1,
    SchDefaultDogCycle := 1, SchDefaultDogDieThresold := 2 }

/-- A watchdog descriptor without dog. -/
def demoDog : schWatchDog :=
  { HaveDog := false, Inited := false, Cycle := 1, BiteCounter := 0, DieThreshold := 2 }

/-- A task description of the scenarios: handler 1, mailbox of one message,
flag `Go`, user data 7. -/
def demoDesc (name : String) : schTaskDescription :=
  { Name := name, MbSize := 1, Ep := some 1, Wd := some demoDog, Flag := 0, DieCb := none,
    UserDa := some 7 }

/-- A group description of the scenarios. -/
def demoGroup (grp : String) (members : List String) : schTaskGroupDescription :=
  { Grp := grp, MbList := members, MbSize := 1, Ep := some 1, Wd := some demoDog, Flag := 0,
    DieCb := none }

/-- The state after a call, whatever it returned (the start state if the call
did not return). -/
def stateAfter (s : Sched) (r : Option (SchErrno × Option Nat × Sched)) : Sched :=
  match r with
  | some (_, _, s1) => s1
  | none => s

/-- Scenario: task "A" created on a fresh scheduler. -/
def demoOneTask : Sched :=
  stateAfter (freshSched demoConst) (schimplCreateTask demoConst (freshSched demoConst)
    (some (demoDesc "A")))

/-- Two control blocks agree on every field but the timer table and its
reverse map. -/
def sameButTimers (t t1 : schTask) : Prop :=
  t1.name = t.name ∧ t1.utep = t.utep ∧ t1.mailbox = t.mailbox ∧ t1.done = t.done ∧
  t1.stopped = t.stopped ∧ t1.dog = t.dog ∧ t1.dieCb = t.dieCb ∧ t1.goStatus = t.goStatus ∧
  t1.userData = t.userData

/-- Two states agree on the heads and sizes of the task lists, on the name
registry and on every link of the task pool. -/
def sameTaskLists (s s1 : Sched) : Prop :=
  s1.tkFree = s.tkFree ∧ s1.freeSize = s.freeSize ∧ s1.tkBusy = s.tkBusy ∧
  s1.busySize = s.busySize ∧ s1.tkMap = s.tkMap ∧
  ∀ i, (s1.schTaskNodePool i).next = (s.schTaskNodePool i).next ∧
    (s1.schTaskNodePool i).last = (s.schTaskNodePool i).last

/-- The state after a call without handle, whatever it returned (the start
state if the call did not return). -/
def stateAfterCode (s : Sched) (r : Option (SchErrno × Sched)) : Sched :=
  match r with
  | some (_, s1) => s1
  | none => s

/-- Scenario: task "A" created on a fresh scheduler, then torn down. -/
def demoAfterStop : Sched :=
  stateAfterCode demoOneTask (schimplStopTaskEx demoConst demoOneTask (some 0))

/-- Scenario: four tasks "A", "B", "C", "D" on a fresh scheduler of four nodes. -/
def demoFull : Sched :=
  match createAll demoConst [demoDesc "A", demoDesc "B", demoDesc "C", demoDesc "D"]
      (freshSched demoConst) with
  | some (_, s) => s
  | none => freshSched demoConst

/-- Scenario: group "G" with the single member "A" created on a fresh scheduler. -/
def demoOneGroup : Sched :=
  match schimplCreateTaskGroup demoConst (freshSched demoConst) (some (demoGroup "G" ["A"])) with
  | some (_, _, s) => s
  | none => freshSched demoConst

/-- Scenario: four valid descriptions with the names "A", "B", "C", "D". -/
def demoFourDescs : List schTaskDescription :=
  [demoDesc "A", demoDesc "B", demoDesc "C", demoDesc "D"]

/-- Scenario: four valid descriptions whose names are pairwise distinct, two of
them equal once the surrounding white space is trimmed. -/
def demoSpacedDescs : List schTaskDescription :=
  [demoDesc "A", demoDesc " A", demoDesc "B", demoDesc "C"]

/-! ## Messages and the handler loop -/

/-- The static node `rawSchTsk`, sender of the events of the scheduler. -/
def rawSchTsk : schTaskNode :=
  { task := { zeroTask with name := "schTsk" }, last := none, next := none }

/-- The static node `rawTmTsk`, sender of the timer events. -/
def rawTmTsk : schTaskNode :=
  { task := { zeroTask with name := "tmTsk" }, last := none, next := none }

/-- The node a non-nil `*schTaskNode` points to. -/
def nodeOf (s : Sched) : TaskPtr → schTaskNode
  | TaskPtr.pool i => s.schTaskNodePool i
  | TaskPtr.rawSchTsk => rawSchTsk
  | TaskPtr.rawTmTsk => rawTmTsk

/-- The mailbox channel of a pool node replaced by its new value (the two
static nodes have no mailbox). -/
def putMailbox (s : Sched) (r : TaskPtr) (q : Chan schMessage) : Sched :=
  match r with
  | TaskPtr.pool i =>
    setTask s i { (s.schTaskNodePool i).task with
      mailbox := { (s.schTaskNodePool i).task.mailbox with que := some q } }
  | _ => s

/-- Function `schimplSendMsg`.  `waiting` tells whether the handler loop of the
receiver is waiting in its `select` for a message.  The send on the mailbox
completes when the channel is open and has room, or hands the message to the
waiting loop; it waits otherwise. -/
def schimplSendMsg (s : Sched) (msg : Option schMessage) (waiting : Bool) :
    Option (SchErrno × Sched) :=
  match msg with
  | none => some (SchEnoParameter, s)
  | some m =>
    match m.sender with
    | none => some (SchEnoParameter, s)
    | some _ =>
      match m.recver with
      | none => some (SchEnoParameter, s)
      | some r =>
        match (nodeOf s r).task.mailbox.que with
        | none => some (SchEnoInternal, s)
        | some q =>
          match chanSendTo (some q) m waiting with
          | none => none
          | some q1 => some (SchEnoNone, putMailbox s r q1)

/-- Zero value of `schMessage`. -/
def zeroMessage : schMessage := { sender := none, recver := none, Id := 0, Body := none }

/-- Receive `v := <-ch` taken alone: the oldest buffered element; on an empty
closed channel the zero value; on a nil channel or an empty open one it waits. -/
def chanRecv {α : Type} (zero : α) (ch : Option (Chan α)) : Option (α × Chan α) :=
  match ch with
  | none => none
  | some c =>
    match c.buf with
    | v :: rest => some (v, { c with buf := rest })
    | [] => if c.closed then some (zero, c) else none

/-- The branch `case msg := <-*queMsg` of the loop of `schimplCommonTask`, up to
the call of the handler: the message is taken from the mailbox and the dog
wakes up (`Inited = HaveDog`).  The message returned is the one the handler
is called with. -/
def commonTaskDispatch (s : Sched) (ptn : Nat) : Option (schMessage × Sched) :=
  match chanRecv zeroMessage (s.schTaskNodePool ptn).task.mailbox.que with
  | none => none
  | some (msg, q1) =>
    let t := (s.schTaskNodePool ptn).task
    let s := setTask s ptn { t with mailbox := { t.mailbox with que := some q1 } }
    let t := (s.schTaskNodePool ptn).task
    some (msg, setTask s ptn { t with dog := { t.dog with Inited := t.dog.HaveDog } })

/-- The same branch after the handler has returned: the dog sleeps. -/
def commonTaskHandled (s : Sched) (ptn : Nat) : Sched :=
  let t := (s.schTaskNodePool ptn).task
  setTask s ptn { t with dog := { t.dog with Inited := false } }

/-- What happens around one mailbox: a completed `schimplSendMsg` (with the
receiver's loop waiting or not), or one round of the message branch of the
handler loop of the owner. -/
inductive MbEvent where
  | send (m : schMessage) (waiting : Bool)
  | dispatch

/-- A run of mailbox events on the handler loop of task node `ptn`: the
messages passed to the handler, in order, and the state reached.  The run
stops (`none`) at a send that does not return `SchEnoNone` and at a dispatch
that finds nothing to receive. -/
def runMailbox (ptn : Nat) : List MbEvent → Sched → Option (List schMessage × Sched)
  | [], s => some ([], s)
  | MbEvent.send m waiting :: evs, s =>
    match schimplSendMsg s (some m) waiting with
    | some (SchEnoNone, s1) => runMailbox ptn evs s1
    | _ => none
  | MbEvent.dispatch :: evs, s =>
    match commonTaskDispatch s ptn with
    | none => none
    | some (msg, s1) =>
      match runMailbox ptn evs (commonTaskHandled s1 ptn) with
      | none => none
      | some (log, s2) => some (msg :: log, s2)

/-- The messages of the completed sends of a run that go to pool node `ptn`. -/
def sentTo (ptn : Nat) : List MbEvent → List schMessage
  | [] => []
  | MbEvent.send m _ :: evs =>
    if m.recver = some (TaskPtr.pool ptn) then m :: sentTo ptn evs else sentTo ptn evs
  | MbEvent.dispatch :: evs => sentTo ptn evs

/-- The messages waiting in the mailbox of pool node `ptn`, oldest first. -/
def mailboxOf (s : Sched) (ptn : Nat) : List schMessage :=
  match (s.schTaskNodePool ptn).task.mailbox.que with
  | none => []
  | some q => q.buf

/-! ## Watchdog -/

/-- The body of the loop of `dogWatch` for one node: with `HaveDog` and
`Inited` the bite counter is incremented, compared with the threshold (a
diagnostic is logged, nothing else) and set to zero. -/
def dogBite (s : Sched) (ptn : Nat) : Sched :=
  let t := (s.schTaskNodePool ptn).task
  if t.dog.HaveDog = true ∧ t.dog.Inited = true then
    let t := { t with dog := { t.dog with BiteCounter := t.dog.BiteCounter + 1 } }
    let t := { t with dog := { t.dog with BiteCounter := 0 } }
    setTask s ptn t
  else s

/-- The loop of `dogWatch` from node `ptn`: it ends when `next` leads back to
`tkBusy`; a nil `next` is a nil dereference in the next round.  `fuel` bounds
the number of rounds of the model. -/
def dogWalk : Nat → Sched → Nat → Option Sched
  | 0, _, _ => none
  | fuel + 1, s, ptn =>
    let s := dogBite s ptn
    match (s.schTaskNodePool ptn).next with
    | none => none
    | some nx => if some nx = s.tkBusy then some s else dogWalk fuel s nx

/-- Function `dogWatch` (one sweep of the watchdog). -/
def dogWatch (fuel : Nat) (s : Sched) : Option (SchErrno × Sched) :=
  match s.tkBusy with
  | none => some (SchEnoNone, s)
  | some ptn =>
    match dogWalk fuel s ptn with
    | none => none
    | some s1 => some (SchEnoNone, s1)

/-- A number of consecutive sweeps. -/
def dogWatchTimes (fuel : Nat) : Nat → Sched → Option Sched
  | 0, s => some s
  | n + 1, s =>
    match dogWatch fuel s with
    | none => none
    | some (_, s1) => dogWatchTimes fuel n s1

/-! ## Timers -/

/-- Modelled from the spec: the constants of the timer engine and of the event
identifiers that `schimpl.go` uses and that are declared outside it. -/
structure SchTimerConst where
  schInvalidTid : Int
  schTmTypeNull : Int
  schTmTypePeriod : Int
  schTmTypeAbsolute : Int
  EvSchNull : Int
  EvTimerBase : Int

/-- Modelled from the spec: `timerDescription`, declared outside `schimpl.go`. -/
structure timerDescription where
  Name : String
  Utid : Int
  Tmt : Int
  Dur : Int
  Extra : Option Nat

/-- Assignments to fields of `p.tmcb` on a timer node: the control block becomes
`f` of its value. -/
def modTmcb (s : Sched) (p : Nat) (f : schTmcb → schTmcb) : Sched :=
  setTmcb s p (f (s.schTimerNodePool p).tmcb)

/-- Assignments to fields of `p.task` on a task node: the control block becomes
`f` of its value. -/
def modTask (s : Sched) (p : Nat) (f : schTask → schTask) : Sched :=
  setTask s p (f (s.schTaskNodePool p).task)

/-- The timer-to-owner map `p2pSDL.tmMap` replaced by `m`. -/
def setTmMap (s : Sched) (m : GoMap Nat Nat) : Sched := { s with tmMap := m }

/-- Go `int` on a 64-bit platform: the value an integer has after the
wrap-around of two's complement arithmetic. -/
def wrapInt (x : Int) : Int := (x + 2 ^ 63) % 2 ^ 64 - 2 ^ 63

/-- Function `schimplSendTimerEvent`.  `waiting` tells whether the handler loop
of the owner is waiting in its `select` for a message. -/
def schimplSendTimerEvent (k : SchTimerConst) (s : Sched) (ptm : Nat) (waiting : Bool) :
    Option (SchErrno × Sched) :=
  match (s.schTimerNodePool ptm).tmcb.taskNode with
  | none => none
  | some owner =>
    let msg : schMessage :=
      { sender := some TaskPtr.rawTmTsk, recver := some (TaskPtr.pool owner), Id := k.EvSchNull,
        Body := (s.schTimerNodePool ptm).tmcb.extra }
    let msg := { msg with Id := wrapInt (k.EvTimerBase + (s.schTimerNodePool ptm).tmcb.utid) }
    match (s.schTaskNodePool owner).task.mailbox.que with
    | none => none
    | some q =>
      match chanSendTo (some q) msg waiting with
      | none => none
      | some q1 => some (SchEnoNone, putMailbox s (TaskPtr.pool owner) q1)

/-- The first loop of `schimplSetTimer`: the first index below
`schMaxTaskTimer` whose table entry is nil, `schMaxTaskTimer` if there is none. -/
def firstFreeTid (c : SchConst) (tmTab : Nat → Option Nat) : Nat :=
  ((List.range c.schMaxTaskTimer).find? (fun i => decide (tmTab i = none))).getD
    c.schMaxTaskTimer

/-- Function `schimplSetTimer`.  The `go schimplTimerCommonTask(ptm)` at its end
starts the execution context of the timer, whose effects on the scheduler
state are `schimplSendTimerEvent`, `funcAbsTimerClean` and `timerExit` below. -/
def schimplSetTimer (c : SchConst) (k : SchTimerConst) (s : Sched) (ptn : Option Nat)
    (tdc : Option timerDescription) : Option (SchErrno × Int × Sched) :=
  match ptn, tdc with
  | some ptn, some tdc =>
    let tid := firstFreeTid c (s.schTaskNodePool ptn).task.tmTab
    if tid ≥ c.schMaxTaskTimer then some (SchEnoResource, k.schInvalidTid, s)
    else
      match schimplGetTimerNode s with
      | none => none
      | some (SchEnoNone, some ptm, s) =>
        let s := modTmcb s ptm (fun tcb =>
          { tcb with stopped := some { cap := 0, buf := [], closed := false } })
        let s := modTmcb s ptm (fun tcb =>
          { tcb with stop := some { cap := 1, buf := [], closed := false } })
        let s := modTask s ptn (fun t =>
          { t with tmTab := Function.update t.tmTab tid (some ptm) })
        let s := modTask s ptn (fun t => { t with tmIdxTab := mapPut t.tmIdxTab ptm (tid : Int) })
        let s := setTmMap s (mapPut s.tmMap ptm ptn)
        let s := modTmcb s ptm (fun tcb =>
          { tcb with name := tdc.Name, utid := tdc.Utid, tmt := tdc.Tmt, dur := tdc.Dur,
                     taskNode := some ptn, extra := tdc.Extra })
        some (SchEnoNone, (tid : Int), s)
      | some (eno, _, s) => some (eno, k.schInvalidTid, s)
  | _, _ => some (SchEnoParameter, k.schInvalidTid, s)

/-- Function `schimplKillTimer`.  The timer table has `schMaxTaskTimer` entries,
so the index `schMaxTaskTimer`, which the parameter check lets through, is out
of range.  After the stop signal the function waits for the answer of the
timer on `stopped`; `ack` is that answer (`none` if it never comes). -/
def schimplKillTimer (c : SchConst) (s : Sched) (ptn : Option Nat) (tid : Int)
    (ack : Option Bool) : Option (SchErrno × Sched) :=
  match ptn with
  | none => some (SchEnoParameter, s)
  | some ptn =>
    if tid < 0 ∨ tid > c.schMaxTaskTimer then some (SchEnoParameter, s)
    else if (c.schMaxTaskTimer : Int) ≤ tid then none
    else
      match (s.schTaskNodePool ptn).task.tmTab tid.toNat with
      | none => some (SchEnoNotFound, s)
      | some tm =>
        match chanSend (s.schTimerNodePool tm).tmcb.stop true with
        | none => none
        | some ch =>
          let s := modTmcb s tm (fun tcb => { tcb with stop := some ch })
          match ack with
          | none => none
          | some true => some (SchEnoNone, s)
          | some false => some (SchEnoInternal, s)

/-- The index `tid` the execution context of a timer reads from the reverse map
of the owner when it starts (a map read, zero for a missing key). -/
def timerStartTid (s : Sched) (ptm : Nat) : Option Int :=
  match (s.schTimerNodePool ptm).tmcb.taskNode with
  | none => none
  | some owner => some ((mapGet (s.schTaskNodePool owner).task.tmIdxTab ptm).getD 0)

/-- The closure `funcAbsTimerClean` of `schimplTimerCommonTask` (also used as
`funcCycTimerClean`), with the `tid` the context has read at its start. -/
def funcAbsTimerClean (c : SchConst) (k : SchTimerConst) (s : Sched) (tn : Nat) (tid : Int) :
    Option Sched :=
  match (s.schTimerNodePool tn).tmcb.taskNode with
  | none => none
  | some owner =>
    let s := modTask s owner (fun t => { t with tmIdxTab := mapDel t.tmIdxTab tn })
    let s := setTmMap s (mapDel s.tmMap tn)
    if tid < 0 ∨ (c.schMaxTaskTimer : Int) ≤ tid then none
    else
      let s := modTask s owner (fun t =>
        { t with tmTab := Function.update t.tmTab tid.toNat none })
      some (modTmcb s tn (fun tcb =>
        { tcb with name := "", tmt := k.schTmTypeNull, dur := 0, extra := none }))

/-- The exit of `schimplTimerCommonTask` after its loop: when killed, the
`stopped` signal (taken by the waiting killer) and the close of both channels;
then the owner is forgotten and the node goes back to the pool. -/
def timerExit (s : Sched) (ptm : Nat) (killed : Bool) : Option (SchErrno × Sched) :=
  let closed : Option Sched :=
    if killed then
      match (s.schTimerNodePool ptm).tmcb.stopped with
      | none => none
      | some ch =>
        if ch.closed then none
        else
          match chanClose (s.schTimerNodePool ptm).tmcb.stop with
          | none => none
          | some _ =>
            some (modTmcb s ptm (fun tcb => { tcb with stop := none, stopped := none }))
    else some s
  match closed with
  | none => none
  | some s =>
    match (s.schTimerNodePool ptm).tmcb.taskNode with
    | none => none
    | some _ =>
      let s := modTmcb s ptm (fun tcb => { tcb with taskNode := none })
      schimplRetTimerNode s (some ptm)

/-- The expiry of a one-shot timer in `schimplTimerCommonTask`: the timer event,
the clean-up, the exit. -/
def timerExpired (c : SchConst) (k : SchTimerConst) (s : Sched) (ptm : Nat) (tid : Int)
    (waiting : Bool) : Option (SchErrno × Sched) :=
  match schimplSendTimerEvent k s ptm waiting with
  | none => none
  | some (_, s) =>
    match funcAbsTimerClean c k s ptm tid with
    | none => none
    | some s => timerExit s ptm false

/-- The stop request `true` in `schimplTimerCommonTask` (one-shot or periodic):
the clean-up, the exit as killed. -/
def timerKilled (c : SchConst) (k : SchTimerConst) (s : Sched) (ptm : Nat) (tid : Int) :
    Option (SchErrno × Sched) :=
  match funcAbsTimerClean c k s ptm tid with
  | none => none
  | some s => timerExit s ptm true

/-- The timer table of task node `ptn`. -/
def tmTabOf (s : Sched) (ptn : Nat) : Nat → Option Nat := (s.schTaskNodePool ptn).task.tmTab

/-- The reverse map of task node `ptn`. -/
def tmIdxTabOf (s : Sched) (ptn : Nat) : GoMap Nat Int := (s.schTaskNodePool ptn).task.tmIdxTab

/-! ## Scenarios for starting, messages, timers and the watchdog -/

/-- Scenario: task "A" created with flag `Suspend` on a fresh scheduler. -/
def demoSuspended : Sched :=
  stateAfter (freshSched demoConst) (schimplCreateTask demoConst (freshSched demoConst)
    (some { demoDesc "A" with Flag := 1 }))

/-- Timer constants of the scenarios. -/
def demoTimerConst : SchTimerConst :=
  { schInvalidTid := -1, schTmTypeNull := 0, schTmTypePeriod := 1, schTmTypeAbsolute := 2,
    EvSchNull := 0, EvTimerBase := 1000 }

/-- A message of the scenarios, from the scheduler to pool node 0. -/
def demoMsg (id : Int) : schMessage :=
  { sender := some TaskPtr.rawSchTsk, recver := some (TaskPtr.pool 0), Id := id, Body := none }

/-- A task description with a watchdog and a mailbox of two messages. -/
def demoDogDesc : schTaskDescription :=
  { Name := "A", MbSize := 2, Ep := some 1,
    Wd := some { HaveDog := true, Inited := false, Cycle := 1, BiteCounter := 0,
                 DieThreshold := 3 },
    Flag := 0, DieCb := none, UserDa := none }

/-- Scenario: the watched task "A" created on a fresh scheduler. -/
def demoWatched : Sched :=
  stateAfter (freshSched demoConst) (schimplCreateTask demoConst (freshSched demoConst)
    (some demoDogDesc))

/-- Scenario: the watched task "A" has received one message and is inside its
handler (the message branch of the loop has not yet come back). -/
def demoInHandler : Sched :=
  match schimplSendMsg demoWatched (some (demoMsg 1)) false with
  | none => demoWatched
  | some (_, s) =>
    match commonTaskDispatch s 0 with
    | none => s
    | some (_, s1) => s1

/-- A one-shot timer description of the scenarios. -/
def demoTimerDesc (u : Int) : timerDescription :=
  { Name := "t", Utid := u, Tmt := 2, Dur := 5, Extra := some 9 }

/-- The state a result of `schimplSetTimer` carries (the state before, when the
call does not return). -/
def stateAfterTimer (s : Sched) (r : Option (SchErrno × Int × Sched)) : Sched :=
  match r with
  | some (_, _, s1) => s1
  | none => s

/-- Scenario: task "A" with one armed timer (tag 7). -/
def demoArmed : Sched :=
  stateAfterTimer demoOneTask
    (schimplSetTimer demoConst demoTimerConst demoOneTask (some 0) (some (demoTimerDesc 7)))

/-- Consecutive calls of `schimplSetTimer` on task node `ptn`, one for each
description, with no kill and no expiry in between: the codes and timer
identifiers returned, in order, and the state reached. -/
def setTimers (c : SchConst) (k : SchTimerConst) (ptn : Nat) :
    List timerDescription → Sched → Option (List (SchErrno × Int) × Sched)
  | [], s => some ([], s)
  | tdc :: rest, s =>
    match schimplSetTimer c k s (some ptn) (some tdc) with
    | none => none
    | some (eno, tid, s1) =>
      match setTimers c k ptn rest s1 with
      | none => none
      | some (res, s2) => some ((eno, tid) :: res, s2)

/-- Scenario: task "A" with two armed timers (tags 7 and 8): its timer table,
of two entries, is full. -/
def demoTwoTimers : Sched :=
  stateAfterTimer demoArmed
    (schimplSetTimer demoConst demoTimerConst demoArmed (some 0) (some (demoTimerDesc 8)))

/-! ## The reverse map of timers -/

/-- The reverse map of task node `p` records index `i` for timer node `tm`
exactly when position `i` of the timer table of `p` holds `tm`. -/
def revMapOk (c : SchConst) (s : Sched) (p : Nat) : Prop :=
  ∀ (tm : Nat) (i : Int), mapGet (tmIdxTabOf s p) tm = some i ↔
    (0 ≤ i ∧ i < c.schMaxTaskTimer ∧ tmTabOf s p i.toNat = some tm)

/-- No timer is armed: the free list of timer nodes is well formed, every timer
table is empty and so is every reverse map. -/
def TimersIdle (s : Sched) : Prop :=
  (∃ lft, RingAt (tmNext s) (tmLast s) s.tmFree s.tmFreeSize lft) ∧
  ∀ p, (∀ i, tmTabOf s p i = none) ∧ tmIdxTabOf s p = []

/-- The states reached from a state without timers by `schimplSetTimer`, by the
expiry of a one-shot timer and by the kill of a timer, in any order on any
task nodes.  The list holds the running timer contexts: the timer node and
the index `tid` its context has read from the reverse map when it started. -/
inductive TimerReachable (c : SchConst) (k : SchTimerConst) : Sched → List (Nat × Int) → Prop
  | idle (s : Sched) : TimersIdle s → TimerReachable c k s []
  | armed (s : Sched) (ctxs : List (Nat × Int)) (ptn : Nat) (tdc : timerDescription)
      (tid : Int) (s1 : Sched) (ptm : Nat) (tid0 : Int) :
      TimerReachable c k s ctxs →
      schimplSetTimer c k s (some ptn) (some tdc) = some (SchEnoNone, tid, s1) →
      tmTabOf s1 ptn tid.toNat = some ptm → timerStartTid s1 ptm = some tid0 →
      TimerReachable c k s1 ((ptm, tid0) :: ctxs)
  | refused (s : Sched) (ctxs : List (Nat × Int)) (ptn : Nat) (tdc : timerDescription)
      (eno : SchErrno) (tid : Int) (s1 : Sched) :
      TimerReachable c k s ctxs →
      schimplSetTimer c k s (some ptn) (some tdc) = some (eno, tid, s1) → eno ≠ SchEnoNone →
      TimerReachable c k s1 ctxs
  | expired (s : Sched) (ctxs : List (Nat × Int)) (ptm : Nat) (tid0 : Int) (waiting : Bool)
      (eno : SchErrno) (s1 : Sched) :
      TimerReachable c k s ctxs → (ptm, tid0) ∈ ctxs →
      timerExpired c k s ptm tid0 waiting = some (eno, s1) →
      TimerReachable c k s1 (ctxs.filter (fun x => decide (x.1 ≠ ptm)))
  | killed (s : Sched) (ctxs : List (Nat × Int)) (ptm : Nat) (tid0 : Int) (eno : SchErrno)
      (s1 : Sched) :
      TimerReachable c k s ctxs → (ptm, tid0) ∈ ctxs →
      timerKilled c k s ptm tid0 = some (eno, s1) →
      TimerReachable c k s1 (ctxs.filter (fun x => decide (x.1 ≠ ptm)))

/-- The timer side of a state is well formed, with free list `lft` and running
contexts `ctxs`: the free list is a ring; every reverse map agrees with its
table; a node held by a table is within the table bounds, off the free list
and owned by the task of that table; every running context holds a node that
sits in the table of its owner at the index the context has read; no node
runs twice. -/
structure TimerWF (c : SchConst) (s : Sched) (ctxs : List (Nat × Int)) (lft : List Nat) :
    Prop where
  free : RingAt (tmNext s) (tmLast s) s.tmFree s.tmFreeSize lft
  rev : ∀ p, revMapOk c s p
  owned : ∀ p i tm, tmTabOf s p i = some tm →
    i < c.schMaxTaskTimer ∧ tm ∉ lft ∧ (s.schTimerNodePool tm).tmcb.taskNode = some p
  live : ∀ x, x ∈ ctxs → ∃ p, (s.schTimerNodePool x.1).tmcb.taskNode = some p ∧
    0 ≤ x.2 ∧ x.2 < c.schMaxTaskTimer ∧ tmTabOf s p x.2.toNat = some x.1
  nodup : (ctxs.map Prod.fst).Nodup

/-- Scenario: one timer (tag 7) armed on task node 0 of a fresh scheduler. -/
def demoFreshArmed : Sched :=
  stateAfterTimer (freshSched demoConst)
    (schimplSetTimer demoConst demoTimerConst (freshSched demoConst) (some 0)
      (some (demoTimerDesc 7)))

/-! ## The execution context of a timer -/

/-- What wakes the `select` of a timer context: the ticker or the end of the
duration (`tick`, with the handler loop of the owner waiting for a message or
not), or a value that can be received from the `stop` channel. -/
inductive TimerEvent where
  | tick (waiting : Bool)
  | stop
  deriving DecidableEq

/-- The receive `stop := <-ptm.tmcb.stop`. -/
def timerRecvStop (s : Sched) (ptm : Nat) : Option (Bool × Sched) :=
  match chanRecv false (s.schTimerNodePool ptm).tmcb.stop with
  | none => none
  | some (v, ch) => some (v, modTmcb s ptm (fun tcb => { tcb with stop := some ch }))

/-- The loop `timerLoop` of a periodic timer: every tick sends the timer event;
a stop request `true` runs the clean-up and leaves the loop as killed; with no
event left the loop waits. -/
def periodicLoop (c : SchConst) (k : SchTimerConst) (ptm : Nat) (tid : Int) :
    List TimerEvent → Sched → Option (Bool × Sched)
  | [], _ => none
  | TimerEvent.tick waiting :: evs, s =>
    match schimplSendTimerEvent k s ptm waiting with
    | none => none
    | some (_, s1) => periodicLoop c k ptm tid evs s1
  | TimerEvent.stop :: evs, s =>
    match timerRecvStop s ptm with
    | none => none
    | some (true, s1) =>
      match funcAbsTimerClean c k s1 ptm tid with
      | none => none
      | some s2 => some (true, s2)
    | some (false, s1) => periodicLoop c k ptm tid evs s1

/-- Function `schimplTimerCommonTask`, the execution context `schimplSetTimer`
starts for timer node `ptm`, run on the events `evs`.  The first statements
read through `ptm` and `ptm.tmcb.taskNode`, before the nil check of `ptm`.
For a periodic timer `time.NewTicker(dur)` panics when `dur <= 0`.  A one-shot
timer with `dur <= 0` and a timer of unknown type return `SchEnoParameter` at
once. -/
def schimplTimerCommonTask (c : SchConst) (k : SchTimerConst) (s : Sched) (ptm : Option Nat)
    (evs : List TimerEvent) : Option (SchErrno × Sched) :=
  match ptm with
  | none => none
  | some ptm =>
    match timerStartTid s ptm with
    | none => none
    | some tid =>
      if (s.schTimerNodePool ptm).tmcb.tmt = k.schTmTypePeriod then
        if (s.schTimerNodePool ptm).tmcb.dur ≤ 0 then none
        else
          match periodicLoop c k ptm tid evs s with
          | none => none
          | some (killed, s1) => timerExit s1 ptm killed
      else if (s.schTimerNodePool ptm).tmcb.tmt = k.schTmTypeAbsolute then
        if (s.schTimerNodePool ptm).tmcb.dur ≤ 0 then some (SchEnoParameter, s)
        else
          match evs with
          | [] => none
          | TimerEvent.tick waiting :: _ => timerExpired c k s ptm tid waiting
          | TimerEvent.stop :: _ =>
            match timerRecvStop s ptm with
            | none => none
            | some (true, s1) => timerKilled c k s1 ptm tid
            | some (false, s1) => timerExit s1 ptm false
      else some (SchEnoParameter, s)

/-- The mutexes a timer context works with: the lock of the owner task and the
lock of the scheduler `p2pSDL.lock`; `true` is held. -/
structure Locks where
  task : Bool
  sched : Bool
  deriving DecidableEq

/-- The lock operations and the timer-event send of a path through
`schimplTimerCommonTask`, in program order. -/
inductive LockOp where
  | taskLock
  | taskUnlock
  | schedLock
  | schedUnlock
  | sendTimerEvent
  | timerClean
  deriving DecidableEq

/-- Run a path from a lock state: the lock states at which
`schimplSendTimerEvent` is called, in order.  Locking a mutex that the context
holds already never returns, unlocking one that is not held is a run-time
error. -/
def locksAtSend : List LockOp → Locks → Option (List Locks)
  | [], _ => some []
  | LockOp.taskLock :: ops, l =>
    if l.task then none else locksAtSend ops { l with task := true }
  | LockOp.taskUnlock :: ops, l =>
    if l.task then locksAtSend ops { l with task := false } else none
  | LockOp.schedLock :: ops, l =>
    if l.sched then none else locksAtSend ops { l with sched := true }
  | LockOp.schedUnlock :: ops, l =>
    if l.sched then locksAtSend ops { l with sched := false } else none
  | LockOp.sendTimerEvent :: ops, l => (locksAtSend ops l).map (fun r => l :: r)
  | LockOp.timerClean :: ops, l => locksAtSend ops l

/-- One round of `timerLoop` for a tick of a periodic timer (`case <-tm.C`):
the lock of the task, the send, the unlock at the end of the round. -/
def periodicTickPath : List LockOp :=
  [LockOp.taskLock, LockOp.sendTimerEvent, LockOp.taskUnlock]

/-- The expiry of a one-shot timer (`case <-to`) up to the return of the
context: the lock of the task, the lock of the scheduler, the send, the
clean-up, the unlock of the scheduler; at the exit the unlock of the task and
`schimplRetTimerNode`, which takes and gives back the lock of the scheduler. -/
def oneShotExpiryPath : List LockOp :=
  [LockOp.taskLock, LockOp.schedLock, LockOp.sendTimerEvent, LockOp.timerClean,
   LockOp.schedUnlock, LockOp.taskUnlock, LockOp.schedLock, LockOp.schedUnlock]

/-! ## States of the task pool reached by the four list operations -/

/-- The states reached from initialisation by `schimplGetTaskNode`, by
`schimplRetTaskNode` and `schimplTaskBusyEnque` of a node that is on neither
list, and by `schimplTaskBusyDeque` of a node that is on the busy list. -/
inductive PoolReachable (c : SchConst) : Sched → Prop where
  | init : PoolReachable c (freshSched c)
  | acquire (s : Sched) (eno : SchErrno) (ptn : Option Nat) (s1 : Sched) :
      PoolReachable c s → schimplGetTaskNode s = some (eno, ptn, s1) → PoolReachable c s1
  | release (s : Sched) (p : Nat) (eno : SchErrno) (s1 : Sched) :
      PoolReachable c s → p ∉ freeList s → p ∉ busyList s →
      schimplRetTaskNode s (some p) = some (eno, s1) → PoolReachable c s1
  | enque (s : Sched) (p : Nat) (eno : SchErrno) (s1 : Sched) :
      PoolReachable c s → p ∉ freeList s → p ∉ busyList s →
      schimplTaskBusyEnque s (some p) = some (eno, s1) → PoolReachable c s1
  | deque (s : Sched) (p : Nat) (eno : SchErrno) (s1 : Sched) :
      PoolReachable c s → p ∈ busyList s →
      schimplTaskBusyDeque s (some p) = some (eno, s1) → PoolReachable c s1

/-- The state a result of `schimplGetTaskNode` carries. -/
def stateAfterGet (s : Sched) (r : Option (SchErrno × Option Nat × Sched)) : Sched :=
  match r with
  | some (_, _, s1) => s1
  | none => s

/-- Scenario: a node is acquired from a fresh scheduler (node 0) and put on the
busy list. -/
def demoEnqued : Sched :=
  stateAfterCode (freshSched demoConst)
    (schimplTaskBusyEnque (stateAfterGet (freshSched demoConst)
      (schimplGetTaskNode (freshSched demoConst))) (some 0))

/-- Scenario: node 0, which is on the busy list, is put on the busy list again. -/
def demoEnquedTwice : Sched :=
  stateAfterCode demoEnqued (schimplTaskBusyEnque demoEnqued (some 0))

/-- Scenario: node 1, which is on the free list of a fresh scheduler, is put on
the busy list. -/
def demoEnquedFree : Sched :=
  stateAfterCode (freshSched demoConst) (schimplTaskBusyEnque (freshSched demoConst) (some 1))

/-- Scenario: a fresh scheduler whose recorded free size of the task pool is 1
(the free list has 4 nodes). -/
def demoBadFreeSize : Sched := { freshSched demoConst with freeSize := 1 }

/-- Scenario: a fresh scheduler whose recorded free size of the timer pool is 1
(the free list has 4 nodes). -/
def demoBadTimerFreeSize : Sched := { freshSched demoConst with tmFreeSize := 1 }

/-- The state a result of a group creation carries. -/
def stateAfterGroup (s : Sched) (r : Option (SchErrno × List (Option Nat) × Sched)) : Sched :=
  match r with
  | some (_, _, s1) => s1
  | none => s

/-- Scenario: the group "G" is created with member "A", then a group is created
under the same name "G" with member "B". -/
def demoGroupTwice : Sched :=
  stateAfterGroup demoOneGroup
    (schimplCreateTaskGroup demoConst demoOneGroup (some (demoGroup "G" ["B"])))

/-- Scenario: task "A" arms a one-shot timer with duration 0. -/
def demoZeroDur : Sched :=
  stateAfterTimer demoOneTask
    (schimplSetTimer demoConst demoTimerConst demoOneTask (some 0)
      (some { demoTimerDesc 7 with Dur := 0 }))

/-- Scenario: task "A" arms a timer whose type (7) is neither one-shot nor
periodic. -/
def demoBadType : Sched :=
  stateAfterTimer demoOneTask
    (schimplSetTimer demoConst demoTimerConst demoOneTask (some 0)
      (some { demoTimerDesc 7 with Tmt := 7 }))

/-! ## Scenarios for full mailboxes and large timer tags -/

/-- Scenario: task "A" (mailbox of one message) with one message waiting and
no handler loop receiving: its mailbox is full. -/
def demoMailboxFull : Sched :=
  stateAfterCode demoOneTask (schimplSendMsg demoOneTask (some (demoMsg 1)) false)

/-- Scenario: task "A" with one armed timer and a full mailbox. -/
def demoArmedFull : Sched :=
  stateAfterCode demoArmed (schimplSendMsg demoArmed (some (demoMsg 1)) false)

/-- Scenario: task "A" arms a timer whose tag is the largest 64-bit `int`. -/
def demoHugeTag : Sched :=
  stateAfterTimer demoOneTask
    (schimplSetTimer demoConst demoTimerConst demoOneTask (some 0)
      (some (demoTimerDesc 9223372036854775807)))

/-- Scenario: task "A" created with a mailbox of capacity 0. -/
def demoPerpetual : Sched :=
  stateAfter (freshSched demoConst) (schimplCreateTask demoConst (freshSched demoConst)
    (some { demoDesc "A" with MbSize := 0 }))

end Scheduler

/-!
# The discovery messages (`discover/udpmsg/udpmsg.go`)

The messages of `udpmsg.go`, the protobuf envelope they are copied to and
from, and the functions of the file.  A function that can end in a run-time
panic (nil dereference, failed type assertion, index out of range) returns
`none` there; the `Encode...` functions, which write to the `UdpMsg` before
they fail, return the `UdpMsg` they leave together with the code they return,
if they return.
-/

namespace Udpmsg

/-- A Go `[]byte` (`net.IP` is one): the bytes, in order. -/
abbrev Bytes := List Nat

/-- Modelled from the spec: the node identity `ycfg.NodeID`, declared outside
`udpmsg.go`; `CompareWith` compares two of them with `!=`. -/
structure NodeID where
  val : List Nat
  deriving DecidableEq

/-- Constants `UdpMsgTypePing` ... `UdpMsgTypeUnknown`. -/
inductive UdpMsgType where
  | UdpMsgTypePing
  | UdpMsgTypePong
  | UdpMsgTypeFindNode
  | UdpMsgTypeNeighbors
  | UdpMsgTypeUnknown
  deriving DecidableEq, Repr

/-- Constants `UdpMsgEnoNone` ... `UdpMsgEnoUnknown`. -/
inductive UdpMsgErrno where
  | UdpMsgEnoNone
  | UdpMsgEnoParameter
  | UdpMsgEnoEncodeFailed
  | UdpMsgEnoDecodeFailed
  | UdpMsgEnoMessage
  | UdpMsgEnoUnknown
  deriving DecidableEq, Repr

open UdpMsgType UdpMsgErrno

/-- Struct `Node`. -/
structure Node where
  IP : Bytes
  UDP : Nat
  TCP : Nat
  NodeId : NodeID
  deriving DecidableEq

/-- Struct `Ping`. -/
structure Ping where
  From : Node
  To : Node
  Expiration : Nat
  Id : Nat
  Extra : Bytes
  deriving DecidableEq

/-- Struct `Pong`. -/
structure Pong where
  From : Node
  To : Node
  Id : Nat
  Expiration : Nat
  Extra : Bytes
  deriving DecidableEq

/-- Struct `FindNode`. -/
structure FindNode where
  From : Node
  To : Node
  Target : Node
  Id : Nat
  Expiration : Nat
  Extra : Bytes
  deriving DecidableEq

/-- Struct `Neighbors`; `Nodes` is a `[]*Node`. -/
structure Neighbors where
  From : Node
  To : Node
  Id : Nat
  Nodes : List (Option Node)
  Expiration : Nat
  Extra : Bytes
  deriving DecidableEq

/-- Modelled from the spec: the message-type tag of the envelope
(`pb.UdpMessage_MessageType`), declared in the generated package `pb`. -/
inductive MessageType where
  | PING
  | PONG
  | FINDNODE
  | NEIGHBORS
  | other (n : Int)
  deriving DecidableEq

/-- Modelled from the spec: the endpoint record of a payload
(`pb.UdpMessage_Node`), declared in the generated package `pb`.  `udpmsg.go`
reads and writes `TCP` and `UDP` through a pointer. -/
structure PbNode where
  IP : Bytes
  TCP : Option Nat
  UDP : Option Nat
  NodeId : Bytes
  deriving DecidableEq

/-- Modelled from the spec: the payload `pb.UdpMessage_Ping`; the endpoints are
pointers to records, `Expiration` is a pointer. -/
structure PbPing where
  From : Option PbNode
  To : Option PbNode
  Expiration : Option Nat
  Extra : Bytes
  deriving DecidableEq

/-- Modelled from the spec: the payload `pb.UdpMessage_Pong`. -/
structure PbPong where
  From : Option PbNode
  To : Option PbNode
  Expiration : Option Nat
  Extra : Bytes
  deriving DecidableEq

/-- Modelled from the spec: the payload `pb.UdpMessage_FindNode`. -/
structure PbFindNode where
  From : Option PbNode
  To : Option PbNode
  Target : Option PbNode
  Expiration : Option Nat
  Extra : Bytes
  deriving DecidableEq

/-- Modelled from the spec: the payload `pb.UdpMessage_Neighbors`; `Nodes` is a
slice of pointers to records. -/
structure PbNeighbors where
  From : Option PbNode
  To : Option PbNode
  Nodes : List (Option PbNode)
  Expiration : Option Nat
  Extra : Bytes
  deriving DecidableEq

/-- Modelled from the spec: the envelope `pb.UdpMessage`: a tag and one
payload per message shape, all pointers. -/
structure UdpMessage where
  MsgType : Option MessageType
  Ping : Option PbPing
  Pong : Option PbPong
  FindNode : Option PbFindNode
  Neighbors : Option PbNeighbors
  deriving DecidableEq

/-- The part of `net.UDPAddr` the file reads, and its port. -/
structure UDPAddr where
  IP : Bytes
  Port : Int
  deriving DecidableEq

/-- Struct `UdpMsg`. -/
structure UdpMsg where
  Buf : Bytes
  Len : Int
  From : Option UDPAddr
  Msg : UdpMessage
  Eno : UdpMsgErrno
  deriving DecidableEq

/-- Modelled from the spec: what `udpmsg.go` uses of the packages `pb` and
`config`, which are not in the source tree.  `defaultType` is what the
accessor `GetMsgType` yields for an envelope without tag; `idBytes` is the
outcome of the type assertion `inf.([]byte)` on a `ycfg.NodeID` and `bytesId`
that of `*inf.(*ycfg.NodeID)` on the bytes of a payload (`none`: the
assertion fails, a run-time panic); the four `marshal` functions are the
`Marshal` methods of the payloads (`none`: an error is returned). -/
structure PbEnv where
  defaultType : MessageType
  idBytes : NodeID → Option Bytes
  bytesId : Bytes → Option NodeID
  marshalPing : PbPing → Option Bytes
  marshalPong : PbPong → Option Bytes
  marshalFindNode : PbFindNode → Option Bytes
  marshalNeighbors : PbNeighbors → Option Bytes

/-- Accessor `GetMsgType` of the envelope. -/
def GetMsgType (env : PbEnv) (m : UdpMessage) : MessageType :=
  match m.MsgType with
  | some t => t
  | none => env.defaultType

/-- The table `pbMap` of `GetDecodedMsgType`, as written in the source. -/
def pbMap : List (MessageType × UdpMsgType) :=
  [(MessageType.PING, UdpMsgTypePing), (MessageType.PONG, UdpMsgTypePong),
   (MessageType.FINDNODE, UdpMsgTypePong), (MessageType.NEIGHBORS, UdpMsgTypePing)]

/-- Method `GetDecodedMsgType`. -/
def GetDecodedMsgType (env : PbEnv) (pum : UdpMsg) : UdpMsgType :=
  match pbMap.lookup (GetMsgType env pum.Msg) with
  | none => UdpMsgTypeUnknown
  | some val => val

/-- The statements that read one endpoint of a payload into a `Node`:
`n.IP = p.IP`, `n.TCP = uint16(*p.TCP)`, `n.UDP = uint16(*p.UDP)`,
`inf = p.NodeId; n.NodeId = *inf.(*ycfg.NodeID)`. -/
def getNode (env : PbEnv) (p : Option PbNode) : Option Node :=
  match p with
  | none => none
  | some p =>
    match p.TCP, p.UDP with
    | some tcp, some udp =>
      match env.bytesId p.NodeId with
      | none => none
      | some id => some { IP := p.IP, TCP := tcp % 65536, UDP := udp % 65536, NodeId := id }
    | _, _ => none

/-- Zero value of `Node`. -/
def zeroNode : Node := { IP := [], UDP := 0, TCP := 0, NodeId := { val := [] } }

/-- Method `GetPing`: `Id` is not assigned. -/
def GetPing (env : PbEnv) (pum : UdpMsg) : Option Ping :=
  match pum.Msg.Ping with
  | none => none
  | some pbPing =>
    match getNode env pbPing.From, getNode env pbPing.To, pbPing.Expiration with
    | some f, some t, some e =>
      some { From := f, To := t, Expiration := e, Id := 0, Extra := pbPing.Extra }
    | _, _, _ => none

/-- Method `GetPong`. -/
def GetPong (env : PbEnv) (pum : UdpMsg) : Option Pong :=
  match pum.Msg.Pong with
  | none => none
  | some pbPong =>
    match getNode env pbPong.From, getNode env pbPong.To, pbPong.Expiration with
    | some f, some t, some e =>
      some { From := f, To := t, Expiration := e, Id := 0, Extra := pbPong.Extra }
    | _, _, _ => none

/-- Method `GetFindNode`. -/
def GetFindNode (env : PbEnv) (pum : UdpMsg) : Option FindNode :=
  match pum.Msg.FindNode with
  | none => none
  | some pbFN =>
    match getNode env pbFN.From, getNode env pbFN.To, getNode env pbFN.Target,
      pbFN.Expiration with
    | some f, some t, some g, some e =>
      some { From := f, To := t, Target := g, Expiration := e, Id := 0, Extra := pbFN.Extra }
    | _, _, _, _ => none

/-- The body of the loop of `GetNeighbors` for record `n` at index `idx`: the
four assignments go to `ngb.Nodes[idx]`, an element of the destination slice,
which must exist and point to a `Node`. -/
def getNeighborsStep (env : PbEnv) (nodes : List (Option Node)) (idx : Nat)
    (n : Option PbNode) : Option (List (Option Node)) :=
  match nodes.get? idx with
  | none => none
  | some none => none
  | some (some _) =>
    match getNode env n with
    | none => none
    | some v => some (nodes.set idx (some v))

/-- The loop `for idx, n := range pbNgb.Nodes` of `GetNeighbors`. -/
def getNeighborsLoop (env : PbEnv) :
    List (Option PbNode) → Nat → List (Option Node) → Option (List (Option Node))
  | [], _, nodes => some nodes
  | n :: rest, idx, nodes =>
    match getNeighborsStep env nodes idx n with
    | none => none
    | some nodes1 => getNeighborsLoop env rest (idx + 1) nodes1

/-- Method `GetNeighbors`: `ngb := new(Neighbors)` has the nil slice as `Nodes`,
and the loop indexes it. -/
def GetNeighbors (env : PbEnv) (pum : UdpMsg) : Option Neighbors :=
  match pum.Msg.Neighbors with
  | none => none
  | some pbNgb =>
    match getNode env pbNgb.From, getNode env pbNgb.To, pbNgb.Expiration with
    | some f, some t, some e =>
      match getNeighborsLoop env pbNgb.Nodes 0 [] with
      | none => none
      | some nodes =>
        some { From := f, To := t, Id := 0, Nodes := nodes, Expiration := e,
               Extra := pbNgb.Extra }
    | _, _, _ => none

/-- The loop of the closure `funcBytesEqu`, the lengths being equal. -/
def bytesEquLoop : Bytes → Bytes → Bool
  | [], _ => true
  | _ :: _, [] => false
  | b :: bys1, b2 :: bys2 => if b ≠ b2 then false else bytesEquLoop bys1 bys2

/-- The closure `funcBytesEqu` of `CheckUdpMsgFromPeer`. -/
def funcBytesEqu (bys1 bys2 : Bytes) : Bool :=
  if bys1.length ≠ bys2.length then false else bytesEquLoop bys1 bys2

/-- The field `From.IP` of a payload endpoint. -/
def fromIP (p : Option PbNode) : Option Bytes := p.map (fun n => n.IP)

/-- Method `CheckUdpMsgFromPeer`. -/
def CheckUdpMsgFromPeer (pum : UdpMsg) (src : Option UDPAddr) : Option Bool :=
  match pum.Msg.MsgType with
  | none => none
  | some t =>
    if t = MessageType.PING then
      match pum.Msg.Ping.bind (fun p => fromIP p.From), src with
      | some ip, some a => some (funcBytesEqu ip a.IP)
      | _, _ => none
    else if t = MessageType.PONG then
      match pum.Msg.Pong.bind (fun p => fromIP p.From), src with
      | some ip, some a => some (funcBytesEqu ip a.IP)
      | _, _ => none
    else if t = MessageType.FINDNODE then
      match pum.Msg.FindNode.bind (fun p => fromIP p.From), src with
      | some ip, some a => some (funcBytesEqu ip a.IP)
      | _, _ => none
    else if t = MessageType.NEIGHBORS then
      match pum.Msg.Neighbors.bind (fun p => fromIP p.From), src with
      | some ip, some a => some (funcBytesEqu ip a.IP)
      | _, _ => none
    else some false

/-- The statements that write one endpoint of a payload from a `Node`:
`p.IP = n.IP`, `*p.TCP = uint32(n.TCP)`, `*p.UDP = uint32(n.UDP)`,
`inf = n.NodeId; p.NodeId = inf.([]byte)`.  The record `p` and its two
pointers must exist. -/
def putNode (env : PbEnv) (p : Option PbNode) (n : Node) : Option PbNode :=
  match p with
  | none => none
  | some p =>
    match p.TCP, p.UDP with
    | some _, some _ =>
      match env.idBytes n.NodeId with
      | none => none
      | some id => some { IP := n.IP, TCP := some n.TCP, UDP := some n.UDP, NodeId := id }
    | _, _ => none

/-- The tag of the envelope set: `pbm.MsgType = new(...); *pbm.MsgType = t`. -/
def setTag (pum : UdpMsg) (t : MessageType) : UdpMsg :=
  { pum with Msg := { pum.Msg with MsgType := some t } }

/-- Value `new(pb.UdpMessage_Ping)`: every pointer is nil. -/
def newPbPing : PbPing := { From := none, To := none, Expiration := none, Extra := [] }

/-- Value `new(pb.UdpMessage_Pong)`. -/
def newPbPong : PbPong := { From := none, To := none, Expiration := none, Extra := [] }

/-- Value `new(pb.UdpMessage_FindNode)`. -/
def newPbFindNode : PbFindNode :=
  { From := none, To := none, Target := none, Expiration := none, Extra := [] }

/-- Value `new(pb.UdpMessage_Neighbors)`. -/
def newPbNeighbors : PbNeighbors :=
  { From := none, To := none, Nodes := [], Expiration := none, Extra := [] }

/-- Method `EncodePing`: the `UdpMsg` it leaves, and the code it returns
(`none` for a run-time panic).  `Id` is not copied. -/
def EncodePing (env : PbEnv) (pum : UdpMsg) (ping : Ping) : UdpMsg × Option UdpMsgErrno :=
  let pum := setTag pum MessageType.PING
  let pbPing := newPbPing
  match putNode env pbPing.From ping.From, putNode env pbPing.To ping.To,
    pbPing.Expiration with
  | some f, some t, some _ =>
    let pbPing : PbPing :=
      { From := some f, To := some t, Expiration := some ping.Expiration, Extra := ping.Extra }
    match env.marshalPing pbPing with
    | none => (pum, some UdpMsgEnoEncodeFailed)
    | some buf =>
      ({ pum with Buf := buf, Len := buf.length, Msg := { pum.Msg with Ping := some pbPing } },
        some UdpMsgEnoNone)
  | _, _, _ => (pum, none)

/-- Method `EncodePong`. -/
def EncodePong (env : PbEnv) (pum : UdpMsg) (pong : Pong) : UdpMsg × Option UdpMsgErrno :=
  let pum := setTag pum MessageType.PONG
  let pbPong := newPbPong
  match putNode env pbPong.From pong.From, putNode env pbPong.To pong.To,
    pbPong.Expiration with
  | some f, some t, some _ =>
    let pbPong : PbPong :=
      { From := some f, To := some t, Expiration := some pong.Expiration, Extra := pong.Extra }
    match env.marshalPong pbPong with
    | none => (pum, some UdpMsgEnoEncodeFailed)
    | some buf =>
      ({ pum with Buf := buf, Len := buf.length, Msg := { pum.Msg with Pong := some pbPong } },
        some UdpMsgEnoNone)
  | _, _, _ => (pum, none)

/-- Method `EncodeFindNode`: the tag it writes is `PONG`. -/
def EncodeFindNode (env : PbEnv) (pum : UdpMsg) (fn : FindNode) :
    UdpMsg × Option UdpMsgErrno :=
  let pum := setTag pum MessageType.PONG
  let pbFN := newPbFindNode
  match putNode env pbFN.From fn.From, putNode env pbFN.To fn.To,
    putNode env pbFN.Target fn.Target, pbFN.Expiration with
  | some f, some t, some g, some _ =>
    let pbFN : PbFindNode :=
      { From := some f, To := some t, Target := some g, Expiration := some fn.Expiration,
        Extra := fn.Extra }
    match env.marshalFindNode pbFN with
    | none => (pum, some UdpMsgEnoEncodeFailed)
    | some buf =>
      ({ pum with Buf := buf, Len := buf.length, Msg := { pum.Msg with FindNode := some pbFN } },
        some UdpMsgEnoNone)
  | _, _, _, _ => (pum, none)

/-- The body of the loop of `EncodeNeighbors` for node `n` at index `idx`. -/
def putNeighborsStep (env : PbEnv) (nodes : List (Option PbNode)) (idx : Nat)
    (n : Option Node) : Option (List (Option PbNode)) :=
  match nodes.get? idx, n with
  | some p, some n =>
    match putNode env p n with
    | none => none
    | some v => some (nodes.set idx (some v))
  | _, _ => none

/-- The loop `for idx, n := range ngb.Nodes` of `EncodeNeighbors`. -/
def putNeighborsLoop (env : PbEnv) :
    List (Option Node) → Nat → List (Option PbNode) → Option (List (Option PbNode))
  | [], _, nodes => some nodes
  | n :: rest, idx, nodes =>
    match putNeighborsStep env nodes idx n with
    | none => none
    | some nodes1 => putNeighborsLoop env rest (idx + 1) nodes1

/-- Method `EncodeNeighbors`. -/
def EncodeNeighbors (env : PbEnv) (pum : UdpMsg) (ngb : Neighbors) :
    UdpMsg × Option UdpMsgErrno :=
  let pum := setTag pum MessageType.NEIGHBORS
  let pbNgb := newPbNeighbors
  match putNode env pbNgb.From ngb.From, putNode env pbNgb.To ngb.To, pbNgb.Expiration with
  | some f, some t, some _ =>
    match putNeighborsLoop env ngb.Nodes 0 pbNgb.Nodes with
    | none => (pum, none)
    | some nodes =>
      let pbNgb : PbNeighbors :=
        { From := some f, To := some t, Nodes := nodes, Expiration := some ngb.Expiration,
          Extra := ngb.Extra }
      match env.marshalNeighbors pbNgb with
      | none => (pum, some UdpMsgEnoEncodeFailed)
      | some buf =>
        ({ pum with Buf := buf, Len := buf.length,
                    Msg := { pum.Msg with Neighbors := some pbNgb } },
          some UdpMsgEnoNone)
  | _, _, _ => (pum, none)

/-- The argument `msg interface{}` of `Encode`. -/
inductive AnyMsg where
  | ping (m : Ping)
  | pong (m : Pong)
  | findNode (m : FindNode)
  | neighbors (m : Neighbors)

/-- Method `Encode`: the type assertion `msg.(*Ping)` etc. fails (a panic) when
the message is not of the shape `t` names. -/
def Encode (env : PbEnv) (pum : UdpMsg) (t : UdpMsgType) (msg : AnyMsg) :
    UdpMsg × Option UdpMsgErrno :=
  let r : UdpMsg × Option UdpMsgErrno :=
    match t, msg with
    | UdpMsgTypePing, AnyMsg.ping m => EncodePing env pum m
    | UdpMsgTypePong, AnyMsg.pong m => EncodePong env pum m
    | UdpMsgTypeFindNode, AnyMsg.findNode m => EncodeFindNode env pum m
    | UdpMsgTypeNeighbors, AnyMsg.neighbors m => EncodeNeighbors env pum m
    | UdpMsgTypeUnknown, _ => (pum, some UdpMsgEnoParameter)
    | _, _ => (pum, none)
  match r.2 with
  | none => r
  | some eno => ({ r.1 with Eno := eno }, some eno)

/-! ## Scenarios -/

/-- The packages outside the file, in their most favourable reading: both type
assertions on node identities succeed and copy the bytes, marshalling never
fails. -/
def demoEnv : PbEnv :=
  { defaultType := MessageType.PING,
    idBytes := fun id => some id.val,
    bytesId := fun b => some { val := b },
    marshalPing := fun p => some (p.Extra),
    marshalPong := fun p => some (p.Extra),
    marshalFindNode := fun p => some (p.Extra),
    marshalNeighbors := fun p => some (p.Extra) }

/-- A `UdpMsg` before any use (the variable `udpMsg`). -/
def zeroUdpMsg : UdpMsg :=
  { Buf := [], Len := 0, From := none,
    Msg := { MsgType := none, Ping := none, Pong := none, FindNode := none, Neighbors := none },
    Eno := UdpMsgEnoUnknown }

/-- A node of the scenarios: address 10.0.0.`last`, both ports 30303. -/
def demoNode (last : Nat) : Node :=
  { IP := [10, 0, 0, last], UDP := 30303, TCP := 30303, NodeId := { val := [1, 1, 1, 1] } }

/-- The `Ping` of the scenarios, with `Id = 42` and empty `Extra`. -/
def demoPing : Ping :=
  { From := demoNode 1, To := demoNode 2, Expiration := 1700000000, Id := 42, Extra := [] }

/-- The `FindNode` of the scenarios. -/
def demoFindNode : FindNode :=
  { From := demoNode 1, To := demoNode 2, Target := demoNode 3, Id := 42,
    Expiration := 1700000000, Extra := [] }

/-- A populated endpoint record of a payload, for node 10.0.0.`last`. -/
def demoPbNode (last : Nat) : PbNode :=
  { IP := [10, 0, 0, last], TCP := some 30303, UDP := some 30303, NodeId := [1, 1, 1, 1] }

/-- An envelope tagged `t` without payload. -/
def demoTagged (t : MessageType) : UdpMsg := setTag zeroUdpMsg t

/-- A decoded envelope tagged `PING` whose payload holds the fields of
`demoPing` that the payload type has. -/
def demoPingEnvelope : UdpMsg :=
  { zeroUdpMsg with
    Msg := { MsgType := some MessageType.PING,
             Ping := some { From := some (demoPbNode 1), To := some (demoPbNode 2),
                            Expiration := some 1700000000, Extra := [] },
             Pong := none, FindNode := none, Neighbors := none } }

/-- A decoded envelope tagged `NEIGHBORS` whose payload carries the given
endpoint records. -/
def demoNeighborsEnvelope (nodes : List (Option PbNode)) : UdpMsg :=
  { zeroUdpMsg with
    Msg := { MsgType := some MessageType.NEIGHBORS, Ping := none, Pong := none,
             FindNode := none,
             Neighbors := some { From := some (demoPbNode 1), To := some (demoPbNode 2),
                                 Nodes := nodes, Expiration := some 1700000000,
                                 Extra := [] } } }

end Udpmsg

namespace Scheduler

open SchErrno

/-! ## Rings of nodes -/

theorem chain_frame {nx ls nx1 ls1 : Nat → Option Nat} :
    ∀ (t : List Nat) (a : Nat), List.Chain (Linked nx ls) a t →
      (∀ x ∈ (a :: t).dropLast, nx1 x = nx x) → (∀ y ∈ t, ls1 y = ls y) →
      List.Chain (Linked nx1 ls1) a t := by
  intro t
  induction t with
  | nil => intro a _ _ _; exact List.Chain.nil
  | cons b t ih =>
    intro a hc hx hy
    rw [List.chain_cons] at hc ⊢
    obtain ⟨hab, hc⟩ := hc
    refine ⟨?_, ih b hc ?_ ?_⟩
    · unfold Linked at hab ⊢
      rw [hx a (by simp), hy b (by simp)]
      exact hab
    · intro x hxm
      exact hx x (by simp [List.dropLast]; right; simpa using hxm)
    · intro y hym
      exact hy y (by simp [hym])



theorem getLastD_mem (t : List Nat) (a : Nat) : t.getLastD a ∈ a :: t := by
  induction t generalizing a with
  | nil => simp
  | cons b t ih =>
    have := ih b
    simp only [List.getLastD_cons]
    exact List.mem_cons_of_mem _ this

theorem getLastD_not_mem_dropLast (t : List Nat) (a : Nat) (h : (a :: t).Nodup) :
    t.getLastD a ∉ (a :: t).dropLast := by
  induction t generalizing a with
  | nil => simp
  | cons b t ih =>
    have hb : (b :: t).Nodup := (List.nodup_cons.mp h).2
    have ha : a ∉ b :: t := (List.nodup_cons.mp h).1
    have hm := getLastD_mem t b
    simp only [List.getLastD_cons, List.dropLast_cons₂, List.mem_cons, not_or]
    refine ⟨?_, ih b hb⟩
    intro he
    exact ha (he ▸ hm)

theorem IsRing.nodup {nx ls : Nat → Option Nat} {l : List Nat} (h : IsRing nx ls l) :
    l.Nodup := h.1

theorem IsRing.frame {nx ls nx1 ls1 : Nat → Option Nat} {l : List Nat}
    (h : IsRing nx ls l) (hf : ∀ x ∈ l, nx1 x = nx x ∧ ls1 x = ls x) : IsRing nx1 ls1 l := by
  cases l with
  | nil => exact ⟨List.nodup_nil, trivial⟩
  | cons a t =>
    obtain ⟨hnd, hc, hl⟩ := h
    refine ⟨hnd, ?_, ?_⟩
    · exact chain_frame t a hc (fun x hx => (hf x (List.mem_of_mem_dropLast hx)).1)
        (fun y hy => (hf y (List.mem_cons_of_mem _ hy)).2)
    · unfold Linked at hl ⊢
      rw [(hf _ (getLastD_mem t a)).1, (hf a (by simp)).2]
      exact hl

theorem isRing_nil (nx ls : Nat → Option Nat) : IsRing nx ls [] := ⟨List.nodup_nil, trivial⟩

theorem isRing_singleton {nx ls : Nat → Option Nat} {a : Nat} :
    IsRing nx ls [a] ↔ nx a = some a ∧ ls a = some a := by
  simp [IsRing, Linked]

/-- Links around the head of a ring with at least two nodes. -/
theorem IsRing.head_links {nx ls : Nat → Option Nat} {a b : Nat} {t : List Nat}
    (h : IsRing nx ls (a :: b :: t)) :
    nx a = some b ∧ ls b = some a ∧ nx (t.getLastD b) = some a ∧ ls a = some (t.getLastD b) ∧
      a ≠ b ∧ a ≠ t.getLastD b := by
  obtain ⟨hnd, hc, hl⟩ := h
  rw [List.chain_cons] at hc
  simp only [List.getLastD_cons] at hl
  have ha : a ∉ b :: t := (List.nodup_cons.mp hnd).1
  refine ⟨hc.1.1, hc.1.2, hl.1, hl.2, ?_, ?_⟩
  · intro he; exact ha (by simp [he])
  · intro he; exact ha (he ▸ getLastD_mem t b)

/-- Taking the head out of a ring: the two assignments `next.last = last` and
`last.next = next` leave the ring of the other nodes. -/
theorem IsRing.unlink {nx ls : Nat → Option Nat} {a b : Nat} {t : List Nat}
    (h : IsRing nx ls (a :: b :: t)) :
    IsRing (Function.update nx (t.getLastD b) (some b))
      (Function.update ls b (some (t.getLastD b))) (b :: t) := by
  obtain ⟨hnd, hc, hl⟩ := h
  rw [List.chain_cons] at hc
  have hb : (b :: t).Nodup := (List.nodup_cons.mp hnd).2
  refine ⟨hb, ?_, ?_⟩
  · refine chain_frame t b hc.2 ?_ ?_
    · intro x hx
      have : x ≠ t.getLastD b := fun he => getLastD_not_mem_dropLast t b hb (he ▸ hx)
      simp [Function.update, this, -List.getLastD_eq_getLast?]
    · intro y hy
      have : y ≠ b := fun he => (List.nodup_cons.mp hb).1 (he ▸ hy)
      simp [Function.update, this, -List.getLastD_eq_getLast?]
  · simp [Linked, Function.update]

/-- Putting a node that is not on the ring in front of its head: the four
assignments of the enqueue operations. -/
theorem IsRing.insert {nx ls : Nat → Option Nat} {a p : Nat} {t : List Nat}
    (h : IsRing nx ls (a :: t)) (hp : p ∉ a :: t) :
    IsRing (Function.update (Function.update nx (t.getLastD a) (some p)) p (some a))
      (Function.update (Function.update ls p (some (t.getLastD a))) a (some p))
      (p :: a :: t) := by
  obtain ⟨hnd, hc, hl⟩ := h
  have hpa : p ≠ a := fun he => hp (by simp [he])
  have hz := getLastD_mem t a
  have hpz : p ≠ t.getLastD a := fun he => hp (he ▸ hz)
  refine ⟨List.nodup_cons.mpr ⟨hp, hnd⟩, ?_, ?_⟩
  · rw [List.chain_cons]
    refine ⟨?_, chain_frame t a hc ?_ ?_⟩
    · simp [Linked, Function.update]
    · intro x hx
      have h1 : x ≠ t.getLastD a := fun he => getLastD_not_mem_dropLast t a hnd (he ▸ hx)
      have h2 : x ≠ p := fun he => hp (he ▸ List.mem_of_mem_dropLast hx)
      simp [Function.update, h1, h2, -List.getLastD_eq_getLast?]
    · intro y hy
      have h1 : y ≠ a := fun he => (List.nodup_cons.mp hnd).1 (he ▸ hy)
      have h2 : y ≠ p := fun he => hp (he ▸ List.mem_cons_of_mem _ hy)
      simp [Function.update, h1, h2, -List.getLastD_eq_getLast?]
  · simp only [List.getLastD_cons]
    simp [Linked, Function.update, hpa, hpz, Ne.symm hpz, Ne.symm hpa, -List.getLastD_eq_getLast?]



theorem chain_snoc {nx ls : Nat → Option Nat} (t : List Nat) (b a : Nat) :
    List.Chain (Linked nx ls) b (t ++ [a]) ↔
      List.Chain (Linked nx ls) b t ∧ Linked nx ls (t.getLastD b) a := by
  induction t generalizing b with
  | nil => simp
  | cons c t ih =>
    simp only [List.cons_append, List.chain_cons, List.getLastD_cons, ih c, and_assoc]

theorem getLastD_snoc (t : List Nat) (b a : Nat) : (t ++ [a]).getLastD b = a := by
  induction t generalizing b with
  | nil => rfl
  | cons c t ih => simp only [List.cons_append, List.getLastD_cons, ih c]

/-- A ring read from its second node is the same ring. -/
theorem IsRing.rotate {nx ls : Nat → Option Nat} {a : Nat} {t : List Nat}
    (h : IsRing nx ls (a :: t)) : IsRing nx ls (t ++ [a]) := by
  cases t with
  | nil => exact h
  | cons b t =>
    obtain ⟨hnd, hc, hl⟩ := h
    rw [List.chain_cons] at hc
    simp only [List.getLastD_cons] at hl
    refine ⟨?_, ?_, ?_⟩
    · have : (b :: t ++ [a]).Perm (a :: b :: t) := by
        simpa using (List.perm_append_comm : (b :: t ++ [a]).Perm ([a] ++ (b :: t)))
      exact this.nodup_iff.mpr hnd
    · show List.Chain (Linked nx ls) b (t ++ [a])
      exact (chain_snoc t b a).mpr ⟨hc.2, hl⟩
    · show Linked nx ls ((t ++ [a]).getLastD b) b
      rw [getLastD_snoc]
      exact hc.1

theorem IsRing.append_comm {nx ls : Nat → Option Nat} (l1 l2 : List Nat)
    (h : IsRing nx ls (l1 ++ l2)) : IsRing nx ls (l2 ++ l1) := by
  induction l1 generalizing l2 with
  | nil => simpa using h
  | cons a l1 ih =>
    have h1 : IsRing nx ls ((l1 ++ l2) ++ [a]) := IsRing.rotate h
    have h2 : IsRing nx ls (l1 ++ (l2 ++ [a])) := by simpa using h1
    have h3 := ih (l2 ++ [a]) h2
    simpa using h3

theorem ringWalk_chain {nx ls : Nat → Option Nat} (t : List Nat) (a : Nat)
    (h : List.Chain (Linked nx ls) a t) : ringWalk nx (some a) (t.length + 1) = a :: t := by
  induction t generalizing a with
  | nil => simp [ringWalk]
  | cons b t ih =>
    rw [List.chain_cons] at h
    simp only [List.length_cons, ringWalk, h.1.1, ih b h.2]

/-- On a well-formed list the walk along `next` gives exactly the nodes of the ring. -/
theorem RingAt.walk {nx ls : Nat → Option Nat} {head : Option Nat} {size : Int} {l : List Nat}
    (h : RingAt nx ls head size l) : ringWalk nx head size.toNat = l := by
  obtain ⟨hr, hh, hs⟩ := h
  cases l with
  | nil => subst hs; simp [ringWalk]
  | cons a t =>
    subst hs hh
    simp only [List.head?_cons, List.length_cons, Nat.cast_add, Nat.cast_one]
    have : ((t.length : Int) + 1).toNat = t.length + 1 := by omega
    rw [this]
    exact ringWalk_chain t a hr.2.1

section PoolLemmas
variable (pool : Nat → schTaskNode) (p i : Nat) (v : Option Nat) (t : schTask)

@[simp]
theorem updNext_next : (updNext pool p v i).next = if i = p then v else (pool i).next := by
  unfold updNext; by_cases h : i = p <;> simp [Function.update, h]
@[simp]
theorem updNext_last : (updNext pool p v i).last = (pool i).last := by
  unfold updNext; by_cases h : i = p <;> simp [Function.update, h]
@[simp]
theorem updNext_task : (updNext pool p v i).task = (pool i).task := by
  unfold updNext; by_cases h : i = p <;> simp [Function.update, h]
@[simp]
theorem updLast_next : (updLast pool p v i).next = (pool i).next := by
  unfold updLast; by_cases h : i = p <;> simp [Function.update, h]
@[simp]
theorem updLast_last : (updLast pool p v i).last = if i = p then v else (pool i).last := by
  unfold updLast; by_cases h : i = p <;> simp [Function.update, h]
@[simp]
theorem updLast_task : (updLast pool p v i).task = (pool i).task := by
  unfold updLast; by_cases h : i = p <;> simp [Function.update, h]
@[simp]
theorem updTask_next : (updTask pool p t i).next = (pool i).next := by
  unfold updTask; by_cases h : i = p <;> simp [Function.update, h]
@[simp]
theorem updTask_last : (updTask pool p t i).last = (pool i).last := by
  unfold updTask; by_cases h : i = p <;> simp [Function.update, h]
@[simp]
theorem updTask_task : (updTask pool p t i).task = if i = p then t else (pool i).task := by
  unfold updTask; by_cases h : i = p <;> simp [Function.update, h]

end PoolLemmas

theorem task_acquire_release (s : Sched) (a : Nat) (t : List Nat)
    (h : RingAt (tkNext s) (tkLast s) s.tkFree s.freeSize (a :: t)) :
    ∃ s1, schimplGetTaskNode s = some (SchEnoNone, some a, s1) ∧
      schimplRetTaskNode s1 (some a) = some (SchEnoNone, s) := by
  obtain ⟨hr, hh, hs⟩ := h
  simp only [List.head?_cons] at hh
  cases t with
  | nil =>
    obtain ⟨hn, hl⟩ := isRing_singleton.mp hr
    simp only [tkNext, tkLast] at hn hl
    simp only [List.length_singleton, Nat.cast_one] at hs
    simp only [schimplGetTaskNode, schimplRetTaskNode, hh, hn, hl, hs, setTaskNext, setTaskLast]
    simp
    apply Sched.ext <;> simp [hh, hs]
    funext i
    apply schTaskNode.ext <;> simp <;> split_ifs <;> simp_all
  | cons b t =>
    obtain ⟨h1, h2, h3, h4, h5, h6⟩ := hr.head_links
    simp only [tkNext, tkLast] at h1 h2 h3 h4
    simp only [List.length_cons, Nat.cast_add, Nat.cast_one] at hs
    have hne : ¬ ((s.schTaskNodePool a).last = some a ∧ (s.schTaskNodePool a).next = some a) := by
      rw [h1]; intro hc; exact h5 (Option.some.inj hc.2).symm
    have hsz : ¬ (s.freeSize - 1 ≤ 0) := by omega
    simp only [schimplGetTaskNode, schimplRetTaskNode, hh, hne, h1, h4, setTaskNext, setTaskLast,
      if_false, hsz]
    simp [Ne.symm h5, Ne.symm h6, h5, h6]
    apply Sched.ext <;> simp [hh]
    funext i
    apply schTaskNode.ext <;> simp <;> split_ifs <;> simp_all

section TimerPoolLemmas
variable (pool : Nat → schTmcbNode) (p i : Nat) (v : Option Nat) (t : schTmcb)

@[simp]
theorem updTmNext_next :
    (updTmNext pool p v i).next = if i = p then v else (pool i).next := by
  unfold updTmNext; by_cases h : i = p <;> simp [Function.update, h]
@[simp]
theorem updTmNext_last : (updTmNext pool p v i).last = (pool i).last := by
  unfold updTmNext; by_cases h : i = p <;> simp [Function.update, h]
@[simp]
theorem updTmNext_tmcb : (updTmNext pool p v i).tmcb = (pool i).tmcb := by
  unfold updTmNext; by_cases h : i = p <;> simp [Function.update, h]
@[simp]
theorem updTmLast_next : (updTmLast pool p v i).next = (pool i).next := by
  unfold updTmLast; by_cases h : i = p <;> simp [Function.update, h]
@[simp]
theorem updTmLast_last :
    (updTmLast pool p v i).last = if i = p then v else (pool i).last := by
  unfold updTmLast; by_cases h : i = p <;> simp [Function.update, h]
@[simp]
theorem updTmLast_tmcb : (updTmLast pool p v i).tmcb = (pool i).tmcb := by
  unfold updTmLast; by_cases h : i = p <;> simp [Function.update, h]
@[simp]
theorem updTmcb_next : (updTmcb pool p t i).next = (pool i).next := by
  unfold updTmcb; by_cases h : i = p <;> simp [Function.update, h]
@[simp]
theorem updTmcb_last : (updTmcb pool p t i).last = (pool i).last := by
  unfold updTmcb; by_cases h : i = p <;> simp [Function.update, h]
@[simp]
theorem updTmcb_tmcb :
    (updTmcb pool p t i).tmcb = if i = p then t else (pool i).tmcb := by
  unfold updTmcb; by_cases h : i = p <;> simp [Function.update, h]

end TimerPoolLemmas

theorem timer_acquire_release (s : Sched) (a : Nat) (t : List Nat)
    (h : RingAt (tmNext s) (tmLast s) s.tmFree s.tmFreeSize (a :: t)) :
    ∃ s1, schimplGetTimerNode s = some (SchEnoNone, some a, s1) ∧
      schimplRetTimerNode s1 (some a) = some (SchEnoNone, s) := by
  obtain ⟨hr, hh, hs⟩ := h
  simp only [List.head?_cons] at hh
  cases t with
  | nil =>
    obtain ⟨hn, hl⟩ := isRing_singleton.mp hr
    simp only [tmNext, tmLast] at hn hl
    simp only [List.length_singleton, Nat.cast_one] at hs
    simp only [schimplGetTimerNode, schimplRetTimerNode, hh, hn, hl, hs, setTimerNext,
      setTimerLast]
    simp
    apply Sched.ext <;> simp [hh, hs]
    funext i
    apply schTmcbNode.ext <;> simp <;> split_ifs <;> simp_all
  | cons b t =>
    obtain ⟨h1, h2, h3, h4, h5, h6⟩ := hr.head_links
    simp only [tmNext, tmLast] at h1 h2 h3 h4
    simp only [List.length_cons, Nat.cast_add, Nat.cast_one] at hs
    have hne : ¬ ((s.schTimerNodePool a).last = some a ∧ (s.schTimerNodePool a).next = some a) := by
      rw [h1]; intro hc; exact h5 (Option.some.inj hc.2).symm
    have hsz : ¬ (s.tmFreeSize - 1 ≤ 0) := by omega
    simp only [schimplGetTimerNode, schimplRetTimerNode, hh, hne, h1, h4, setTimerNext,
      setTimerLast, if_false, hsz]
    simp [Ne.symm h5, Ne.symm h6, h5, h6]
    apply Sched.ext <;> simp [hh]
    funext i
    apply schTmcbNode.ext <;> simp <;> split_ifs <;> simp_all

/-! ## Initialisation -/

theorem foldl_initTaskNode_fields (c : SchConst) (l : List Nat) (s : Sched) :
    (l.foldl (initTaskNode c) s).tkFree = s.tkFree ∧
    (l.foldl (initTaskNode c) s).freeSize = s.freeSize ∧
    (l.foldl (initTaskNode c) s).tkBusy = s.tkBusy ∧
    (l.foldl (initTaskNode c) s).busySize = s.busySize ∧
    (l.foldl (initTaskNode c) s).tmFree = s.tmFree ∧
    (l.foldl (initTaskNode c) s).tmFreeSize = s.tmFreeSize ∧
    (l.foldl (initTaskNode c) s).tkMap = s.tkMap ∧
    (l.foldl (initTaskNode c) s).tmMap = s.tmMap ∧
    (l.foldl (initTaskNode c) s).grpMap = s.grpMap ∧
    (l.foldl (initTaskNode c) s).grpCnt = s.grpCnt ∧
    (l.foldl (initTaskNode c) s).schTimerNodePool = s.schTimerNodePool := by
  induction l generalizing s with
  | nil => simp
  | cons j l ih =>
    simp only [List.foldl_cons]
    have := ih (initTaskNode c s j)
    simpa [initTaskNode, setTaskLast, setTaskNext, setTask] using this

theorem foldl_initTaskNode_pool (c : SchConst) (l : List Nat) (s : Sched) (i : Nat) :
    (l.foldl (initTaskNode c) s).schTaskNodePool i =
      if i ∈ l then
        { task := { (s.schTaskNodePool i).task with tmIdxTab := [] },
          last := some ((i + c.schTaskNodePoolSize - 1) &&& (c.schTaskNodePoolSize - 1)),
          next := some ((i + 1) &&& (c.schTaskNodePoolSize - 1)) }
      else s.schTaskNodePool i := by
  induction l generalizing s with
  | nil => simp
  | cons j l ih =>
    simp only [List.foldl_cons, ih (initTaskNode c s j), List.mem_cons]
    by_cases hil : i ∈ l
    · simp only [hil, or_true, if_true]
      by_cases hij : i = j
      · subst hij
        apply schTaskNode.ext <;> simp [initTaskNode, setTaskLast, setTaskNext, setTask]
      · apply schTaskNode.ext <;> simp [initTaskNode, setTaskLast, setTaskNext, setTask, hij]
    · simp only [hil, or_false, if_false]
      by_cases hij : i = j
      · subst hij
        simp only [if_true]
        apply schTaskNode.ext <;> simp [initTaskNode, setTaskLast, setTaskNext, setTask]
      · simp only [hij, if_false]
        apply schTaskNode.ext <;> simp [initTaskNode, setTaskLast, setTaskNext, setTask, hij]


theorem foldl_initTimerNode_fields (c : SchConst) (l : List Nat) (s : Sched) :
    (l.foldl (initTimerNode c) s).tkFree = s.tkFree ∧
    (l.foldl (initTimerNode c) s).freeSize = s.freeSize ∧
    (l.foldl (initTimerNode c) s).tkBusy = s.tkBusy ∧
    (l.foldl (initTimerNode c) s).busySize = s.busySize ∧
    (l.foldl (initTimerNode c) s).tmFree = s.tmFree ∧
    (l.foldl (initTimerNode c) s).tmFreeSize = s.tmFreeSize ∧
    (l.foldl (initTimerNode c) s).tkMap = s.tkMap ∧
    (l.foldl (initTimerNode c) s).tmMap = s.tmMap ∧
    (l.foldl (initTimerNode c) s).grpMap = s.grpMap ∧
    (l.foldl (initTimerNode c) s).grpCnt = s.grpCnt ∧
    (l.foldl (initTimerNode c) s).schTaskNodePool = s.schTaskNodePool := by
  induction l generalizing s with
  | nil => simp
  | cons j l ih =>
    simp only [List.foldl_cons]
    have := ih (initTimerNode c s j)
    simpa [initTimerNode, setTimerLast, setTimerNext, setTmcb] using this

theorem foldl_initTimerNode_pool (c : SchConst) (l : List Nat) (s : Sched) (i : Nat) :
    (l.foldl (initTimerNode c) s).schTimerNodePool i =
      if i ∈ l then
        { tmcb := { (s.schTimerNodePool i).tmcb with
            stop := some { cap := 1, buf := [], closed := false },
            stopped := some { cap := 0, buf := [], closed := false } },
          last := some ((i + c.schTimerNodePoolSize - 1) &&& (c.schTimerNodePoolSize - 1)),
          next := some ((i + 1) &&& (c.schTimerNodePoolSize - 1)) }
      else s.schTimerNodePool i := by
  induction l generalizing s with
  | nil => simp
  | cons j l ih =>
    simp only [List.foldl_cons, ih (initTimerNode c s j), List.mem_cons]
    by_cases hil : i ∈ l
    · simp only [hil, or_true, if_true]
      by_cases hij : i = j
      · subst hij
        apply schTmcbNode.ext <;> simp [initTimerNode, setTimerLast, setTimerNext, setTmcb]
      · apply schTmcbNode.ext <;> simp [initTimerNode, setTimerLast, setTimerNext, setTmcb, hij]
    · simp only [hil, or_false, if_false]
      by_cases hij : i = j
      · subst hij
        simp only [if_true]
        apply schTmcbNode.ext <;> simp [initTimerNode, setTimerLast, setTimerNext, setTmcb]
      · simp only [hij, if_false]
        apply schTmcbNode.ext <;> simp [initTimerNode, setTimerLast, setTimerNext, setTmcb, hij]

/-- The task pool of a fresh scheduler. -/
theorem fresh_task_node (c : SchConst) (i : Nat) :
    (freshSched c).schTaskNodePool i =
      if i < c.schTaskNodePoolSize then
        { task := zeroTask,
          last := some ((i + c.schTaskNodePoolSize - 1) &&& (c.schTaskNodePoolSize - 1)),
          next := some ((i + 1) &&& (c.schTaskNodePoolSize - 1)) }
      else { task := zeroTask, last := none, next := none } := by
  simp only [freshSched, schimplSchedulerInit]
  rw [(foldl_initTimerNode_fields c _ _).2.2.2.2.2.2.2.2.2.2]
  simp only [foldl_initTaskNode_pool, List.mem_range]
  split_ifs <;> rfl

/-- The timer pool of a fresh scheduler. -/
theorem fresh_timer_node (c : SchConst) (i : Nat) :
    (freshSched c).schTimerNodePool i =
      if i < c.schTimerNodePoolSize then
        { tmcb := { zeroTmcb with
            stop := some { cap := 1, buf := [], closed := false },
            stopped := some { cap := 0, buf := [], closed := false } },
          last := some ((i + c.schTimerNodePoolSize - 1) &&& (c.schTimerNodePoolSize - 1)),
          next := some ((i + 1) &&& (c.schTimerNodePoolSize - 1)) }
      else { tmcb := zeroTmcb, last := none, next := none } := by
  simp only [freshSched, schimplSchedulerInit]
  simp only [foldl_initTimerNode_pool, List.mem_range]
  have h := (foldl_initTaskNode_fields c (List.range c.schTaskNodePoolSize)
    { zeroSched with tkMap := [], tmMap := [], grpMap := [] }).2.2.2.2.2.2.2.2.2.2
  simp only [h]
  split_ifs <;> rfl

/-- The heads, sizes and registries of a fresh scheduler. -/
theorem fresh_fields (c : SchConst) :
    (freshSched c).tkFree = some 0 ∧ (freshSched c).freeSize = c.schTaskNodePoolSize ∧
    (freshSched c).tkBusy = none ∧ (freshSched c).busySize = 0 ∧
    (freshSched c).tmFree = some 0 ∧ (freshSched c).tmFreeSize = c.schTimerNodePoolSize ∧
    (freshSched c).tkMap = [] ∧ (freshSched c).tmMap = [] ∧ (freshSched c).grpMap = [] ∧
    (freshSched c).grpCnt = 0 := by
  simp only [freshSched, schimplSchedulerInit]
  have h1 := foldl_initTimerNode_fields c (List.range c.schTimerNodePoolSize)
  have h2 := foldl_initTaskNode_fields c (List.range c.schTaskNodePoolSize)
  simp [h1, h2, zeroSched]

theorem getLastD_map_succ_range (n : Nat) : ((List.range n).map Nat.succ).getLastD 0 = n := by
  cases n with
  | zero => rfl
  | succ m => rw [List.range_succ, List.map_append, List.map_singleton, getLastD_snoc]

/-- Links `i ↦ i + 1` and `i ↦ i - 1` modulo `n` make the ring `0, 1, …, n - 1`. -/
theorem isRing_range {nx ls : Nat → Option Nat} (n : Nat)
    (hnx : ∀ i, i < n + 1 → nx i = some ((i + 1) % (n + 1)))
    (hls : ∀ i, i < n + 1 → ls i = some ((i + (n + 1) - 1) % (n + 1))) :
    IsRing nx ls (List.range (n + 1)) := by
  have hnd := List.nodup_range (n + 1)
  rw [List.range_succ_eq_map] at hnd ⊢
  refine ⟨hnd, ?_, ?_⟩
  · have h := (List.chain'_range_succ (Linked nx ls) n).mpr (by
      intro m hm
      refine ⟨?_, ?_⟩
      · rw [hnx m (by omega), Nat.mod_eq_of_lt (by omega)]
      · rw [hls (m + 1) (by omega)]
        have : m + 1 + (n + 1) - 1 = m + (n + 1) := by omega
        rw [this, Nat.add_mod_right, Nat.mod_eq_of_lt (by omega)])
    rw [List.range_succ_eq_map] at h
    exact h
  · rw [getLastD_map_succ_range]
    refine ⟨?_, ?_⟩
    · rw [hnx n (by omega)]; simp
    · rw [hls 0 (by omega)]; simp [Nat.mod_eq_of_lt]

/-- The free list of the task pool of a fresh scheduler is the ring of all the
nodes of the pool, in index order. -/
theorem fresh_task_ring (c : SchConst) (h : ∃ k, c.schTaskNodePoolSize = 2 ^ k) :
    RingAt (tkNext (freshSched c)) (tkLast (freshSched c)) (freshSched c).tkFree
      (freshSched c).freeSize (List.range c.schTaskNodePoolSize) := by
  obtain ⟨k, hk⟩ := h
  have hpos : 0 < c.schTaskNodePoolSize := by rw [hk]; exact Nat.pos_pow_of_pos k (by decide)
  obtain ⟨n, hn⟩ : ∃ n, c.schTaskNodePoolSize = n + 1 := ⟨c.schTaskNodePoolSize - 1, by omega⟩
  obtain ⟨h1, h2, -⟩ := fresh_fields c
  refine ⟨?_, ?_, ?_⟩
  · rw [hn]
    apply isRing_range
    · intro i hi
      simp only [tkNext, fresh_task_node, hn ▸ hi, if_true]
      rw [hk, Nat.and_pow_two_sub_one_eq_mod, ← hk, hn]
    · intro i hi
      simp only [tkLast, fresh_task_node, hn ▸ hi, if_true]
      rw [hk, Nat.and_pow_two_sub_one_eq_mod, ← hk, hn]
  · rw [h1, hn, List.range_succ_eq_map]; rfl
  · rw [h2]; simp

/-- The free list of the timer pool of a fresh scheduler. -/
theorem fresh_timer_ring (c : SchConst) (h : ∃ k, c.schTimerNodePoolSize = 2 ^ k) :
    RingAt (tmNext (freshSched c)) (tmLast (freshSched c)) (freshSched c).tmFree
      (freshSched c).tmFreeSize (List.range c.schTimerNodePoolSize) := by
  obtain ⟨k, hk⟩ := h
  have hpos : 0 < c.schTimerNodePoolSize := by rw [hk]; exact Nat.pos_pow_of_pos k (by decide)
  obtain ⟨n, hn⟩ : ∃ n, c.schTimerNodePoolSize = n + 1 := ⟨c.schTimerNodePoolSize - 1, by omega⟩
  obtain ⟨-, -, -, -, h1, h2, -⟩ := fresh_fields c
  refine ⟨?_, ?_, ?_⟩
  · rw [hn]
    apply isRing_range
    · intro i hi
      simp only [tmNext, fresh_timer_node, hn ▸ hi, if_true]
      rw [hk, Nat.and_pow_two_sub_one_eq_mod, ← hk, hn]
    · intro i hi
      simp only [tmLast, fresh_timer_node, hn ▸ hi, if_true]
      rw [hk, Nat.and_pow_two_sub_one_eq_mod, ← hk, hn]
  · rw [h1, hn, List.range_succ_eq_map]; rfl
  · rw [h2]; simp

theorem repeatOpt_fixed (f : Sched → Option Sched) (s : Sched) (h : f s = some s) (n : Nat) :
    repeatOpt f n s = some s := by
  induction n with
  | zero => rfl
  | succ n ih => simp [repeatOpt, h, ih]

/-! ## Operations on a well-formed task pool -/

/-- A list stays well formed when none of its nodes is touched. -/
theorem RingAt.sameLinks {s s1 : Sched} {head : Option Nat} {size : Int} {l : List Nat}
    (h : RingAt (tkNext s) (tkLast s) head size l)
    (hf : ∀ i ∈ l, (s1.schTaskNodePool i).next = (s.schTaskNodePool i).next ∧
      (s1.schTaskNodePool i).last = (s.schTaskNodePool i).last) :
    RingAt (tkNext s1) (tkLast s1) head size l :=
  ⟨h.ring.frame (fun x hx => hf x hx), h.head_eq, h.size_eq⟩

/-- Acquisition on a well-formed non-empty free list: the head is returned,
self-linked, and the rest of the list stays well formed; nothing but head, size
and links of the free list changes. -/
theorem getTaskNode_spec {s : Sched} {a : Nat} {t : List Nat}
    (h : RingAt (tkNext s) (tkLast s) s.tkFree s.freeSize (a :: t)) :
    ∃ s1, schimplGetTaskNode s = some (SchEnoNone, some a, s1) ∧
      RingAt (tkNext s1) (tkLast s1) s1.tkFree s1.freeSize t ∧
      s1.tkBusy = s.tkBusy ∧ s1.busySize = s.busySize ∧ s1.tkMap = s.tkMap ∧
      s1.tmMap = s.tmMap ∧ s1.grpMap = s.grpMap ∧ s1.grpCnt = s.grpCnt ∧
      s1.tmFree = s.tmFree ∧ s1.tmFreeSize = s.tmFreeSize ∧
      s1.schTimerNodePool = s.schTimerNodePool ∧
      (∀ i, (s1.schTaskNodePool i).task = (s.schTaskNodePool i).task) ∧
      (∀ i, i ∉ a :: t → s1.schTaskNodePool i = s.schTaskNodePool i) := by
  obtain ⟨hr, hh, hs⟩ := h
  simp only [List.head?_cons] at hh
  cases t with
  | nil =>
    obtain ⟨hn, hl⟩ := isRing_singleton.mp hr
    simp only [tkNext, tkLast] at hn hl
    simp only [List.length_singleton, Nat.cast_one] at hs
    simp only [schimplGetTaskNode, hh, hn, hl, hs, setTaskNext, setTaskLast]
    simp
    refine ⟨⟨isRing_nil _ _, rfl, rfl⟩, ?_⟩
    intro i hi
    apply schTaskNode.ext <;> simp [hi]
  | cons b t =>
    obtain ⟨h1, h2, h3, h4, h5, h6⟩ := hr.head_links
    have hu := hr.unlink
    simp only [tkNext, tkLast] at h1 h2 h3 h4
    simp only [List.length_cons, Nat.cast_add, Nat.cast_one] at hs
    have hne : ¬ ((s.schTaskNodePool a).last = some a ∧ (s.schTaskNodePool a).next = some a) := by
      rw [h1]; intro hc; exact h5 (Option.some.inj hc.2).symm
    have hsz : ¬ (s.freeSize - 1 ≤ 0) := by omega
    have ha : a ∉ b :: t := (List.nodup_cons.mp hr.nodup).1
    simp only [schimplGetTaskNode, hh, hne, h1, h4, setTaskNext, setTaskLast, if_false, hsz]
    simp [Ne.symm h5, Ne.symm h6, -List.getLastD_eq_getLast?]
    refine ⟨⟨?_, rfl, ?_⟩, ?_⟩
    · refine hu.frame ?_
      intro x hx
      have hxa : x ≠ a := fun he => ha (he ▸ hx)
      simp [tkNext, tkLast, Function.update, hxa, -List.getLastD_eq_getLast?]
    · simp only [List.length_cons, Nat.cast_add, Nat.cast_one]; omega
    · intro i hia hib hit
      have hz : i ≠ t.getLastD b := by
        intro he
        have := getLastD_mem t b
        rw [← he] at this
        rcases List.mem_cons.mp this with h | h
        · exact hib h
        · exact hit h
      apply schTaskNode.ext <;> simp [hia, hib, hz, -List.getLastD_eq_getLast?]

/-- Release on a well-formed free list, of a node that is not on it: the node
becomes the head of the list. -/
theorem retTaskNode_spec {s : Sched} {p : Nat} {lf : List Nat}
    (h : RingAt (tkNext s) (tkLast s) s.tkFree s.freeSize lf) (hp : p ∉ lf) :
    ∃ s1, schimplRetTaskNode s (some p) = some (SchEnoNone, s1) ∧
      RingAt (tkNext s1) (tkLast s1) s1.tkFree s1.freeSize (p :: lf) ∧
      s1.tkBusy = s.tkBusy ∧ s1.busySize = s.busySize ∧ s1.tkMap = s.tkMap ∧
      s1.tmMap = s.tmMap ∧ s1.grpMap = s.grpMap ∧ s1.grpCnt = s.grpCnt ∧
      s1.tmFree = s.tmFree ∧ s1.tmFreeSize = s.tmFreeSize ∧
      s1.schTimerNodePool = s.schTimerNodePool ∧
      (∀ i, (s1.schTaskNodePool i).task = (s.schTaskNodePool i).task) ∧
      (∀ i, i ∉ p :: lf → s1.schTaskNodePool i = s.schTaskNodePool i) := by
  obtain ⟨hr, hh, hs⟩ := h
  cases lf with
  | nil =>
    simp only [List.head?_nil] at hh
    simp only [schimplRetTaskNode, hh, setTaskNext, setTaskLast]
    simp
    refine ⟨⟨?_, rfl, ?_⟩, ?_⟩
    · exact isRing_singleton.mpr (by simp [tkNext, tkLast])
    · simp [hs]
    · intro i hi
      apply schTaskNode.ext <;> simp [hi]
  | cons a t =>
    simp only [List.head?_cons] at hh
    have hl : (s.schTaskNodePool a).last = some (t.getLastD a) := hr.2.2.2
    have hi := hr.insert hp
    have hpa : p ≠ a := fun he => hp (by simp [he])
    have hz := getLastD_mem t a
    have hpz : p ≠ t.getLastD a := fun he => hp (he ▸ hz)
    simp only [schimplRetTaskNode, hh, hl, setTaskNext, setTaskLast]
    simp [-List.getLastD_eq_getLast?]
    refine ⟨⟨?_, rfl, ?_⟩, ?_⟩
    · refine hi.frame ?_
      intro x _
      simp [tkNext, tkLast, Function.update, -List.getLastD_eq_getLast?]
    · simp [hs]
    · intro i hip hia hit
      have hiz : i ≠ t.getLastD a := by
        intro he
        rw [← he] at hz
        rcases List.mem_cons.mp hz with h | h
        · exact hia h
        · exact hit h
      apply schTaskNode.ext <;> simp [hip, hia, hiz, -List.getLastD_eq_getLast?]

/-- Enqueue on a well-formed busy list, of a node that is not on it. -/
theorem busyEnque_spec {s : Sched} {p : Nat} {lb : List Nat}
    (h : RingAt (tkNext s) (tkLast s) s.tkBusy s.busySize lb) (hp : p ∉ lb) :
    ∃ s1, schimplTaskBusyEnque s (some p) = some (SchEnoNone, s1) ∧
      RingAt (tkNext s1) (tkLast s1) s1.tkBusy s1.busySize (p :: lb) ∧
      s1.tkFree = s.tkFree ∧ s1.freeSize = s.freeSize ∧ s1.tkMap = s.tkMap ∧
      s1.tmMap = s.tmMap ∧ s1.grpMap = s.grpMap ∧ s1.grpCnt = s.grpCnt ∧
      s1.tmFree = s.tmFree ∧ s1.tmFreeSize = s.tmFreeSize ∧
      s1.schTimerNodePool = s.schTimerNodePool ∧
      (∀ i, (s1.schTaskNodePool i).task = (s.schTaskNodePool i).task) ∧
      (∀ i, i ∉ p :: lb → s1.schTaskNodePool i = s.schTaskNodePool i) := by
  obtain ⟨hr, hh, hs⟩ := h
  cases lb with
  | nil =>
    simp only [List.head?_nil] at hh
    simp only [schimplTaskBusyEnque, hh, setTaskNext, setTaskLast]
    simp
    refine ⟨⟨?_, rfl, ?_⟩, ?_⟩
    · exact isRing_singleton.mpr (by simp [tkNext, tkLast])
    · simp [hs]
    · intro i hi
      apply schTaskNode.ext <;> simp [hi]
  | cons a t =>
    simp only [List.head?_cons] at hh
    have hl : (s.schTaskNodePool a).last = some (t.getLastD a) := hr.2.2.2
    have hi := hr.insert hp
    have hpa : p ≠ a := fun he => hp (by simp [he])
    have hz := getLastD_mem t a
    have hpz : p ≠ t.getLastD a := fun he => hp (he ▸ hz)
    simp only [schimplTaskBusyEnque, hh, hl, setTaskNext, setTaskLast]
    simp [-List.getLastD_eq_getLast?]
    refine ⟨⟨?_, rfl, ?_⟩, ?_⟩
    · refine hi.frame ?_
      intro x _
      simp [tkNext, tkLast, Function.update, -List.getLastD_eq_getLast?]
    · simp [hs]
    · intro i hip hia hit
      have hiz : i ≠ t.getLastD a := by
        intro he
        rw [← he] at hz
        rcases List.mem_cons.mp hz with h | h
        · exact hia h
        · exact hit h
      apply schTaskNode.ext <;> simp [hip, hia, hiz, -List.getLastD_eq_getLast?]

/-- Dequeue of a node that is on a well-formed busy list: the other nodes stay
a well-formed list, and only links of nodes that remain on it change. -/
theorem busyDeque_spec {s : Sched} {p : Nat} {lb : List Nat}
    (h : RingAt (tkNext s) (tkLast s) s.tkBusy s.busySize lb) (hp : p ∈ lb) :
    ∃ s1 lb1, schimplTaskBusyDeque s (some p) = some (SchEnoNone, s1) ∧
      RingAt (tkNext s1) (tkLast s1) s1.tkBusy s1.busySize lb1 ∧
      (∀ x, x ∈ lb1 ↔ x ∈ lb ∧ x ≠ p) ∧
      s1.tkFree = s.tkFree ∧ s1.freeSize = s.freeSize ∧ s1.tkMap = s.tkMap ∧
      s1.tmMap = s.tmMap ∧ s1.grpMap = s.grpMap ∧ s1.grpCnt = s.grpCnt ∧
      s1.tmFree = s.tmFree ∧ s1.tmFreeSize = s.tmFreeSize ∧
      s1.schTimerNodePool = s.schTimerNodePool ∧
      (∀ i, (s1.schTaskNodePool i).task = (s.schTaskNodePool i).task) ∧
      (∀ i, i ∉ lb1 → s1.schTaskNodePool i = s.schTaskNodePool i) := by
  obtain ⟨hr, hh, hs⟩ := h
  obtain ⟨pre, post, rfl⟩ := List.append_of_mem hp
  have hnd := hr.nodup
  have hrot : IsRing (tkNext s) (tkLast s) (p :: post ++ pre) :=
    IsRing.append_comm pre (p :: post) hr
  have hppre : p ∉ pre := fun hm => by
    have := (List.nodup_append.mp hnd).2.2
    exact this hm (by simp)
  have hppost : p ∉ post := by
    have := (List.nodup_append.mp hnd).2.1
    exact (List.nodup_cons.mp this).1
  cases hm : post ++ pre with
  | nil =>
    obtain ⟨hpost, hpre⟩ := List.append_eq_nil.mp hm
    subst hpost hpre
    simp only [List.nil_append, List.head?_cons, List.length_singleton, Nat.cast_one] at hh hs
    refine ⟨{ s with tkBusy := none, busySize := 0 }, [], ?_, ⟨isRing_nil _ _, rfl, rfl⟩, ?_, ?_⟩
    · simp [schimplTaskBusyDeque, hh, hs]
    · simp
    · simp
  | cons b t =>
    have hrot1 : IsRing (tkNext s) (tkLast s) (p :: b :: t) := by
      have : p :: post ++ pre = p :: b :: t := by simp [← hm]
      rw [← this]; exact hrot
    obtain ⟨h1, h2, h3, h4, h5, h6⟩ := hrot1.head_links
    have hu := hrot1.unlink
    simp only [tkNext, tkLast] at h1 h2 h3 h4
    have hlen : (pre ++ p :: post).length = t.length + 2 := by
      have := congrArg List.length hm
      simp only [List.length_append, List.length_cons] at this ⊢
      omega
    rw [hlen] at hs
    have hs1 : ¬ (s.busySize ≤ 0) := by omega
    have hs2 : ¬ (s.busySize = 1) := by omega
    have hs3 : ¬ (s.busySize - 1 ≤ 0) := by omega
    have hself : ¬ ((s.schTaskNodePool p).last = some p ∧ (s.schTaskNodePool p).next = some p) := by
      rw [h1]; intro hc; exact h5 (Option.some.inj hc.2).symm
    have hmem : ∀ x, x ∈ b :: t ↔ x ∈ pre ++ p :: post ∧ x ≠ p := by
      intro x
      rw [← hm]
      simp only [List.mem_append, List.mem_cons]
      constructor
      · rintro (h | h)
        · exact ⟨Or.inr (Or.inr h), fun he => hppost (he ▸ h)⟩
        · exact ⟨Or.inl h, fun he => hppre (he ▸ h)⟩
      · rintro ⟨h | h | h, hne⟩
        · exact Or.inr h
        · exact absurd h hne
        · exact Or.inl h
    have hframe : ∀ l : List Nat, IsRing (Function.update (tkNext s) (t.getLastD b) (some b))
        (Function.update (tkLast s) b (some (t.getLastD b))) l →
        IsRing (fun i => (updLast (updNext s.schTaskNodePool (t.getLastD b) (some b)) b
          (some (t.getLastD b)) i).next)
          (fun i => (updLast (updNext s.schTaskNodePool (t.getLastD b) (some b)) b
          (some (t.getLastD b)) i).last) l := by
      intro l hl
      refine hl.frame ?_
      intro x _
      simp [tkNext, tkLast, Function.update, -List.getLastD_eq_getLast?]
    have hnode : ∀ i, i ∉ b :: t →
        updLast (updNext s.schTaskNodePool (t.getLastD b) (some b)) b (some (t.getLastD b)) i =
          s.schTaskNodePool i := by
      intro i hi
      have hib : i ≠ b := fun he => hi (by simp [he])
      have hiz : i ≠ t.getLastD b := fun he => hi (he ▸ getLastD_mem t b)
      apply schTaskNode.ext <;> simp [hib, hiz, -List.getLastD_eq_getLast?]
    cases pre with
    | nil =>
      simp only [List.nil_append, List.head?_cons] at hh
      simp only [List.append_nil] at hm
      refine ⟨{ setTaskLast (setTaskNext s (t.getLastD b) (some b)) b (some (t.getLastD b)) with
        tkBusy := some b, busySize := s.busySize - 1 }, b :: t, ?_, ⟨?_, ?_, ?_⟩, hmem, ?_⟩
      · simp [schimplTaskBusyDeque, hs1, hs2, hself, h1, h4, setTaskNext,
          setTaskLast, hh, hs3, h5, h6, Ne.symm h5, Ne.symm h6, -List.getLastD_eq_getLast?]
      · exact hframe _ hu
      · rfl
      · simp only [List.length_cons, Nat.cast_add, Nat.cast_one]; omega
      · refine ⟨rfl, rfl, rfl, rfl, rfl, rfl, rfl, rfl, rfl, ?_, hnode⟩
        intro i; simp [setTaskNext, setTaskLast]
    | cons a pre1 =>
      simp only [List.cons_append, List.head?_cons] at hh
      have hap : a ≠ p := fun he => hppre (by simp [he])
      have hne : ¬ (some a = some p) := fun he => hap (Option.some.inj he)
      have hring : IsRing (Function.update (tkNext s) (t.getLastD b) (some b))
          (Function.update (tkLast s) b (some (t.getLastD b))) (a :: pre1 ++ post) := by
        rw [← hm] at hu
        exact IsRing.append_comm post (a :: pre1) hu
      have hmem1 : ∀ x, x ∈ a :: pre1 ++ post ↔ x ∈ b :: t := by
        intro x; rw [← hm]; simp only [List.mem_append, List.mem_cons]; tauto
      refine ⟨{ setTaskLast (setTaskNext s (t.getLastD b) (some b)) b (some (t.getLastD b)) with
        busySize := s.busySize - 1 }, a :: pre1 ++ post, ?_, ⟨?_, ?_, ?_⟩,
        fun x => (hmem1 x).trans (hmem x), ?_⟩
      · simp [schimplTaskBusyDeque, hs1, hs2, hself, h1, h4, setTaskNext,
          setTaskLast, hh, hne, hap, hs3, h5, h6, Ne.symm h5, Ne.symm h6, -List.getLastD_eq_getLast?]
      · exact hframe _ hring
      · exact hh
      · have := congrArg List.length hm
        simp only [List.length_append, List.length_cons, Nat.cast_add, Nat.cast_one] at this ⊢
        omega
      · refine ⟨rfl, rfl, rfl, rfl, rfl, rfl, rfl, rfl, rfl, ?_, ?_⟩
        · intro i; simp [setTaskNext, setTaskLast]
        · intro i hi
          exact hnode i (fun hmi => hi ((hmem1 i).mpr hmi))

/-- Well-formedness of the task pool depends only on heads, sizes, links and the
channels of the free nodes. -/
theorem TaskPoolWF.congr {s s1 : Sched} {lf lb : List Nat} (h : TaskPoolWF s lf lb)
    (h1 : s1.tkFree = s.tkFree) (h2 : s1.freeSize = s.freeSize)
    (h3 : s1.tkBusy = s.tkBusy) (h4 : s1.busySize = s.busySize)
    (hl : ∀ i, (s1.schTaskNodePool i).next = (s.schTaskNodePool i).next ∧
      (s1.schTaskNodePool i).last = (s.schTaskNodePool i).last)
    (ht : ∀ i, i ∈ lf → (s1.schTaskNodePool i).task = (s.schTaskNodePool i).task) :
    TaskPoolWF s1 lf lb := by
  refine ⟨?_, ?_, h.disjoint, ?_⟩
  · rw [h1, h2]; exact h.free.sameLinks (fun i _ => hl i)
  · rw [h3, h4]; exact h.busy.sameLinks (fun i _ => hl i)
  · intro i hi
    rw [ht i hi]; exact h.chans i hi

theorem closeStaleChans_nil {t : schTask} (h : chansNil t) : closeStaleChans t = some t := by
  obtain ⟨h1, h2, h3⟩ := h
  simp [closeStaleChans, h1, h2, h3]

theorem clearTmIdxTab_fields (t : schTask) :
    (clearTmIdxTab t).name = t.name ∧ (clearTmIdxTab t).utep = t.utep ∧
    (clearTmIdxTab t).mailbox = t.mailbox ∧ (clearTmIdxTab t).done = t.done ∧
    (clearTmIdxTab t).stopped = t.stopped ∧ (clearTmIdxTab t).dog = t.dog ∧
    (clearTmIdxTab t).dieCb = t.dieCb ∧ (clearTmIdxTab t).goStatus = t.goStatus ∧
    (clearTmIdxTab t).userData = t.userData ∧ (clearTmIdxTab t).tmTab = t.tmTab := by
  unfold clearTmIdxTab
  generalize t.tmIdxTab = l
  induction l generalizing t with
  | nil => simp
  | cons e l ih => simpa using ih { t with tmIdxTab := mapDel t.tmIdxTab e.1 }

theorem clearTmTab_fields (c : SchConst) (t : schTask) :
    (clearTmTab c t).name = t.name ∧ (clearTmTab c t).utep = t.utep ∧
    (clearTmTab c t).mailbox = t.mailbox ∧ (clearTmTab c t).done = t.done ∧
    (clearTmTab c t).stopped = t.stopped ∧ (clearTmTab c t).dog = t.dog ∧
    (clearTmTab c t).dieCb = t.dieCb ∧ (clearTmTab c t).goStatus = t.goStatus ∧
    (clearTmTab c t).userData = t.userData ∧ (clearTmTab c t).tmIdxTab = t.tmIdxTab := by
  unfold clearTmTab
  generalize List.range c.schMaxTaskTimer = l
  induction l generalizing t with
  | nil => simp
  | cons e l ih =>
    simp only [List.foldl_cons]
    split_ifs
    · simpa using ih { t with tmTab := Function.update t.tmTab e none }
    · exact ih t

@[simp]
theorem clearTmIdxTab_name (t : schTask) : (clearTmIdxTab t).name = t.name :=
  (clearTmIdxTab_fields t).1
@[simp]
theorem clearTmTab_name (c : SchConst) (t : schTask) :
    (clearTmTab c t).name = t.name :=
  (clearTmTab_fields c t).1
@[simp]
theorem clearTmIdxTab_utep (t : schTask) : (clearTmIdxTab t).utep = t.utep :=
  (clearTmIdxTab_fields t).2.1
@[simp]
theorem clearTmTab_utep (c : SchConst) (t : schTask) :
    (clearTmTab c t).utep = t.utep :=
  (clearTmTab_fields c t).2.1
@[simp]
theorem clearTmIdxTab_mailbox (t : schTask) : (clearTmIdxTab t).mailbox = t.mailbox :=
  (clearTmIdxTab_fields t).2.2.1
@[simp]
theorem clearTmTab_mailbox (c : SchConst) (t : schTask) :
    (clearTmTab c t).mailbox = t.mailbox :=
  (clearTmTab_fields c t).2.2.1
@[simp]
theorem clearTmIdxTab_done (t : schTask) : (clearTmIdxTab t).done = t.done :=
  (clearTmIdxTab_fields t).2.2.2.1
@[simp]
theorem clearTmTab_done (c : SchConst) (t : schTask) :
    (clearTmTab c t).done = t.done :=
  (clearTmTab_fields c t).2.2.2.1
@[simp]
theorem clearTmIdxTab_stopped (t : schTask) : (clearTmIdxTab t).stopped = t.stopped :=
  (clearTmIdxTab_fields t).2.2.2.2.1
@[simp]
theorem clearTmTab_stopped (c : SchConst) (t : schTask) :
    (clearTmTab c t).stopped = t.stopped :=
  (clearTmTab_fields c t).2.2.2.2.1
@[simp]
theorem clearTmIdxTab_dog (t : schTask) : (clearTmIdxTab t).dog = t.dog :=
  (clearTmIdxTab_fields t).2.2.2.2.2.1
@[simp]
theorem clearTmTab_dog (c : SchConst) (t : schTask) :
    (clearTmTab c t).dog = t.dog :=
  (clearTmTab_fields c t).2.2.2.2.2.1
@[simp]
theorem clearTmIdxTab_dieCb (t : schTask) : (clearTmIdxTab t).dieCb = t.dieCb :=
  (clearTmIdxTab_fields t).2.2.2.2.2.2.1
@[simp]
theorem clearTmTab_dieCb (c : SchConst) (t : schTask) :
    (clearTmTab c t).dieCb = t.dieCb :=
  (clearTmTab_fields c t).2.2.2.2.2.2.1
@[simp]
theorem clearTmIdxTab_goStatus (t : schTask) : (clearTmIdxTab t).goStatus = t.goStatus :=
  (clearTmIdxTab_fields t).2.2.2.2.2.2.2.1
@[simp]
theorem clearTmTab_goStatus (c : SchConst) (t : schTask) :
    (clearTmTab c t).goStatus = t.goStatus :=
  (clearTmTab_fields c t).2.2.2.2.2.2.2.1
@[simp]
theorem clearTmIdxTab_userData (t : schTask) : (clearTmIdxTab t).userData = t.userData :=
  (clearTmIdxTab_fields t).2.2.2.2.2.2.2.2.1
@[simp]
theorem clearTmTab_userData (c : SchConst) (t : schTask) :
    (clearTmTab c t).userData = t.userData :=
  (clearTmTab_fields c t).2.2.2.2.2.2.2.2.1

/-- The control block `schimplCreateTask` writes on a node without channels. -/
theorem prepareTask_spec (c : SchConst) {t : schTask} {d : schTaskDescription}
    (ht : chansNil t) (hd : descOk c d) :
    ∃ t1, prepareTask c t d = some t1 ∧ t1.name = TrimSpace d.Name ∧ t1.utep = d.Ep ∧
      t1.mailbox = { que := some { cap := d.MbSize.toNat, buf := [], closed := false },
                     size := d.MbSize } ∧
      t1.done = some { cap := 1, buf := [], closed := false } ∧
      t1.stopped = some { cap := 1, buf := [], closed := false } ∧
      some t1.dog = d.Wd ∧ t1.dieCb = d.DieCb ∧ t1.userData = d.UserDa ∧
      t1.goStatus = t.goStatus := by
  obtain ⟨hw, hm, hM⟩ := hd
  obtain ⟨wd, hwd⟩ := Option.ne_none_iff_exists'.mp hw
  have hm1 : ¬ (d.MbSize < 0 ∨ (c.schMaxChanSize : Int) < d.MbSize) := by omega
  simp only [prepareTask, closeStaleChans_nil ht, setupUserTask, chanMake, hm1, hwd, if_false,
    Option.bind_eq_bind, Option.some_bind, Option.pure_def, Option.bind_some]
  refine ⟨_, rfl, ?_⟩
  simp

theorem TaskPoolWF.setTask {s : Sched} {lf lb : List Nat} (h : TaskPoolWF s lf lb) {a : Nat}
    (ha : a ∉ lf) (t : schTask) : TaskPoolWF (setTask s a t) lf lb := by
  refine h.congr rfl rfl rfl rfl (fun i => by simp [Scheduler.setTask]) ?_
  intro i hi
  have : i ≠ a := fun he => ha (he ▸ hi)
  simp [Scheduler.setTask, this]

theorem TaskPoolWF.setTkMap {s : Sched} {lf lb : List Nat} (h : TaskPoolWF s lf lb)
    (m : GoMap String Nat) : TaskPoolWF { s with tkMap := m } lf lb :=
  h.congr rfl rfl rfl rfl (fun _ => ⟨rfl, rfl⟩) (fun _ _ => rfl)

/-- Acquisition in a well-formed task pool. -/
theorem getTaskNode_wf {s : Sched} {a : Nat} {t lb : List Nat} (h : TaskPoolWF s (a :: t) lb) :
    ∃ s1, schimplGetTaskNode s = some (SchEnoNone, some a, s1) ∧ TaskPoolWF s1 t lb ∧
      a ∉ t ∧ a ∉ lb ∧ s1.tkBusy = s.tkBusy ∧ s1.busySize = s.busySize ∧ s1.tkMap = s.tkMap ∧
      (∀ i, (s1.schTaskNodePool i).task = (s.schTaskNodePool i).task) ∧
      (∀ i, i ∉ a :: t → s1.schTaskNodePool i = s.schTaskNodePool i) := by
  obtain ⟨s1, h1, h2, h3, h4, h5, -, -, -, -, -, -, h6, h7⟩ := getTaskNode_spec h.free
  have hat : a ∉ t := (List.nodup_cons.mp h.free.ring.nodup).1
  have hdis : ∀ i, i ∈ lb → i ∉ a :: t := fun i hi hc => h.disjoint i hc hi
  refine ⟨s1, h1, ⟨h2, ?_, ?_, ?_⟩, hat, h.disjoint a (by simp), h3, h4, h5, h6, h7⟩
  · rw [h3, h4]
    refine h.busy.sameLinks ?_
    intro i hi
    rw [h7 i (hdis i hi)]
    exact ⟨rfl, rfl⟩
  · intro i hi
    exact h.disjoint i (List.mem_cons_of_mem _ hi)
  · intro i hi
    rw [h6 i]
    exact h.chans i (List.mem_cons_of_mem _ hi)

/-- Enqueue in a well-formed task pool of a node that is on neither list. -/
theorem busyEnque_wf {s : Sched} {a : Nat} {lf lb : List Nat} (h : TaskPoolWF s lf lb)
    (haf : a ∉ lf) (hab : a ∉ lb) :
    ∃ s1, schimplTaskBusyEnque s (some a) = some (SchEnoNone, s1) ∧ TaskPoolWF s1 lf (a :: lb) ∧
      s1.tkMap = s.tkMap ∧
      (∀ i, (s1.schTaskNodePool i).task = (s.schTaskNodePool i).task) ∧
      (∀ i, i ∉ a :: lb → s1.schTaskNodePool i = s.schTaskNodePool i) := by
  obtain ⟨s1, h1, h2, h3, h4, h5, -, -, -, -, -, -, h6, h7⟩ := busyEnque_spec h.busy hab
  have hdis : ∀ i, i ∈ lf → i ∉ a :: lb := by
    intro i hi hc
    rcases List.mem_cons.mp hc with he | hm
    · exact haf (he ▸ hi)
    · exact h.disjoint i hi hm
  refine ⟨s1, h1, ⟨?_, h2, hdis, ?_⟩, h5, h6, h7⟩
  · rw [h3, h4]
    refine h.free.sameLinks ?_
    intro i hi
    rw [h7 i (hdis i hi)]
    exact ⟨rfl, rfl⟩
  · intro i hi
    rw [h6 i]
    exact h.chans i hi

/-- The code and the run-state a start flag gives. -/
theorem registerBusy_spec (c : SchConst) {s : Sched} {a : Nat} {lf lb : List Nat}
    (h : TaskPoolWF s lf lb) (haf : a ∉ lf) (hab : a ∉ lb) (d : schTaskDescription) :
    ∃ s1, registerBusy c s a d =
        some (if d.Flag = c.SchCreatedGo ∨ d.Flag = c.SchCreatedSuspend then SchEnoNone
              else SchEnoSuspended, some a, s1) ∧
      TaskPoolWF s1 lf (a :: lb) ∧ s1.tkMap = s.tkMap ∧
      (s1.schTaskNodePool a).task = { (s.schTaskNodePool a).task with
        goStatus := if d.Flag = c.SchCreatedGo then c.SchCreatedGo else c.SchCreatedSuspend } ∧
      (∀ i, i ≠ a → (s1.schTaskNodePool i).task = (s.schTaskNodePool i).task) ∧
      (∀ i, i ∉ a :: lb → s1.schTaskNodePool i = s.schTaskNodePool i) := by
  obtain ⟨s1, h1, h2, h3, h4, h5⟩ := busyEnque_wf h haf hab
  simp only [registerBusy, h1]
  by_cases hg : d.Flag = c.SchCreatedGo
  · simp only [hg, if_true, true_or]
    refine ⟨_, rfl, h2.setTask haf _, h3, ?_, ?_, ?_⟩
    · simp [setTask, h4]
    · intro i hi; simp [setTask, hi, h4]
    · intro i hi
      have hia : i ≠ a := fun he => hi (by simp [he])
      rw [← h5 i hi]
      apply schTaskNode.ext <;> simp [setTask, hia]
  · by_cases hsu : d.Flag = c.SchCreatedSuspend
    · have hg1 : ¬ c.SchCreatedSuspend = c.SchCreatedGo := fun he => hg (hsu.trans he)
      simp only [hsu, hg1, if_false, if_true, or_true]
      refine ⟨_, rfl, h2.setTask haf _, h3, ?_, ?_, ?_⟩
      · simp [setTask, h4]
      · intro i hi; simp [setTask, hi, h4]
      · intro i hi
        have hia : i ≠ a := fun he => hi (by simp [he])
        rw [← h5 i hi]
        apply schTaskNode.ext <;> simp [setTask, hia]
    · simp only [hg, hsu, if_false, or_self]
      refine ⟨_, rfl, h2.setTask haf _, h3, ?_, ?_, ?_⟩
      · simp [setTask, h4]
      · intro i hi; simp [setTask, hi, h4]
      · intro i hi
        have hia : i ≠ a := fun he => hi (by simp [he])
        rw [← h5 i hi]
        apply schTaskNode.ext <;> simp [setTask, hia]

/-! ## `schimplCreateTask` on a well-formed task pool -/

/-- No free node: `Resource`, and nothing changes. -/
theorem createTask_exhausted (c : SchConst) {s : Sched} {lb : List Nat}
    (h : TaskPoolWF s [] lb) (d : schTaskDescription) :
    schimplCreateTask c s (some d) = some (SchEnoResource, none, s) := by
  have hh : s.tkFree = none := h.free.head_eq
  simp [schimplCreateTask, schimplGetTaskNode, hh]

/-- The control block cannot be prepared: the call does not return. -/
theorem createTask_stuck (c : SchConst) {s : Sched} {a : Nat} {t lb : List Nat}
    (h : TaskPoolWF s (a :: t) lb) (d : schTaskDescription)
    (hp : prepareTask c (s.schTaskNodePool a).task d = none) :
    schimplCreateTask c s (some d) = none := by
  obtain ⟨sg, h1, -, -, -, -, -, -, h6, -⟩ := getTaskNode_wf h
  simp [schimplCreateTask, h1, h6, hp]

/-- The name is already registered: `Duplicated`; the node taken from the free
list is on no list afterwards, the registry and the busy list are untouched. -/
theorem createTask_dup_core (c : SchConst) {s : Sched} {a : Nat} {t lb : List Nat}
    (h : TaskPoolWF s (a :: t) lb) (d : schTaskDescription) {t1 : schTask}
    (hp : prepareTask c (s.schTaskNodePool a).task d = some t1)
    (hne : ¬ t1.name.length ≤ 0) (hdup : (mapGet s.tkMap t1.name).isSome = true) :
    ∃ s1, schimplCreateTask c s (some d) = some (SchEnoDuplicated, none, s1) ∧
      TaskPoolWF s1 t lb ∧ s1.tkMap = s.tkMap ∧ s1.tkBusy = s.tkBusy ∧
      s1.busySize = s.busySize ∧
      (∀ i, i ∉ a :: t → s1.schTaskNodePool i = s.schTaskNodePool i) := by
  obtain ⟨sg, h1, h2, h3, h4, h5, h5b, h5c, h6, h7⟩ := getTaskNode_wf h
  refine ⟨setTask sg a t1, ?_, h2.setTask h3 t1, h5c, h5, h5b, ?_⟩
  · simp [schimplCreateTask, h1, h6, hp, hne, setTask, h5c, hdup]
  · intro i hi
    have hia : i ≠ a := fun he => hi (by simp [he])
    rw [← h7 i hi]
    apply schTaskNode.ext <;> simp [setTask, hia]

/-- The name is empty or not yet registered: the node taken from the free list
is registered (when named), put on the busy list and given its run-state. -/
theorem createTask_ok_core (c : SchConst) {s : Sched} {a : Nat} {t lb : List Nat}
    (h : TaskPoolWF s (a :: t) lb) (d : schTaskDescription) {t1 : schTask}
    (hp : prepareTask c (s.schTaskNodePool a).task d = some t1)
    (hfresh : t1.name.length ≤ 0 ∨ mapGet s.tkMap t1.name = none) :
    ∃ s1, schimplCreateTask c s (some d) =
        some (if d.Flag = c.SchCreatedGo ∨ d.Flag = c.SchCreatedSuspend then SchEnoNone
              else SchEnoSuspended, some a, s1) ∧
      TaskPoolWF s1 t (a :: lb) ∧
      s1.tkMap = (if t1.name.length ≤ 0 then s.tkMap else mapPut s.tkMap t1.name a) ∧
      (s1.schTaskNodePool a).task = { t1 with
        goStatus := if d.Flag = c.SchCreatedGo then c.SchCreatedGo else c.SchCreatedSuspend } ∧
      (∀ i, i ≠ a → (s1.schTaskNodePool i).task = (s.schTaskNodePool i).task) := by
  obtain ⟨sg, h1, h2, h3, h4, h5, h5b, h5c, h6, h7⟩ := getTaskNode_wf h
  by_cases hlen : t1.name.length ≤ 0
  · obtain ⟨s1, e1, e2, e3, e4, e5, -⟩ := registerBusy_spec c (h2.setTask h3 t1) h3 h4 d
    refine ⟨s1, ?_, e2, ?_, ?_, ?_⟩
    · simp [schimplCreateTask, h1, h6, hp, hlen, e1]
    · simp [hlen, e3, setTask, h5c]
    · rw [e4]; simp [setTask]
    · intro i hi
      rw [e5 i hi]; simp [setTask, hi, h6]
  · have hnone : mapGet s.tkMap t1.name = none := hfresh.resolve_left hlen
    obtain ⟨s1, e1, e2, e3, e4, e5, -⟩ := registerBusy_spec c
      (((h2.setTask h3 t1).setTkMap (mapPut s.tkMap t1.name a))) h3 h4 d
    refine ⟨s1, ?_, e2, ?_, ?_, ?_⟩
    · simp only [schimplCreateTask, h1, h6, hp, hlen, if_false]
      simp only [setTask, h5c, hnone, Option.isSome_none, Bool.false_eq_true, if_false]
      exact e1
    · simp [hlen, e3]
    · rw [e4]; simp [setTask]
    · intro i hi
      rw [e5 i hi]; simp [setTask, hi, h6]

/-- `schimplCreateTask` keeps the task pool well formed, whatever it returns. -/
theorem createTask_wf (c : SchConst) {s : Sched} {lf lb : List Nat} (h : TaskPoolWF s lf lb)
    (d : schTaskDescription) {eno : SchErrno} {ptn : Option Nat} {s1 : Sched}
    (hr : schimplCreateTask c s (some d) = some (eno, ptn, s1)) :
    ∃ lf1 lb1, TaskPoolWF s1 lf1 lb1 := by
  cases lf with
  | nil =>
    rw [createTask_exhausted c h d] at hr
    simp only [Option.some.injEq, Prod.mk.injEq] at hr
    exact ⟨[], lb, hr.2.2 ▸ h⟩
  | cons a t =>
    cases hp : prepareTask c (s.schTaskNodePool a).task d with
    | none =>
      rw [createTask_stuck c h d hp] at hr
      exact absurd hr (by simp)
    | some t1 =>
      by_cases hfresh : t1.name.length ≤ 0 ∨ mapGet s.tkMap t1.name = none
      · obtain ⟨s2, e1, e2, -⟩ := createTask_ok_core c h d hp hfresh
        rw [e1] at hr
        simp only [Option.some.injEq, Prod.mk.injEq] at hr
        exact ⟨t, a :: lb, hr.2.2 ▸ e2⟩
      · have hne : ¬ t1.name.length ≤ 0 := fun hc => hfresh (Or.inl hc)
        have hdup : (mapGet s.tkMap t1.name).isSome = true := by
          cases hg : mapGet s.tkMap t1.name with
          | none => exact absurd (Or.inr hg) hfresh
          | some v => rfl
        obtain ⟨s2, e1, e2, -⟩ := createTask_dup_core c h d hp hne hdup
        rw [e1] at hr
        simp only [Option.some.injEq, Prod.mk.injEq] at hr
        exact ⟨t, lb, hr.2.2 ▸ e2⟩

/-! ## Teardown -/

theorem sameTaskLists.same (s : Sched) : sameTaskLists s s :=
  ⟨rfl, rfl, rfl, rfl, rfl, fun _ => ⟨rfl, rfl⟩⟩

theorem sameTaskLists.andThen {s s1 s2 : Sched} (h1 : sameTaskLists s s1)
    (h2 : sameTaskLists s1 s2) : sameTaskLists s s2 := by
  obtain ⟨a1, a2, a3, a4, a5, a6⟩ := h1
  obtain ⟨b1, b2, b3, b4, b5, b6⟩ := h2
  exact ⟨b1.trans a1, b2.trans a2, b3.trans a3, b4.trans a4, b5.trans a5,
    fun i => ⟨(b6 i).1.trans (a6 i).1, (b6 i).2.trans (a6 i).2⟩⟩

theorem sameTaskLists_setTask (s : Sched) (p : Nat) (t : schTask) :
    sameTaskLists s (setTask s p t) :=
  ⟨rfl, rfl, rfl, rfl, rfl, fun i => by simp [setTask]⟩

theorem sameButTimers.self (t : schTask) : sameButTimers t t :=
  ⟨rfl, rfl, rfl, rfl, rfl, rfl, rfl, rfl, rfl⟩

theorem sameButTimers.step {t t1 t2 : schTask} (h1 : sameButTimers t t1)
    (h2 : sameButTimers t1 t2) : sameButTimers t t2 := by
  obtain ⟨a1, a2, a3, a4, a5, a6, a7, a8, a9⟩ := h1
  obtain ⟨b1, b2, b3, b4, b5, b6, b7, b8, b9⟩ := h2
  exact ⟨b1.trans a1, b2.trans a2, b3.trans a3, b4.trans a4, b5.trans a5, b6.trans a6,
    b7.trans a7, b8.trans a8, b9.trans a9⟩

theorem sameTaskLists.wf {s s1 : Sched} {lf lb : List Nat} (h : sameTaskLists s s1)
    (hw : TaskPoolWF s lf lb)
    (ht : ∀ i, i ∈ lf → (s1.schTaskNodePool i).task = (s.schTaskNodePool i).task) :
    TaskPoolWF s1 lf lb :=
  hw.congr h.1 h.2.1 h.2.2.1 h.2.2.2.1 h.2.2.2.2.2 ht

/-- One round of the timer loop of `schimplTcbClean`. -/
theorem tcbCleanTimer_step (tcb : Nat) (s : Sched) (j : Nat) :
    sameTaskLists s (tcbCleanTimer tcb s j) ∧
    (∀ i, i ≠ tcb → (tcbCleanTimer tcb s j).schTaskNodePool i = s.schTaskNodePool i) ∧
    sameButTimers (s.schTaskNodePool tcb).task ((tcbCleanTimer tcb s j).schTaskNodePool tcb).task ∧
    ((tcbCleanTimer tcb s j).schTaskNodePool tcb).task.tmTab =
      Function.update (s.schTaskNodePool tcb).task.tmTab j none := by
  cases hj : (s.schTaskNodePool tcb).task.tmTab j with
  | none =>
    have e : tcbCleanTimer tcb s j = s := by simp only [tcbCleanTimer, hj]
    rw [e]
    refine ⟨sameTaskLists.same s, fun _ _ => rfl, sameButTimers.self _, ?_⟩
    funext k
    by_cases hk : k = j
    · subst hk; simp [hj]
    · simp [Function.update, hk]
  | some tm =>
    simp only [tcbCleanTimer, hj]
    refine ⟨⟨rfl, rfl, rfl, rfl, rfl, fun i => by simp [setTask]⟩, ?_, ?_, ?_⟩
    · intro i hi
      apply schTaskNode.ext <;> simp [setTask, hi]
    · simp [sameButTimers, setTask]
    · simp [setTask]

theorem foldl_tcbCleanTimer (tcb : Nat) (l : List Nat) (s : Sched) :
    sameTaskLists s (l.foldl (tcbCleanTimer tcb) s) ∧
    (∀ i, i ≠ tcb → (l.foldl (tcbCleanTimer tcb) s).schTaskNodePool i = s.schTaskNodePool i) ∧
    sameButTimers (s.schTaskNodePool tcb).task
      ((l.foldl (tcbCleanTimer tcb) s).schTaskNodePool tcb).task ∧
    (∀ k, ((l.foldl (tcbCleanTimer tcb) s).schTaskNodePool tcb).task.tmTab k =
      if k ∈ l then none else (s.schTaskNodePool tcb).task.tmTab k) := by
  induction l generalizing s with
  | nil => exact ⟨sameTaskLists.same s, fun _ _ => rfl, sameButTimers.self _, fun k => by simp⟩
  | cons j l ih =>
    obtain ⟨a1, a2, a3, a4⟩ := tcbCleanTimer_step tcb s j
    obtain ⟨b1, b2, b3, b4⟩ := ih (tcbCleanTimer tcb s j)
    simp only [List.foldl_cons]
    refine ⟨a1.andThen b1, fun i hi => (b2 i hi).trans (a2 i hi), a3.step b3, ?_⟩
    intro k
    rw [b4 k, a4]
    by_cases hk : k ∈ l
    · simp [hk]
    · by_cases hkj : k = j
      · subst hkj; simp [hk]
      · simp [hk, hkj, Function.update]

/-- What `schimplTcbClean` leaves when it returns: the only code is
`SchEnoNone`; lists, registry and the other nodes are untouched; the control
block has no name, handler, callback or channel, run-state `Suspend`, a zero
bite counter and an empty timer table, and the user data it had before. -/
theorem tcbClean_spec (c : SchConst) (s : Sched) (tcb : Nat) {eno : SchErrno} {s1 : Sched}
    (hr : schimplTcbClean c s tcb = some (eno, s1)) :
    eno = SchEnoNone ∧ sameTaskLists s s1 ∧
    (∀ i, i ≠ tcb → s1.schTaskNodePool i = s.schTaskNodePool i) ∧
    (s1.schTaskNodePool tcb).task.name = "" ∧
    (s1.schTaskNodePool tcb).task.utep = none ∧
    (s1.schTaskNodePool tcb).task.dieCb = none ∧
    (s1.schTaskNodePool tcb).task.goStatus = c.SchCreatedSuspend ∧
    chansNil (s1.schTaskNodePool tcb).task ∧
    (s1.schTaskNodePool tcb).task.dog.BiteCounter = 0 ∧
    (s1.schTaskNodePool tcb).task.userData = (s.schTaskNodePool tcb).task.userData ∧
    (∀ k, k < c.schMaxTaskTimer → (s1.schTaskNodePool tcb).task.tmTab k = none) := by
  unfold schimplTcbClean at hr
  cases hq : (s.schTaskNodePool tcb).task.mailbox.que with
  | none => simp [chanClose, hq] at hr
  | some q =>
    cases hd : (s.schTaskNodePool tcb).task.done with
    | none => simp [chanClose, hq, hd] at hr
    | some dn =>
      cases hs : (s.schTaskNodePool tcb).task.stopped with
      | none => simp [chanClose, hq, hd, hs] at hr
      | some st =>
        simp only [chanClose, hq, hd, hs, Option.bind_eq_bind, Option.pure_def] at hr
        by_cases c1 : q.closed = true
        · simp [c1] at hr
        by_cases c2 : dn.closed = true
        · simp [c1, c2] at hr
        by_cases c3 : st.closed = true
        · simp [c1, c2, c3] at hr
        simp only [c1, c2, c3, Bool.false_eq_true, if_false, Option.some_bind, Option.bind_some,
          Option.some.injEq, Prod.mk.injEq] at hr
        obtain ⟨he, hs1⟩ := hr
        obtain ⟨a1, a2, a3, a4⟩ := foldl_tcbCleanTimer tcb (List.range c.schMaxTaskTimer)
          (setTask s tcb
            { name := "", utep := none, mailbox := { que := none, size := 0 }, done := none,
              stopped := none,
              dog := { HaveDog := (s.schTaskNodePool tcb).task.dog.HaveDog,
                       Inited := (s.schTaskNodePool tcb).task.dog.Inited,
                       Cycle := c.SchDefaultDogCycle, BiteCounter := 0,
                       DieThreshold := c.SchDefaultDogDieThresold },
              dieCb := none, goStatus := c.SchCreatedSuspend,
              userData := (s.schTaskNodePool tcb).task.userData,
              tmTab := (s.schTaskNodePool tcb).task.tmTab,
              tmIdxTab := (s.schTaskNodePool tcb).task.tmIdxTab })
        rw [hs1] at a1 a2 a3 a4
        obtain ⟨b1, b2, b3, b4, b5, b6, b7, b8, b9⟩ := a3
        simp only [setTask, updTask_task, if_true] at b1 b2 b3 b4 b5 b6 b7 b8 b9
        refine ⟨he.symm, ?_, ?_, b1, b2, b7, b8, ⟨?_, b4, b5⟩, ?_, b9, ?_⟩
        · exact (sameTaskLists_setTask s tcb _).andThen a1
        · intro i hi
          rw [a2 i hi]
          apply schTaskNode.ext <;> simp [setTask, hi]
        · rw [b3]
        · rw [b6]
        · intro k hk
          rw [a4 k]
          simp [hk]

theorem callDieCb_eq (s : Sched) (ptn : Nat) : callDieCb s ptn = s := by
  unfold callDieCb
  split <;> rfl

theorem killTaskTimers_spec (c : SchConst) (s : Sched) (task : Nat) {eno : SchErrno}
    {s1 : Sched} (hr : schimplKillTaskTimers c s task = some (eno, s1)) :
    s1 = s ∧ (eno = SchEnoNone ∨ eno = SchEnoInternal) := by
  unfold schimplKillTaskTimers at hr
  split at hr
  · simp only [Option.some.injEq, Prod.mk.injEq] at hr
    exact ⟨hr.2.symm, Or.inl hr.1.symm⟩
  · split_ifs at hr
    simp only [Option.some.injEq, Prod.mk.injEq] at hr
    exact ⟨hr.2.symm, Or.inr hr.1.symm⟩

/-- Dequeue in a well-formed task pool of a node that is on the busy list. -/
theorem busyDeque_wf {s : Sched} {p : Nat} {lf lb : List Nat} (h : TaskPoolWF s lf lb)
    (hp : p ∈ lb) :
    ∃ s1 lb1, schimplTaskBusyDeque s (some p) = some (SchEnoNone, s1) ∧ TaskPoolWF s1 lf lb1 ∧
      (∀ x, x ∈ lb1 ↔ x ∈ lb ∧ x ≠ p) ∧ s1.tkMap = s.tkMap ∧
      (∀ i, (s1.schTaskNodePool i).task = (s.schTaskNodePool i).task) ∧
      (∀ i, i ∉ lb1 → s1.schTaskNodePool i = s.schTaskNodePool i) := by
  obtain ⟨s1, lb1, h1, h2, h3, h4, h5, h6, -, -, -, -, -, -, h7, h8⟩ := busyDeque_spec h.busy hp
  have hdis : ∀ i, i ∈ lf → i ∉ lb1 := fun i hi hc => h.disjoint i hi ((h3 i).mp hc).1
  refine ⟨s1, lb1, h1, ⟨?_, h2, hdis, ?_⟩, h3, h6, h7, h8⟩
  · rw [h4, h5]
    refine h.free.sameLinks ?_
    intro i hi
    rw [h8 i (hdis i hi)]
    exact ⟨rfl, rfl⟩
  · intro i hi
    rw [h7 i]
    exact h.chans i hi

/-- Release in a well-formed task pool of a node that is on neither list and
carries no channel. -/
theorem retTaskNode_wf {s : Sched} {p : Nat} {lf lb : List Nat} (h : TaskPoolWF s lf lb)
    (hpf : p ∉ lf) (hpb : p ∉ lb) (hc : chansNil (s.schTaskNodePool p).task) :
    ∃ s1, schimplRetTaskNode s (some p) = some (SchEnoNone, s1) ∧ TaskPoolWF s1 (p :: lf) lb ∧
      s1.tkMap = s.tkMap ∧
      (∀ i, (s1.schTaskNodePool i).task = (s.schTaskNodePool i).task) ∧
      (∀ i, i ∉ p :: lf → s1.schTaskNodePool i = s.schTaskNodePool i) := by
  obtain ⟨s1, h1, h2, h3, h4, h5, -, -, -, -, -, -, h6, h7⟩ := retTaskNode_spec h.free hpf
  have hdis : ∀ i, i ∈ p :: lf → i ∉ lb := by
    intro i hi
    rcases List.mem_cons.mp hi with he | hm
    · exact he ▸ hpb
    · exact h.disjoint i hm
  refine ⟨s1, h1, ⟨h2, ?_, hdis, ?_⟩, h5, h6, h7⟩
  · rw [h3, h4]
    refine h.busy.sameLinks ?_
    intro i hi
    rw [h7 i (fun hc => hdis i hc hi)]
    exact ⟨rfl, rfl⟩
  · intro i hi
    rw [h6 i]
    rcases List.mem_cons.mp hi with he | hm
    · exact he ▸ hc
    · exact h.chans i hm

/-- Teardown of a node that is on the busy list of a well-formed task pool:
the pool stays well formed whatever the code; with `SchEnoNone` the node has
moved from the busy list to the head of the free list, its control block is
the one `schimplTcbClean` leaves, and the name registry is what it was. -/
theorem stopTaskEx_spec (c : SchConst) {s : Sched} {p : Nat} {lf lb : List Nat}
    (h : TaskPoolWF s lf lb) (hp : p ∈ lb) {eno : SchErrno} {s1 : Sched}
    (hr : schimplStopTaskEx c s (some p) = some (eno, s1)) :
    ∃ lf1 lb1, TaskPoolWF s1 lf1 lb1 ∧
      (eno = SchEnoNone → lf1 = p :: lf ∧ (∀ x, x ∈ lb1 ↔ x ∈ lb ∧ x ≠ p) ∧
        s1.tkMap = s.tkMap ∧ chansNil (s1.schTaskNodePool p).task ∧
        (s1.schTaskNodePool p).task.name = "" ∧
        (∀ i, i ≠ p → (s1.schTaskNodePool i).task = (s.schTaskNodePool i).task)) := by
  obtain ⟨sd, lb1, d1, d2, d3, d4, d5, d6⟩ := busyDeque_wf h hp
  have hpb1 : p ∉ lb1 := fun hc => ((d3 p).mp hc).2 rfl
  have hpf : p ∉ lf := fun hc => h.disjoint p hc hp
  simp only [schimplStopTaskEx, d1, callDieCb_eq] at hr
  cases hk : schimplKillTaskTimers c sd p with
  | none => simp [hk] at hr
  | some rk =>
    obtain ⟨ek, sk⟩ := rk
    obtain ⟨k1, k2⟩ := killTaskTimers_spec c sd p hk
    subst k1
    rcases k2 with k2 | k2
    · subst k2
      simp only [hk] at hr
      cases hc : schimplTcbClean c sk p with
      | none => simp [hc] at hr
      | some rc =>
        obtain ⟨ec, sc⟩ := rc
        obtain ⟨c1, c2, c3, c4, c5, c6, c7, c8, c9, c10, c11⟩ := tcbClean_spec c sk p hc
        subst c1
        have hwc : TaskPoolWF sc lf lb1 := c2.wf d2 (fun i hi => by
          rw [c3 i (fun he => hpf (he ▸ hi))])
        obtain ⟨sr, r1, r2, r3, r4, r5⟩ := retTaskNode_wf hwc hpf hpb1 c8
        have hname : ¬ ((sr.schTaskNodePool p).task.name.length > 0) := by
          rw [r4 p, c4]; decide
        simp only [hc, r1, hname, if_false, Option.some.injEq, Prod.mk.injEq] at hr
        obtain ⟨he, hs⟩ := hr
        subst hs
        refine ⟨p :: lf, lb1, r2, fun _ => ⟨rfl, d3, ?_, ?_, ?_, ?_⟩⟩
        · rw [r3, c2.2.2.2.2.1, d4]
        · rw [r4 p]; exact c8
        · rw [r4 p]; exact c4
        · intro i hi
          rw [r4 i, c3 i hi, d5 i]
    · subst k2
      simp only [hk, Option.some.injEq, Prod.mk.injEq] at hr
      obtain ⟨he, hs⟩ := hr
      subst hs
      refine ⟨lf, lb1, d2, fun hn => ?_⟩
      rw [← he] at hn
      exact absurd hn (by decide)

/-! ## Reachable states -/

theorem TaskPoolWF.busyList_eq {s : Sched} {lf lb : List Nat} (h : TaskPoolWF s lf lb) :
    busyList s = lb := h.busy.walk

theorem TaskPoolWF.freeList_eq {s : Sched} {lf lb : List Nat} (h : TaskPoolWF s lf lb) :
    freeList s = lf := h.free.walk

/-- A fresh scheduler has a well-formed task pool: every node is free. -/
theorem fresh_wf (c : SchConst) (h : ∃ k, c.schTaskNodePoolSize = 2 ^ k) :
    TaskPoolWF (freshSched c) (List.range c.schTaskNodePoolSize) [] := by
  obtain ⟨-, -, h3, h4, -⟩ := fresh_fields c
  refine ⟨fresh_task_ring c h, ?_, fun _ _ => List.not_mem_nil _, ?_⟩
  · rw [h3, h4]
    exact ⟨isRing_nil _ _, rfl, rfl⟩
  · intro i _
    rw [fresh_task_node]
    split_ifs <;> exact ⟨rfl, rfl, rfl⟩

/-- `schimplStartTask` only writes a run-state. -/
theorem startTask_wf (c : SchConst) {s : Sched} {lf lb : List Nat} (h : TaskPoolWF s lf lb)
    (name : String) : TaskPoolWF (schimplStartTask c s name).2 lf lb := by
  unfold schimplStartTask schimplGetTaskNodeByName
  cases hg : mapGet s.tkMap name with
  | none => exact h
  | some ptn =>
    simp only
    split_ifs
    · exact h
    · refine ⟨?_, ?_, h.disjoint, ?_⟩
      · exact h.free.sameLinks (fun i _ => by simp [setTask])
      · exact h.busy.sameLinks (fun i _ => by simp [setTask])
      · intro i hi
        have := h.chans i hi
        by_cases hip : i = ptn
        · subst hip
          simpa [setTask, chansNil] using this
        · simpa [setTask, hip] using this

/-- Every reachable state has a well-formed task pool. -/
theorem reachable_wf (c : SchConst) (hc : ∃ k, c.schTaskNodePoolSize = 2 ^ k) {s : Sched}
    (h : Reachable c s) : ∃ lf lb, TaskPoolWF s lf lb := by
  induction h with
  | init => exact ⟨_, _, fresh_wf c hc⟩
  | create s d eno ptn s1 _ hr ih =>
    obtain ⟨lf, lb, hw⟩ := ih
    exact createTask_wf c hw d hr
  | start s name _ ih =>
    obtain ⟨lf, lb, hw⟩ := ih
    exact ⟨lf, lb, startTask_wf c hw name⟩
  | teardown s ptn eno s1 _ hb _ hr ih =>
    obtain ⟨lf, lb, hw⟩ := ih
    rw [hw.busyList_eq] at hb
    obtain ⟨lf1, lb1, hw1, -⟩ := stopTaskEx_spec c hw hb hr
    exact ⟨lf1, lb1, hw1⟩

/-! ## The name registry -/

theorem mapGet_mapDel {κ ν : Type} [DecidableEq κ] (m : GoMap κ ν) (k k1 : κ) :
    mapGet (mapDel m k) k1 = if k = k1 then none else mapGet m k1 := by
  induction m with
  | nil => simp [mapDel, mapGet]
  | cons e m ih =>
    obtain ⟨ke, ve⟩ := e
    unfold mapDel at ih ⊢
    by_cases h1 : ke = k
    · subst h1
      simp only [List.filter_cons, ne_eq, not_true_eq_false, decide_False, Bool.false_eq_true,
        if_false, ih, mapGet]
      split_ifs <;> rfl
    · simp only [List.filter_cons, ne_eq, h1, not_false_eq_true, decide_True, if_true, mapGet, ih]
      by_cases h2 : ke = k1
      · subst h2
        simp [Ne.symm h1]
      · simp [h2]

theorem mapGet_mapPut {κ ν : Type} [DecidableEq κ] (m : GoMap κ ν) (k k1 : κ) (v : ν) :
    mapGet (mapPut m k v) k1 = if k = k1 then some v else mapGet m k1 := by
  unfold mapPut
  simp only [mapGet, mapGet_mapDel]
  split_ifs <;> rfl

/-! ## Consecutive creations -/

/-- Consecutive creations on a well-formed task pool with enough free nodes:
valid descriptions whose trimmed names, the empty ones left out, are pairwise
distinct and not yet registered all succeed, and take the free nodes in the
order of the free list. -/
theorem createAll_spec (c : SchConst) :
    ∀ (ds : List schTaskDescription) (s : Sched) (lf lb : List Nat),
      TaskPoolWF s lf lb → ds.length ≤ lf.length → (∀ d ∈ ds, validDesc c d) →
      ((ds.map (fun d => TrimSpace d.Name)).filter (fun n => decide (n ≠ ""))).Nodup →
      (∀ d ∈ ds, TrimSpace d.Name ≠ "" → mapGet s.tkMap (TrimSpace d.Name) = none) →
      ∃ s1, createAll c ds s =
          some ((lf.take ds.length).map (fun i => (SchEnoNone, some i)), s1) ∧
        TaskPoolWF s1 (lf.drop ds.length) ((lf.take ds.length).reverse ++ lb) := by
  intro ds
  induction ds with
  | nil =>
    intro s lf lb hw _ _ _ _
    exact ⟨s, by simp [createAll], by simpa using hw⟩
  | cons d ds ih =>
    intro s lf lb hw hlen hval hnd hfresh
    cases lf with
    | nil => simp at hlen
    | cons a t =>
      obtain ⟨hdok, hflag⟩ := hval d (by simp)
      obtain ⟨t1, p1, p2, -⟩ := prepareTask_spec c (hw.chans a (by simp)) hdok
      have hlen0 : ∀ n : String, n.length ≤ 0 ↔ n = "" := by
        intro n
        obtain ⟨l⟩ := n
        rw [Nat.le_zero]
        show l.length = 0 ↔ String.mk l = ""
        rw [List.length_eq_zero]
        constructor
        · intro h; rw [h]
        · intro h; exact congrArg String.data h
      have hfr : t1.name.length ≤ 0 ∨ mapGet s.tkMap t1.name = none := by
        rw [p2]
        by_cases he : TrimSpace d.Name = ""
        · exact Or.inl ((hlen0 _).mpr he)
        · exact Or.inr (hfresh d (by simp) he)
      obtain ⟨s1, e1, e2, e3, -⟩ := createTask_ok_core c hw d p1 hfr
      simp only [hflag, if_true] at e1
      have hfresh1 : ∀ d1 ∈ ds, TrimSpace d1.Name ≠ "" →
          mapGet s1.tkMap (TrimSpace d1.Name) = none := by
        intro d1 hd1 hne1
        have hold := hfresh d1 (List.mem_cons_of_mem _ hd1) hne1
        rw [e3, p2]
        by_cases he : TrimSpace d.Name = ""
        · rw [if_pos ((hlen0 _).mpr he)]; exact hold
        · rw [if_neg (fun hc => he ((hlen0 _).mp hc)), mapGet_mapPut, hold]
          have hne : TrimSpace d.Name ≠ TrimSpace d1.Name := by
            intro heq
            simp only [List.map_cons, List.filter_cons, ne_eq, he, not_false_eq_true,
              decide_True, if_true, List.nodup_cons, List.mem_filter, List.mem_map] at hnd
            exact hnd.1 ⟨⟨d1, hd1, heq.symm⟩, by simp [he]⟩
          simp [hne]
      have hnd1 : ((ds.map (fun d => TrimSpace d.Name)).filter
          (fun n => decide (n ≠ ""))).Nodup := by
        simp only [List.map_cons, List.filter_cons] at hnd
        split_ifs at hnd
        · exact (List.nodup_cons.mp hnd).2
        · exact hnd
      obtain ⟨s2, f1, f2⟩ := ih s1 t (a :: lb) e2
        (by simpa using hlen) (fun d1 hd1 => hval d1 (List.mem_cons_of_mem _ hd1)) hnd1 hfresh1
      refine ⟨s2, ?_, ?_⟩
      · simp [createAll, e1, f1]
      · simpa using f2

/-! ## Messages -/

theorem chanSend_room {α : Type} (q : Chan α) (v : α) (hc : q.closed = false)
    (hl : q.buf.length < q.cap) :
    chanSend (some q) v = some { q with buf := q.buf ++ [v] } := by
  simp [chanSend, hc, hl]

theorem chanSend_some {α : Type} {ch : Option (Chan α)} {v : α} {q1 : Chan α}
    (h : chanSend ch v = some q1) :
    ∃ q, ch = some q ∧ q.closed = false ∧ q.buf.length < q.cap ∧
      q1 = { q with buf := q.buf ++ [v] } := by
  cases ch with
  | none => simp [chanSend] at h
  | some q =>
    by_cases hc : q.closed = true
    · simp [chanSend, hc] at h
    · by_cases hl : q.buf.length < q.cap
      · have hc1 : q.closed = false := by simpa using hc
        rw [chanSend_room q v hc1 hl] at h
        exact ⟨q, rfl, hc1, hl, (Option.some.inj h).symm⟩
      · simp [chanSend, hc, hl] at h

theorem chanSendTo_ok {α : Type} (q : Chan α) (v : α) (w : Bool) (hc : q.closed = false)
    (hl : q.buf.length < q.cap ∨ (w = true ∧ q.buf.length = 0)) :
    chanSendTo (some q) v w = some { q with buf := q.buf ++ [v] } := by
  simp only [chanSendTo, hc, Bool.false_eq_true, if_false, if_pos hl]

theorem chanSendTo_some {α : Type} {ch : Option (Chan α)} {v : α} {w : Bool} {q1 : Chan α}
    (h : chanSendTo ch v w = some q1) :
    ∃ q, ch = some q ∧ q.closed = false ∧
      (q.buf.length < q.cap ∨ (w = true ∧ q.buf.length = 0)) ∧
      q1 = { q with buf := q.buf ++ [v] } := by
  cases ch with
  | none => simp [chanSendTo] at h
  | some q =>
    by_cases hc : q.closed = true
    · simp [chanSendTo, hc] at h
    · have hc1 : q.closed = false := by simpa using hc
      by_cases hl : q.buf.length < q.cap ∨ (w = true ∧ q.buf.length = 0)
      · rw [chanSendTo_ok q v w hc1 hl] at h
        exact ⟨q, rfl, hc1, hl, (Option.some.inj h).symm⟩
      · simp only [chanSendTo, hc1, Bool.false_eq_true, if_false, if_neg hl] at h
        exact absurd h (by simp)

theorem sendMsg_ok {s s1 : Sched} {m : schMessage} {w : Bool}
    (h : schimplSendMsg s (some m) w = some (SchEnoNone, s1)) :
    ∃ r q, m.recver = some r ∧ (nodeOf s r).task.mailbox.que = some q ∧ q.closed = false ∧
      (q.buf.length < q.cap ∨ (w = true ∧ q.buf.length = 0)) ∧
      s1 = putMailbox s r { q with buf := q.buf ++ [m] } := by
  unfold schimplSendMsg at h
  cases hs : m.sender with
  | none => simp [hs] at h
  | some snd =>
    cases hr : m.recver with
    | none => simp [hs, hr] at h
    | some r =>
      cases hq : (nodeOf s r).task.mailbox.que with
      | none => simp [hs, hr, hq] at h
      | some q =>
        simp only [hs, hr, hq] at h
        cases hcs : chanSendTo (some q) m w with
        | none => simp [hcs] at h
        | some q1 =>
          obtain ⟨q0, e0, hc, hl, e1⟩ := chanSendTo_some hcs
          cases e0
          simp only [hcs] at h
          have h2 := (Prod.mk.inj (Option.some.inj h)).2
          exact ⟨r, q, rfl, hq, hc, hl, by rw [← h2, e1]⟩

theorem sendMsg_room {s : Sched} {m : schMessage} {snd r : TaskPtr} {q : Chan schMessage}
    (w : Bool) (hs : m.sender = some snd) (hr : m.recver = some r)
    (hq : (nodeOf s r).task.mailbox.que = some q) (hc : q.closed = false)
    (hl : q.buf.length < q.cap ∨ (w = true ∧ q.buf.length = 0)) :
    schimplSendMsg s (some m) w =
      some (SchEnoNone, putMailbox s r { q with buf := q.buf ++ [m] }) := by
  simp only [schimplSendMsg, hs, hr, hq, chanSendTo_ok q m w hc hl]

/-- A send that finds the mailbox full, with no loop waiting for a message or
with messages buffered, does not return. -/
theorem sendMsg_full {s : Sched} {m : schMessage} {snd r : TaskPtr} {q : Chan schMessage}
    (w : Bool) (hs : m.sender = some snd) (hr : m.recver = some r)
    (hq : (nodeOf s r).task.mailbox.que = some q)
    (hl : ¬ (q.buf.length < q.cap ∨ (w = true ∧ q.buf.length = 0))) :
    schimplSendMsg s (some m) w = none := by
  have e : chanSendTo (some q) m w = none := by
    simp only [chanSendTo, if_neg hl]
    split <;> rfl
  simp only [schimplSendMsg, hs, hr, hq, e]

theorem nodeOf_putMailbox_self (s : Sched) (r : TaskPtr) (q q1 : Chan schMessage)
    (hq : (nodeOf s r).task.mailbox.que = some q) :
    (nodeOf (putMailbox s r q1) r).task.mailbox.que = some q1 := by
  cases r with
  | pool i => simp [putMailbox, nodeOf, setTask]
  | rawSchTsk => simp [nodeOf, rawSchTsk, zeroTask] at hq
  | rawTmTsk => simp [nodeOf, rawTmTsk, zeroTask] at hq

theorem nodeOf_putMailbox_other (s : Sched) (r r1 : TaskPtr) (q1 : Chan schMessage)
    (hne : r1 ≠ r) : nodeOf (putMailbox s r q1) r1 = nodeOf s r1 := by
  cases r with
  | pool i =>
    cases r1 with
    | pool j =>
      have hji : j ≠ i := fun h => hne (by rw [h])
      simp [putMailbox, nodeOf, setTask, updTask, Function.update, hji]
    | rawSchTsk => rfl
    | rawTmTsk => rfl
  | rawSchTsk => rfl
  | rawTmTsk => rfl

theorem mailboxOf_putMailbox (s : Sched) (r : TaskPtr) (q1 : Chan schMessage) (p : Nat)
    (hq : ∃ q, (nodeOf s r).task.mailbox.que = some q) :
    mailboxOf (putMailbox s r q1) p = if r = TaskPtr.pool p then q1.buf else mailboxOf s p := by
  obtain ⟨q, hq⟩ := hq
  by_cases h : r = TaskPtr.pool p
  · subst h
    have := nodeOf_putMailbox_self s _ q q1 hq
    simp only [nodeOf] at this
    simp [mailboxOf, this]
  · have := nodeOf_putMailbox_other s r (TaskPtr.pool p) q1 (Ne.symm h)
    simp only [nodeOf] at this
    simp [mailboxOf, this, h]

theorem dispatch_spec {s s1 : Sched} {p : Nat} {q : Chan schMessage} {msg : schMessage}
    (hq : (s.schTaskNodePool p).task.mailbox.que = some q) (hc : q.closed = false)
    (h : commonTaskDispatch s p = some (msg, s1)) :
    ∃ rest, q.buf = msg :: rest ∧
      ((commonTaskHandled s1 p).schTaskNodePool p).task.mailbox.que =
        some { q with buf := rest } := by
  unfold commonTaskDispatch at h
  rw [hq] at h
  cases hb : q.buf with
  | nil => simp [chanRecv, hb, hc] at h
  | cons v rest =>
    simp only [chanRecv, hb] at h
    have h1 := Prod.mk.inj (Option.some.inj h)
    refine ⟨rest, by rw [h1.1], ?_⟩
    rw [← h1.2]
    simp [commonTaskHandled, setTask]

theorem sentTo_append (p : Nat) (a b : List MbEvent) :
    sentTo p (a ++ b) = sentTo p a ++ sentTo p b := by
  induction a with
  | nil => rfl
  | cons e a ih =>
    cases e with
    | send m w =>
      by_cases h : m.recver = some (TaskPtr.pool p)
      · simp [sentTo, h, ih]
      · simp [sentTo, h, ih]
    | dispatch => simpa [sentTo] using ih

/-- The law of a mailbox: in every completed run, the messages dispatched so
far followed by the messages still waiting are the messages waiting at the
start followed by the messages sent to the mailbox, in the order of the sends. -/
theorem runMailbox_law (p : Nat) (evs : List MbEvent) :
    ∀ (s : Sched) (q : Chan schMessage) (log : List schMessage) (s1 : Sched),
      (s.schTaskNodePool p).task.mailbox.que = some q → q.closed = false →
      runMailbox p evs s = some (log, s1) →
      log ++ mailboxOf s1 p = q.buf ++ sentTo p evs := by
  induction evs with
  | nil =>
    intro s q log s1 hq _ h
    simp only [runMailbox] at h
    have h1 := Prod.mk.inj (Option.some.inj h)
    rw [← h1.1, ← h1.2]
    simp [mailboxOf, hq, sentTo]
  | cons e evs ih =>
    intro s q log s1 hq hc h
    cases e with
    | send m w =>
      simp only [runMailbox] at h
      cases hsm : schimplSendMsg s (some m) w with
      | none => simp [hsm] at h
      | some r =>
        obtain ⟨eno, s2⟩ := r
        cases eno <;> simp only [hsm] at h <;> try exact absurd h (by simp)
        obtain ⟨r, q0, hr, hq0, hc0, -, e2⟩ := sendMsg_ok hsm
        by_cases hrp : r = TaskPtr.pool p
        · subst hrp
          simp only [nodeOf] at hq0
          rw [hq] at hq0
          cases hq0
          have hq2 : (s2.schTaskNodePool p).task.mailbox.que =
              some { q with buf := q.buf ++ [m] } := by
            rw [e2]
            exact nodeOf_putMailbox_self s (TaskPtr.pool p) q _ hq
          rw [ih s2 _ log s1 hq2 hc h]
          simp [sentTo, hr]
        · have hq2 : (s2.schTaskNodePool p).task.mailbox.que = some q := by
            rw [e2]
            have := nodeOf_putMailbox_other s r (TaskPtr.pool p)
              { q0 with buf := q0.buf ++ [m] } (Ne.symm hrp)
            simp only [nodeOf] at this
            rw [this, hq]
          rw [ih s2 q log s1 hq2 hc h]
          have : m.recver ≠ some (TaskPtr.pool p) := by
            rw [hr]; intro hh; exact hrp (Option.some.inj hh)
          simp [sentTo, this]
    | dispatch =>
      simp only [runMailbox] at h
      cases hd : commonTaskDispatch s p with
      | none => simp [hd] at h
      | some r =>
        obtain ⟨msg, s2⟩ := r
        simp only [hd] at h
        cases hrun : runMailbox p evs (commonTaskHandled s2 p) with
        | none => simp [hrun] at h
        | some r2 =>
          obtain ⟨log2, s3⟩ := r2
          simp only [hrun] at h
          have h1 := Prod.mk.inj (Option.some.inj h)
          obtain ⟨rest, hb, hq2⟩ := dispatch_spec hq hc hd
          have := ih (commonTaskHandled s2 p) _ log2 s3 hq2 hc hrun
          rw [← h1.1, ← h1.2, hb]
          simp only [List.cons_append, sentTo]
          rw [this]

theorem sendTimerEvent_room (k : SchTimerConst) {s : Sched} {ptm o : Nat}
    {q : Chan schMessage} (w : Bool) (ho : (s.schTimerNodePool ptm).tmcb.taskNode = some o)
    (hq : (s.schTaskNodePool o).task.mailbox.que = some q) (hc : q.closed = false)
    (hl : q.buf.length < q.cap ∨ (w = true ∧ q.buf.length = 0)) :
    schimplSendTimerEvent k s ptm w = some (SchEnoNone, putMailbox s (TaskPtr.pool o)
      { q with buf := q.buf ++
        [{ sender := some TaskPtr.rawTmTsk, recver := some (TaskPtr.pool o),
           Id := wrapInt (k.EvTimerBase + (s.schTimerNodePool ptm).tmcb.utid),
           Body := (s.schTimerNodePool ptm).tmcb.extra }] }) := by
  simp only [schimplSendTimerEvent, ho, hq, chanSendTo_ok q _ w hc hl]

/-- A timer event that finds the mailbox of the owner full, with no loop
waiting for a message or with messages buffered, is not sent: the call does
not return. -/
theorem sendTimerEvent_full (k : SchTimerConst) {s : Sched} {ptm o : Nat}
    {q : Chan schMessage} (w : Bool) (ho : (s.schTimerNodePool ptm).tmcb.taskNode = some o)
    (hq : (s.schTaskNodePool o).task.mailbox.que = some q)
    (hl : ¬ (q.buf.length < q.cap ∨ (w = true ∧ q.buf.length = 0))) :
    schimplSendTimerEvent k s ptm w = none := by
  have e : ∀ m : schMessage, chanSendTo (some q) m w = none := by
    intro m
    simp only [chanSendTo, if_neg hl]
    split <;> rfl
  simp only [schimplSendTimerEvent, ho, hq, e]

/-- Inside the range of the 64-bit `int` the wrap-around changes nothing. -/
theorem wrapInt_of_range (x : Int) (h0 : -(2 ^ 63) ≤ x) (h1 : x < 2 ^ 63) : wrapInt x = x := by
  unfold wrapInt
  rw [Int.emod_eq_of_lt (by omega) (by omega)]
  omega

/-! ## The pool of timer nodes -/

theorem RingAt.sameTimerLinks {s s1 : Sched} {head : Option Nat} {size : Int} {l : List Nat}
    (h : RingAt (tmNext s) (tmLast s) head size l)
    (hf : ∀ i ∈ l, (s1.schTimerNodePool i).next = (s.schTimerNodePool i).next ∧
      (s1.schTimerNodePool i).last = (s.schTimerNodePool i).last) :
    RingAt (tmNext s1) (tmLast s1) head size l :=
  ⟨h.ring.frame (fun x hx => hf x hx), h.head_eq, h.size_eq⟩

/-- Acquisition on a well-formed non-empty free list of timer nodes: the head is returned,
self-linked, and the rest of the list stays well formed; nothing but head, size
and links of the free list changes. -/
theorem getTimerNode_spec {s : Sched} {a : Nat} {t : List Nat}
    (h : RingAt (tmNext s) (tmLast s) s.tmFree s.tmFreeSize (a :: t)) :
    ∃ s1, schimplGetTimerNode s = some (SchEnoNone, some a, s1) ∧
      RingAt (tmNext s1) (tmLast s1) s1.tmFree s1.tmFreeSize t ∧
      s1.tkBusy = s.tkBusy ∧ s1.busySize = s.busySize ∧ s1.tkMap = s.tkMap ∧
      s1.tmMap = s.tmMap ∧ s1.grpMap = s.grpMap ∧ s1.grpCnt = s.grpCnt ∧
      s1.tkFree = s.tkFree ∧ s1.freeSize = s.freeSize ∧
      s1.schTaskNodePool = s.schTaskNodePool ∧
      (∀ i, (s1.schTimerNodePool i).tmcb = (s.schTimerNodePool i).tmcb) ∧
      (∀ i, i ∉ a :: t → s1.schTimerNodePool i = s.schTimerNodePool i) := by
  obtain ⟨hr, hh, hs⟩ := h
  simp only [List.head?_cons] at hh
  cases t with
  | nil =>
    obtain ⟨hn, hl⟩ := isRing_singleton.mp hr
    simp only [tmNext, tmLast] at hn hl
    simp only [List.length_singleton, Nat.cast_one] at hs
    simp only [schimplGetTimerNode, hh, hn, hl, hs, setTimerNext, setTimerLast]
    simp
    refine ⟨⟨isRing_nil _ _, rfl, rfl⟩, ?_⟩
    intro i hi
    apply schTmcbNode.ext <;> simp [hi]
  | cons b t =>
    obtain ⟨h1, h2, h3, h4, h5, h6⟩ := hr.head_links
    have hu := hr.unlink
    simp only [tmNext, tmLast] at h1 h2 h3 h4
    simp only [List.length_cons, Nat.cast_add, Nat.cast_one] at hs
    have hne : ¬ ((s.schTimerNodePool a).last = some a ∧ (s.schTimerNodePool a).next = some a) := by
      rw [h1]; intro hc; exact h5 (Option.some.inj hc.2).symm
    have hsz : ¬ (s.tmFreeSize - 1 ≤ 0) := by omega
    have ha : a ∉ b :: t := (List.nodup_cons.mp hr.nodup).1
    simp only [schimplGetTimerNode, hh, hne, h1, h4, setTimerNext, setTimerLast, if_false, hsz]
    simp [Ne.symm h5, Ne.symm h6, -List.getLastD_eq_getLast?]
    refine ⟨⟨?_, rfl, ?_⟩, ?_⟩
    · refine hu.frame ?_
      intro x hx
      have hxa : x ≠ a := fun he => ha (he ▸ hx)
      simp [tmNext, tmLast, Function.update, hxa, -List.getLastD_eq_getLast?]
    · simp only [List.length_cons, Nat.cast_add, Nat.cast_one]; omega
    · intro i hia hib hit
      have hz : i ≠ t.getLastD b := by
        intro he
        have := getLastD_mem t b
        rw [← he] at this
        rcases List.mem_cons.mp this with h | h
        · exact hib h
        · exact hit h
      apply schTmcbNode.ext <;> simp [hia, hib, hz, -List.getLastD_eq_getLast?]

/-- Release on a well-formed free list of timer nodes, of a node that is not on it: the node
becomes the head of the list. -/
theorem retTimerNode_spec {s : Sched} {p : Nat} {lf : List Nat}
    (h : RingAt (tmNext s) (tmLast s) s.tmFree s.tmFreeSize lf) (hp : p ∉ lf) :
    ∃ s1, schimplRetTimerNode s (some p) = some (SchEnoNone, s1) ∧
      RingAt (tmNext s1) (tmLast s1) s1.tmFree s1.tmFreeSize (p :: lf) ∧
      s1.tkBusy = s.tkBusy ∧ s1.busySize = s.busySize ∧ s1.tkMap = s.tkMap ∧
      s1.tmMap = s.tmMap ∧ s1.grpMap = s.grpMap ∧ s1.grpCnt = s.grpCnt ∧
      s1.tkFree = s.tkFree ∧ s1.freeSize = s.freeSize ∧
      s1.schTaskNodePool = s.schTaskNodePool ∧
      (∀ i, (s1.schTimerNodePool i).tmcb = (s.schTimerNodePool i).tmcb) ∧
      (∀ i, i ∉ p :: lf → s1.schTimerNodePool i = s.schTimerNodePool i) := by
  obtain ⟨hr, hh, hs⟩ := h
  cases lf with
  | nil =>
    simp only [List.head?_nil] at hh
    simp only [schimplRetTimerNode, hh, setTimerNext, setTimerLast]
    simp
    refine ⟨⟨?_, rfl, ?_⟩, ?_⟩
    · exact isRing_singleton.mpr (by simp [tmNext, tmLast])
    · simp [hs]
    · intro i hi
      apply schTmcbNode.ext <;> simp [hi]
  | cons a t =>
    simp only [List.head?_cons] at hh
    have hl : (s.schTimerNodePool a).last = some (t.getLastD a) := hr.2.2.2
    have hi := hr.insert hp
    have hpa : p ≠ a := fun he => hp (by simp [he])
    have hz := getLastD_mem t a
    have hpz : p ≠ t.getLastD a := fun he => hp (he ▸ hz)
    simp only [schimplRetTimerNode, hh, hl, setTimerNext, setTimerLast]
    simp [-List.getLastD_eq_getLast?]
    refine ⟨⟨?_, rfl, ?_⟩, ?_⟩
    · refine hi.frame ?_
      intro x _
      simp [tmNext, tmLast, Function.update, -List.getLastD_eq_getLast?]
    · simp [hs]
    · intro i hip hia hit
      have hiz : i ≠ t.getLastD a := by
        intro he
        rw [← he] at hz
        rcases List.mem_cons.mp hz with h | h
        · exact hia h
        · exact hit h
      apply schTmcbNode.ext <;> simp [hip, hia, hiz, -List.getLastD_eq_getLast?]


/-! ## Arming timers -/

/-! ### Field assignments -/

@[simp]
theorem modTmcb_tmcb (s : Sched) (p : Nat) (f : schTmcb → schTmcb) (i : Nat) :
    ((modTmcb s p f).schTimerNodePool i).tmcb =
      if i = p then f (s.schTimerNodePool p).tmcb else (s.schTimerNodePool i).tmcb := by
  simp [modTmcb, setTmcb]

@[simp]
theorem modTmcb_next (s : Sched) (p : Nat) (f : schTmcb → schTmcb) (i : Nat) :
    ((modTmcb s p f).schTimerNodePool i).next = (s.schTimerNodePool i).next := by
  simp [modTmcb, setTmcb]

@[simp]
theorem modTmcb_last (s : Sched) (p : Nat) (f : schTmcb → schTmcb) (i : Nat) :
    ((modTmcb s p f).schTimerNodePool i).last = (s.schTimerNodePool i).last := by
  simp [modTmcb, setTmcb]

@[simp]
theorem modTmcb_taskPool (s : Sched) (p : Nat) (f : schTmcb → schTmcb) :
    (modTmcb s p f).schTaskNodePool = s.schTaskNodePool := rfl

@[simp]
theorem modTmcb_tmMap (s : Sched) (p : Nat) (f : schTmcb → schTmcb) :
    (modTmcb s p f).tmMap = s.tmMap := rfl

@[simp]
theorem modTmcb_tmFree (s : Sched) (p : Nat) (f : schTmcb → schTmcb) :
    (modTmcb s p f).tmFree = s.tmFree := rfl

@[simp]
theorem modTmcb_tmFreeSize (s : Sched) (p : Nat) (f : schTmcb → schTmcb) :
    (modTmcb s p f).tmFreeSize = s.tmFreeSize := rfl

@[simp]
theorem modTask_task (s : Sched) (p : Nat) (f : schTask → schTask) (i : Nat) :
    ((modTask s p f).schTaskNodePool i).task =
      if i = p then f (s.schTaskNodePool p).task else (s.schTaskNodePool i).task := by
  simp [modTask, setTask]

@[simp]
theorem modTask_timerPool (s : Sched) (p : Nat) (f : schTask → schTask) :
    (modTask s p f).schTimerNodePool = s.schTimerNodePool := rfl

@[simp]
theorem modTask_tmMap (s : Sched) (p : Nat) (f : schTask → schTask) :
    (modTask s p f).tmMap = s.tmMap := rfl

@[simp]
theorem modTask_tmFree (s : Sched) (p : Nat) (f : schTask → schTask) :
    (modTask s p f).tmFree = s.tmFree := rfl

@[simp]
theorem modTask_tmFreeSize (s : Sched) (p : Nat) (f : schTask → schTask) :
    (modTask s p f).tmFreeSize = s.tmFreeSize := rfl

@[simp]
theorem setTmMap_tmMap (s : Sched) (m : GoMap Nat Nat) : (setTmMap s m).tmMap = m := rfl

@[simp]
theorem setTmMap_taskPool (s : Sched) (m : GoMap Nat Nat) :
    (setTmMap s m).schTaskNodePool = s.schTaskNodePool := rfl

@[simp]
theorem setTmMap_timerPool (s : Sched) (m : GoMap Nat Nat) :
    (setTmMap s m).schTimerNodePool = s.schTimerNodePool := rfl

@[simp]
theorem setTmMap_tmFree (s : Sched) (m : GoMap Nat Nat) : (setTmMap s m).tmFree = s.tmFree := rfl

@[simp]
theorem setTmMap_tmFreeSize (s : Sched) (m : GoMap Nat Nat) :
    (setTmMap s m).tmFreeSize = s.tmFreeSize := rfl

@[simp]
theorem tmTabOf_modTmcb (s : Sched) (p : Nat) (f : schTmcb → schTmcb) (i : Nat) :
    tmTabOf (modTmcb s p f) i = tmTabOf s i := rfl

@[simp]
theorem tmIdxTabOf_modTmcb (s : Sched) (p : Nat) (f : schTmcb → schTmcb) (i : Nat) :
    tmIdxTabOf (modTmcb s p f) i = tmIdxTabOf s i := rfl

@[simp]
theorem tmTabOf_setTmMap (s : Sched) (m : GoMap Nat Nat) (i : Nat) :
    tmTabOf (setTmMap s m) i = tmTabOf s i := rfl

@[simp]
theorem tmIdxTabOf_setTmMap (s : Sched) (m : GoMap Nat Nat) (i : Nat) :
    tmIdxTabOf (setTmMap s m) i = tmIdxTabOf s i := rfl

theorem tmTabOf_modTask (s : Sched) (p : Nat) (f : schTask → schTask) (i : Nat) :
    tmTabOf (modTask s p f) i = if i = p then (f (s.schTaskNodePool p).task).tmTab
      else tmTabOf s i := by
  simp only [tmTabOf, modTask_task]
  split <;> rfl

theorem tmIdxTabOf_modTask (s : Sched) (p : Nat) (f : schTask → schTask) (i : Nat) :
    tmIdxTabOf (modTask s p f) i = if i = p then (f (s.schTaskNodePool p).task).tmIdxTab
      else tmIdxTabOf s i := by
  simp only [tmIdxTabOf, modTask_task]
  split <;> rfl

theorem ringAt_timer_congr {s s1 : Sched} {l : List Nat}
    (h : RingAt (tmNext s) (tmLast s) s.tmFree s.tmFreeSize l)
    (hn : ∀ i, (s1.schTimerNodePool i).next = (s.schTimerNodePool i).next)
    (hl : ∀ i, (s1.schTimerNodePool i).last = (s.schTimerNodePool i).last)
    (hf : s1.tmFree = s.tmFree) (hs : s1.tmFreeSize = s.tmFreeSize) :
    RingAt (tmNext s1) (tmLast s1) s1.tmFree s1.tmFreeSize l := by
  rw [hf, hs]
  exact h.sameTimerLinks (fun i _ => ⟨hn i, hl i⟩)



theorem find_range (p : Nat → Bool) (n k : Nat) (hk : k < n) (hp : p k = true)
    (hlt : ∀ j, j < k → p j = false) : (List.range n).find? p = some k := by
  induction n with
  | zero => omega
  | succ n ih =>
    rw [List.range_succ, List.find?_append]
    by_cases h : k < n
    · rw [ih h]; rfl
    · have hkn : k = n := by omega
      subst hkn
      have : (List.range k).find? p = none := by
        rw [List.find?_eq_none]
        intro x hx
        rw [hlt x (List.mem_range.mp hx)]
        simp
      rw [this]
      simp [List.find?, hp]

theorem firstFreeTid_full (c : SchConst) (tab : Nat → Option Nat)
    (h : ∀ i, i < c.schMaxTaskTimer → tab i ≠ none) :
    firstFreeTid c tab = c.schMaxTaskTimer := by
  unfold firstFreeTid
  have : (List.range c.schMaxTaskTimer).find? (fun i => decide (tab i = none)) = none := by
    rw [List.find?_eq_none]
    intro x hx
    simpa using h x (List.mem_range.mp hx)
  rw [this]
  rfl

theorem firstFreeTid_eq (c : SchConst) (tab : Nat → Option Nat) (j : Nat)
    (hj : j < c.schMaxTaskTimer) (h0 : tab j = none) (hlt : ∀ i, i < j → tab i ≠ none) :
    firstFreeTid c tab = j := by
  unfold firstFreeTid
  rw [find_range _ _ j hj (by simpa using h0) (fun i hi => by simpa using hlt i hi)]
  rfl

theorem firstFreeTid_lt (c : SchConst) (tab : Nat → Option Nat)
    (h : firstFreeTid c tab < c.schMaxTaskTimer) : tab (firstFreeTid c tab) = none := by
  unfold firstFreeTid at h ⊢
  cases hf : (List.range c.schMaxTaskTimer).find? (fun i => decide (tab i = none)) with
  | none => rw [hf] at h; simp at h
  | some x =>
    have := List.find?_some hf
    simpa using this

theorem firstFreeTid_le (c : SchConst) (tab : Nat → Option Nat) :
    firstFreeTid c tab ≤ c.schMaxTaskTimer := by
  unfold firstFreeTid
  cases hf : (List.range c.schMaxTaskTimer).find? (fun i => decide (tab i = none)) with
  | none => simp
  | some x =>
    have := List.mem_range.mp (List.mem_of_find?_eq_some hf)
    simp only [Option.getD_some]
    omega

/-- The result of `schimplSetTimer` when the timer table is full. -/
theorem setTimer_full (c : SchConst) (k : SchTimerConst) (s : Sched) (ptn : Nat)
    (tdc : timerDescription) (h : ∀ i, i < c.schMaxTaskTimer → tmTabOf s ptn i ≠ none) :
    schimplSetTimer c k s (some ptn) (some tdc) = some (SchEnoResource, k.schInvalidTid, s) := by
  have e := firstFreeTid_full c (s.schTaskNodePool ptn).task.tmTab h
  simp [schimplSetTimer, e]

/-- The result of `schimplSetTimer` when no timer node is free. -/
theorem setTimer_exhausted (c : SchConst) (k : SchTimerConst) (s : Sched) (ptn : Nat)
    (tdc : timerDescription) (h : s.tmFree = none) :
    ∃ eno, schimplSetTimer c k s (some ptn) (some tdc) = some (eno, k.schInvalidTid, s) ∧
      eno = SchEnoResource := by
  by_cases hf : firstFreeTid c (s.schTaskNodePool ptn).task.tmTab ≥ c.schMaxTaskTimer
  · exact ⟨_, by simp only [schimplSetTimer, if_pos hf], rfl⟩
  · exact ⟨_, by simp only [schimplSetTimer, if_neg hf, schimplGetTimerNode, h], rfl⟩

/-- The state after a successful `schimplSetTimer`: the first free node `a` of
the timer pool is taken and entered at the first nil index of the timer
table, in the reverse map and in the timer-to-owner map. -/
theorem setTimer_ok (c : SchConst) (k : SchTimerConst) {s : Sched} {a : Nat} {t : List Nat}
    (ptn : Nat) (tdc : timerDescription)
    (hr : RingAt (tmNext s) (tmLast s) s.tmFree s.tmFreeSize (a :: t))
    (hj : firstFreeTid c (tmTabOf s ptn) < c.schMaxTaskTimer) :
    ∃ s1, schimplSetTimer c k s (some ptn) (some tdc) =
        some (SchEnoNone, (firstFreeTid c (tmTabOf s ptn) : Int), s1) ∧
      RingAt (tmNext s1) (tmLast s1) s1.tmFree s1.tmFreeSize t ∧
      (∀ p, tmTabOf s1 p = if p = ptn then
          Function.update (tmTabOf s ptn) (firstFreeTid c (tmTabOf s ptn)) (some a)
        else tmTabOf s p) ∧
      (∀ p, tmIdxTabOf s1 p = if p = ptn then
          mapPut (tmIdxTabOf s ptn) a (firstFreeTid c (tmTabOf s ptn) : Int)
        else tmIdxTabOf s p) ∧
      s1.tmMap = mapPut s.tmMap a ptn ∧
      (s1.schTimerNodePool a).tmcb =
        { (s.schTimerNodePool a).tmcb with
          stopped := some { cap := 0, buf := [], closed := false },
          stop := some { cap := 1, buf := [], closed := false },
          name := tdc.Name, utid := tdc.Utid, tmt := tdc.Tmt, dur := tdc.Dur,
          taskNode := some ptn, extra := tdc.Extra } ∧
      (∀ i, i ≠ a → (s1.schTimerNodePool i).tmcb = (s.schTimerNodePool i).tmcb) ∧
      (∀ p, (s1.schTaskNodePool p).task.mailbox = (s.schTaskNodePool p).task.mailbox) := by
  obtain ⟨s0, e0, r0, -, -, -, m0, -, -, -, -, p0, t0, -⟩ := getTimerNode_spec hr
  have hj1 : ¬ firstFreeTid c (s.schTaskNodePool ptn).task.tmTab ≥ c.schMaxTaskTimer := by
    simp only [tmTabOf] at hj; omega
  have e : schimplSetTimer c k s (some ptn) (some tdc) =
      some (SchEnoNone, (firstFreeTid c (tmTabOf s ptn) : Int),
        modTmcb (setTmMap (modTask (modTask (modTmcb (modTmcb s0 a (fun tcb =>
          { tcb with stopped := some { cap := 0, buf := [], closed := false } })) a (fun tcb =>
          { tcb with stop := some { cap := 1, buf := [], closed := false } })) ptn (fun t =>
          { t with tmTab := Function.update t.tmTab (firstFreeTid c (tmTabOf s ptn)) (some a) }))
          ptn (fun t =>
          { t with tmIdxTab := mapPut t.tmIdxTab a (firstFreeTid c (tmTabOf s ptn) : Int) }))
          (mapPut s0.tmMap a ptn)) a (fun tcb =>
          { tcb with name := tdc.Name, utid := tdc.Utid, tmt := tdc.Tmt, dur := tdc.Dur,
                     taskNode := some ptn, extra := tdc.Extra })) := by
    simp only [schimplSetTimer, if_neg hj1, e0]
    rfl
  refine ⟨_, e, ?_, ?_, ?_, ?_, ?_, ?_, ?_⟩
  · refine ringAt_timer_congr r0 (fun i => ?_) (fun i => ?_) ?_ ?_
    · simp only [modTmcb_next, setTmMap_timerPool, modTask_timerPool]
    · simp only [modTmcb_last, setTmMap_timerPool, modTask_timerPool]
    · simp only [modTmcb_tmFree, setTmMap_tmFree, modTask_tmFree]
    · simp only [modTmcb_tmFreeSize, setTmMap_tmFreeSize, modTask_tmFreeSize]
  · intro p
    simp only [tmTabOf_modTmcb, tmTabOf_setTmMap, tmTabOf_modTask, modTask_task,
      modTmcb_taskPool, if_true]
    by_cases hp : p = ptn
    · simp only [hp, if_true, tmTabOf, p0]
    · simp only [if_neg hp, tmTabOf, p0]
  · intro p
    simp only [tmIdxTabOf_modTmcb, tmIdxTabOf_setTmMap, tmIdxTabOf_modTask, modTask_task,
      modTmcb_taskPool, if_true]
    by_cases hp : p = ptn
    · simp only [hp, if_true, tmIdxTabOf, p0]
    · simp only [if_neg hp, tmIdxTabOf, p0]
  · simp only [modTmcb_tmMap, setTmMap_tmMap, m0]
  · simp only [modTmcb_tmcb, setTmMap_timerPool, modTask_timerPool, if_true, t0 a]
  · intro i hi
    simp only [modTmcb_tmcb, setTmMap_timerPool, modTask_timerPool, if_neg hi, t0 i]
  · intro p
    simp only [modTmcb_taskPool, setTmMap_taskPool, modTask_task, p0]
    by_cases hp : p = ptn
    · simp only [hp, if_true]
    · simp only [if_neg hp]

/-- Consecutive `schimplSetTimer` calls on a table whose first `j` entries are
taken and whose other entries are nil, with enough free timer nodes: the calls
fill the table in index order, and one more call returns `Resource`. -/
theorem setTimers_fill (c : SchConst) (k : SchTimerConst) (ptn : Nat) (td : timerDescription) :
    ∀ (tds : List timerDescription) (j : Nat) (s : Sched) (lft : List Nat),
      j + tds.length = c.schMaxTaskTimer →
      RingAt (tmNext s) (tmLast s) s.tmFree s.tmFreeSize lft → tds.length ≤ lft.length →
      (∀ i, i < j → tmTabOf s ptn i ≠ none) →
      (∀ i, j ≤ i → i < c.schMaxTaskTimer → tmTabOf s ptn i = none) →
      ∃ s1, setTimers c k ptn (tds ++ [td]) s =
        some ((List.range' j tds.length).map (fun (i : Nat) => (SchEnoNone, (i : Int))) ++
          [(SchEnoResource, k.schInvalidTid)], s1) := by
  intro tds
  induction tds with
  | nil =>
    intro j s lft hj _ _ hfull _
    simp only [List.length_nil, Nat.add_zero] at hj
    subst hj
    refine ⟨s, ?_⟩
    simp only [List.nil_append, setTimers, setTimer_full c k s ptn td hfull]
    rfl
  | cons t0 rest ih =>
    intro j s lft hj hr hlen hfull hnil
    simp only [List.length_cons] at hj hlen
    have hjm : j < c.schMaxTaskTimer := by omega
    cases lft with
    | nil => simp at hlen
    | cons a t =>
      have hff : firstFreeTid c (tmTabOf s ptn) = j :=
        firstFreeTid_eq c _ j hjm (hnil j (le_refl _) hjm) hfull
      obtain ⟨s1, e1, r1, tab1, -⟩ := setTimer_ok c k ptn t0 hr (by rw [hff]; exact hjm)
      rw [hff] at e1
      have htab : tmTabOf s1 ptn = Function.update (tmTabOf s ptn) j (some a) := by
        rw [tab1 ptn, if_pos rfl, hff]
      obtain ⟨s2, e2⟩ := ih (j + 1) s1 t (by omega) r1
        (by simp only [List.length_cons] at hlen; omega)
        (by
          intro i hi
          rw [htab]
          by_cases hij : i = j
          · subst hij; simp
          · rw [Function.update_noteq hij]
            exact hfull i (by omega))
        (by
          intro i hi him
          rw [htab, Function.update_noteq (by omega)]
          exact hnil i (by omega) him)
      refine ⟨s2, ?_⟩
      have e3 : setTimers c k ptn (t0 :: rest ++ [td]) s =
          match setTimers c k ptn (rest ++ [td]) s1 with
          | none => none
          | some (res, s2) => some ((SchEnoNone, (j : Int)) :: res, s2) := by
        simp only [List.cons_append, setTimers, e1]
        rfl
      rw [e3, e2]
      rfl

/-! ## The reverse map of timers -/

theorem timersIdle_wf (c : SchConst) {s : Sched} (h : TimersIdle s) :
    ∃ lft, TimerWF c s [] lft := by
  obtain ⟨⟨lft, hr⟩, ht⟩ := h
  refine ⟨lft, hr, ?_, ?_, ?_, List.nodup_nil⟩
  · intro p tm i
    rw [(ht p).2, (ht p).1]
    simp [mapGet]
  · intro p i tm h1
    rw [(ht p).1] at h1
    exact absurd h1 (by simp)
  · intro x hx
    exact absurd hx (List.not_mem_nil x)

/-- Arming: node `a`, head of the free list, is entered at the nil index `j` of
the table of `ptn` and in its reverse map. -/
theorem TimerWF.arm {c : SchConst} {s s1 : Sched} {ctxs : List (Nat × Int)} {a : Nat}
    {t : List Nat} (h : TimerWF c s ctxs (a :: t)) (ptn j : Nat) (hj : j < c.schMaxTaskTimer)
    (hnil : tmTabOf s ptn j = none)
    (hr : RingAt (tmNext s1) (tmLast s1) s1.tmFree s1.tmFreeSize t)
    (htab : ∀ p, tmTabOf s1 p =
      if p = ptn then Function.update (tmTabOf s ptn) j (some a) else tmTabOf s p)
    (hidx : ∀ p, tmIdxTabOf s1 p =
      if p = ptn then mapPut (tmIdxTabOf s ptn) a (j : Int) else tmIdxTabOf s p)
    (hown : (s1.schTimerNodePool a).tmcb.taskNode = some ptn)
    (hoth : ∀ i, i ≠ a →
      (s1.schTimerNodePool i).tmcb.taskNode = (s.schTimerNodePool i).tmcb.taskNode) :
    TimerWF c s1 ((a, (j : Int)) :: ctxs) t := by
  have hnd : a ∉ t := (List.nodup_cons.mp h.free.ring.nodup).1
  have hheld : ∀ p i tm, tmTabOf s p i = some tm → tm ≠ a := by
    intro p i tm hh he
    exact (h.owned p i tm hh).2.1 (by rw [he]; exact List.mem_cons_self a t)
  refine ⟨hr, ?_, ?_, ?_, ?_⟩
  · intro p tm i
    rw [htab p, hidx p]
    by_cases hp : p = ptn
    · subst hp
      simp only [if_true, mapGet_mapPut]
      by_cases htm : a = tm
      · subst htm
        simp only [if_true]
        constructor
        · intro hi
          have : (j : Int) = i := Option.some.inj hi
          subst this
          exact ⟨by omega, by omega, by simp⟩
        · rintro ⟨h0, h1, h2⟩
          by_cases hij : i.toNat = j
          · have : (j : Int) = i := by omega
            rw [this]
          · rw [Function.update_noteq hij] at h2
            exact absurd rfl (hheld p _ _ h2)
      · simp only [if_neg htm]
        rw [h.rev p tm i]
        constructor
        · rintro ⟨h0, h1, h2⟩
          have hij : i.toNat ≠ j := by
            intro he
            rw [he, hnil] at h2
            exact absurd h2 (by simp)
          exact ⟨h0, h1, by rw [Function.update_noteq hij]; exact h2⟩
        · rintro ⟨h0, h1, h2⟩
          have hij : i.toNat ≠ j := by
            intro he
            rw [he, Function.update_same] at h2
            exact htm (Option.some.inj h2)
          exact ⟨h0, h1, by rw [Function.update_noteq hij] at h2; exact h2⟩
    · simp only [if_neg hp]
      exact h.rev p tm i
  · intro p i tm hh
    rw [htab p] at hh
    by_cases hp : p = ptn
    · subst hp
      simp only [if_true] at hh
      by_cases hij : i = j
      · subst hij
        rw [Function.update_same] at hh
        have : a = tm := Option.some.inj hh
        subst this
        exact ⟨hj, hnd, hown⟩
      · rw [Function.update_noteq hij] at hh
        obtain ⟨h1, h2, h3⟩ := h.owned p i tm hh
        exact ⟨h1, fun hm => h2 (List.mem_cons_of_mem a hm),
          by rw [hoth tm (hheld p i tm hh)]; exact h3⟩
    · simp only [if_neg hp] at hh
      obtain ⟨h1, h2, h3⟩ := h.owned p i tm hh
      exact ⟨h1, fun hm => h2 (List.mem_cons_of_mem a hm),
        by rw [hoth tm (hheld p i tm hh)]; exact h3⟩
  · intro x hx
    rcases List.mem_cons.mp hx with he | hm
    · subst he
      refine ⟨ptn, hown, by simp, by simp only []; omega, ?_⟩
      rw [htab ptn, if_pos rfl]
      simp
    · obtain ⟨p, h1, h2, h3, h4⟩ := h.live x hm
      have hxa : x.1 ≠ a := hheld p _ _ h4
      refine ⟨p, by rw [hoth x.1 hxa]; exact h1, h2, h3, ?_⟩
      rw [htab p]
      by_cases hp : p = ptn
      · subst hp
        simp only [if_true]
        have hij : x.2.toNat ≠ j := by
          intro he
          rw [he, hnil] at h4
          exact absurd h4 (by simp)
        rw [Function.update_noteq hij]
        exact h4
      · simp only [if_neg hp]
        exact h4
  · simp only [List.map_cons, List.nodup_cons]
    refine ⟨?_, h.nodup⟩
    intro hm
    obtain ⟨x, hx, hxa⟩ := List.mem_map.mp hm
    obtain ⟨p, -, -, -, h4⟩ := h.live x hx
    exact hheld p _ _ h4 hxa

/-- Clean-up: the running context `(ptm, tid0)` leaves the table and the
reverse map of its owner `o`, and its node goes back to the free list. -/
theorem TimerWF.clean {c : SchConst} {s s1 : Sched} {ctxs : List (Nat × Int)}
    {lft : List Nat} (h : TimerWF c s ctxs lft) (ptm : Nat) (tid0 : Int) (o : Nat)
    (hctx : (ptm, tid0) ∈ ctxs) (ho : (s.schTimerNodePool ptm).tmcb.taskNode = some o)
    (hr : RingAt (tmNext s1) (tmLast s1) s1.tmFree s1.tmFreeSize (ptm :: lft))
    (htab : ∀ p, tmTabOf s1 p =
      if p = o then Function.update (tmTabOf s o) tid0.toNat none else tmTabOf s p)
    (hidx : ∀ p, tmIdxTabOf s1 p =
      if p = o then mapDel (tmIdxTabOf s o) ptm else tmIdxTabOf s p)
    (hoth : ∀ i, i ≠ ptm →
      (s1.schTimerNodePool i).tmcb.taskNode = (s.schTimerNodePool i).tmcb.taskNode) :
    TimerWF c s1 (ctxs.filter (fun x => decide (x.1 ≠ ptm))) (ptm :: lft) := by
  obtain ⟨p0, hp0, hb0, hb1, hent⟩ := h.live _ hctx
  simp only [] at hp0 hb0 hb1 hent
  have hpo : p0 = o := Option.some.inj (hp0.symm.trans ho)
  subst hpo
  have huniq : ∀ p i, tmTabOf s p i = some ptm → p = p0 ∧ i = tid0.toNat := by
    intro p i hh
    obtain ⟨h1, -, h3⟩ := h.owned p i ptm hh
    have hp : p = p0 := Option.some.inj (h3.symm.trans ho)
    subst hp
    refine ⟨rfl, ?_⟩
    have e1 : mapGet (tmIdxTabOf s p) ptm = some (i : Int) :=
      (h.rev p ptm (i : Int)).mpr ⟨by omega, by omega, by simpa using hh⟩
    have e2 : mapGet (tmIdxTabOf s p) ptm = some tid0 :=
      (h.rev p ptm tid0).mpr ⟨hb0, hb1, hent⟩
    have : (i : Int) = tid0 := Option.some.inj (e1.symm.trans e2)
    omega
  have hkeep : ∀ p i tm, tmTabOf s1 p i = some tm → tmTabOf s p i = some tm ∧ tm ≠ ptm := by
    intro p i tm hh
    rw [htab p] at hh
    by_cases hp : p = p0
    · subst hp
      simp only [if_true] at hh
      by_cases hij : i = tid0.toNat
      · rw [hij, Function.update_same] at hh
        exact absurd hh (by simp)
      · rw [Function.update_noteq hij] at hh
        refine ⟨hh, fun he => hij ?_⟩
        rw [he] at hh
        exact (huniq p i hh).2
    · simp only [if_neg hp] at hh
      refine ⟨hh, fun he => hp ?_⟩
      rw [he] at hh
      exact (huniq p i hh).1
  refine ⟨hr, ?_, ?_, ?_, ?_⟩
  · intro p tm i
    constructor
    · intro hi
      rw [hidx p] at hi
      have hold : mapGet (tmIdxTabOf s p) tm = some i ∧ tm ≠ ptm := by
        by_cases hp : p = p0
        · subst hp
          simp only [if_true, mapGet_mapDel] at hi
          by_cases htm : ptm = tm
          · simp [htm] at hi
          · rw [if_neg htm] at hi
            exact ⟨hi, Ne.symm htm⟩
        · simp only [if_neg hp] at hi
          refine ⟨hi, fun he => hp ?_⟩
          rw [he] at hi
          exact (huniq p _ ((h.rev p ptm i).mp hi).2.2).1
      obtain ⟨h0, h1, h2⟩ := (h.rev p tm i).mp hold.1
      refine ⟨h0, h1, ?_⟩
      rw [htab p]
      by_cases hp : p = p0
      · subst hp
        simp only [if_true]
        have hij : i.toNat ≠ tid0.toNat := by
          intro he
          rw [he, hent] at h2
          exact hold.2 (Option.some.inj h2).symm
        rw [Function.update_noteq hij]
        exact h2
      · simp only [if_neg hp]
        exact h2
    · rintro ⟨h0, h1, h2⟩
      obtain ⟨hold, hne⟩ := hkeep p _ tm h2
      have := (h.rev p tm i).mpr ⟨h0, h1, hold⟩
      rw [hidx p]
      by_cases hp : p = p0
      · subst hp
        simp only [if_true, mapGet_mapDel, if_neg (Ne.symm hne)]
        exact this
      · simp only [if_neg hp]
        exact this
  · intro p i tm hh
    obtain ⟨hold, hne⟩ := hkeep p i tm hh
    obtain ⟨h1, h2, h3⟩ := h.owned p i tm hold
    refine ⟨h1, ?_, by rw [hoth tm hne]; exact h3⟩
    intro hm
    rcases List.mem_cons.mp hm with he | hm
    · exact hne he
    · exact h2 hm
  · intro x hx
    obtain ⟨hxm, hxne⟩ := List.mem_filter.mp hx
    have hxne1 : x.1 ≠ ptm := by simpa using hxne
    obtain ⟨p, h1, h2, h3, h4⟩ := h.live x hxm
    refine ⟨p, by rw [hoth x.1 hxne1]; exact h1, h2, h3, ?_⟩
    rw [htab p]
    by_cases hp : p = p0
    · subst hp
      simp only [if_true]
      have hij : x.2.toNat ≠ tid0.toNat := by
        intro he
        rw [he, hent] at h4
        exact hxne1 (Option.some.inj h4).symm
      rw [Function.update_noteq hij]
      exact h4
    · simp only [if_neg hp]
      exact h4
  · exact h.nodup.sublist (List.Sublist.map _ (List.filter_sublist _))

theorem TimerWF.sameTimers {c : SchConst} {s s1 : Sched} {ctxs : List (Nat × Int)} {lft : List Nat}
    (h : TimerWF c s ctxs lft)
    (hn : ∀ i, (s1.schTimerNodePool i).next = (s.schTimerNodePool i).next)
    (hl : ∀ i, (s1.schTimerNodePool i).last = (s.schTimerNodePool i).last)
    (hf : s1.tmFree = s.tmFree) (hs : s1.tmFreeSize = s.tmFreeSize)
    (htab : ∀ p, tmTabOf s1 p = tmTabOf s p) (hidx : ∀ p, tmIdxTabOf s1 p = tmIdxTabOf s p)
    (hown : ∀ i, (s1.schTimerNodePool i).tmcb.taskNode = (s.schTimerNodePool i).tmcb.taskNode) :
    TimerWF c s1 ctxs lft := by
  refine ⟨ringAt_timer_congr h.free hn hl hf hs, ?_, ?_, ?_, h.nodup⟩
  · intro p tm i
    rw [hidx p, htab p]
    exact h.rev p tm i
  · intro p i tm hh
    rw [htab p] at hh
    rw [hown tm]
    exact h.owned p i tm hh
  · intro x hx
    obtain ⟨p, h1, h2, h3, h4⟩ := h.live x hx
    exact ⟨p, by rw [hown]; exact h1, h2, h3, by rw [htab p]; exact h4⟩

theorem tmTabOf_putMailbox (s : Sched) (r : TaskPtr) (q : Chan schMessage) (p : Nat) :
    tmTabOf (putMailbox s r q) p = tmTabOf s p := by
  cases r with
  | pool i =>
    by_cases h : p = i
    · subst h; simp [putMailbox, tmTabOf, setTask]
    · simp [putMailbox, tmTabOf, setTask, h]
  | rawSchTsk => rfl
  | rawTmTsk => rfl

theorem tmIdxTabOf_putMailbox (s : Sched) (r : TaskPtr) (q : Chan schMessage) (p : Nat) :
    tmIdxTabOf (putMailbox s r q) p = tmIdxTabOf s p := by
  cases r with
  | pool i =>
    by_cases h : p = i
    · subst h; simp [putMailbox, tmIdxTabOf, setTask]
    · simp [putMailbox, tmIdxTabOf, setTask, h]
  | rawSchTsk => rfl
  | rawTmTsk => rfl

theorem putMailbox_timer (s : Sched) (r : TaskPtr) (q : Chan schMessage) :
    (putMailbox s r q).schTimerNodePool = s.schTimerNodePool ∧
    (putMailbox s r q).tmFree = s.tmFree ∧ (putMailbox s r q).tmFreeSize = s.tmFreeSize ∧
    (putMailbox s r q).tmMap = s.tmMap := by
  cases r <;> exact ⟨rfl, rfl, rfl, rfl⟩

theorem sendTimerEvent_some {k : SchTimerConst} {s s1 : Sched} {ptm : Nat} {eno : SchErrno}
    {w : Bool} (h : schimplSendTimerEvent k s ptm w = some (eno, s1)) :
    ∃ r q, s1 = putMailbox s r q := by
  unfold schimplSendTimerEvent at h
  cases ho : (s.schTimerNodePool ptm).tmcb.taskNode with
  | none => simp [ho] at h
  | some o =>
    simp only [ho] at h
    cases hq : (s.schTaskNodePool o).task.mailbox.que with
    | none => simp [hq] at h
    | some q =>
      simp only [hq] at h
      split at h
      · exact absurd h (by simp)
      · exact ⟨_, _, (Prod.mk.inj (Option.some.inj h)).2.symm⟩

theorem TimerWF.putMailbox {c : SchConst} {s : Sched} {ctxs : List (Nat × Int)}
    {lft : List Nat} (h : TimerWF c s ctxs lft) (r : TaskPtr) (q : Chan schMessage) :
    TimerWF c (putMailbox s r q) ctxs lft := by
  obtain ⟨e1, e2, e3, -⟩ := putMailbox_timer s r q
  exact h.sameTimers (fun i => by rw [e1]) (fun i => by rw [e1]) e2 e3
    (tmTabOf_putMailbox s r q) (tmIdxTabOf_putMailbox s r q) (fun i => by rw [e1])

/-- The clean-up closure on a timer node with an owner and an index within the
table. -/
theorem funcAbsTimerClean_spec (c : SchConst) (k : SchTimerConst) {s : Sched} {tn o : Nat}
    {tid : Int} (ho : (s.schTimerNodePool tn).tmcb.taskNode = some o) (h0 : 0 ≤ tid)
    (h1 : tid < c.schMaxTaskTimer) :
    ∃ s1, funcAbsTimerClean c k s tn tid = some s1 ∧
      (∀ i, (s1.schTimerNodePool i).next = (s.schTimerNodePool i).next) ∧
      (∀ i, (s1.schTimerNodePool i).last = (s.schTimerNodePool i).last) ∧
      s1.tmFree = s.tmFree ∧ s1.tmFreeSize = s.tmFreeSize ∧
      (∀ p, tmTabOf s1 p =
        if p = o then Function.update (tmTabOf s o) tid.toNat none else tmTabOf s p) ∧
      (∀ p, tmIdxTabOf s1 p = if p = o then mapDel (tmIdxTabOf s o) tn else tmIdxTabOf s p) ∧
      (∀ i, (s1.schTimerNodePool i).tmcb.taskNode = (s.schTimerNodePool i).tmcb.taskNode) ∧
      (∀ i, (s1.schTimerNodePool i).tmcb.stop = (s.schTimerNodePool i).tmcb.stop) ∧
      (∀ i, (s1.schTimerNodePool i).tmcb.stopped = (s.schTimerNodePool i).tmcb.stopped) ∧
      s1.tmMap = mapDel s.tmMap tn := by
  have hb : ¬ (tid < 0 ∨ (c.schMaxTaskTimer : Int) ≤ tid) := by omega
  have e : funcAbsTimerClean c k s tn tid = some
      (modTmcb (modTask (setTmMap (modTask s o (fun t =>
        { t with tmIdxTab := mapDel t.tmIdxTab tn })) (mapDel s.tmMap tn)) o (fun t =>
        { t with tmTab := Function.update t.tmTab tid.toNat none })) tn (fun tcb =>
        { tcb with name := "", tmt := k.schTmTypeNull, dur := 0, extra := none })) := by
    simp only [funcAbsTimerClean, ho, if_neg hb, modTask_tmMap]
  refine ⟨_, e, ?_, ?_, ?_, ?_, ?_, ?_, ?_, ?_, ?_, ?_⟩
  · intro i
    simp only [modTmcb_next, setTmMap_timerPool, modTask_timerPool]
  · intro i
    simp only [modTmcb_last, setTmMap_timerPool, modTask_timerPool]
  · simp only [modTmcb_tmFree, setTmMap_tmFree, modTask_tmFree]
  · simp only [modTmcb_tmFreeSize, setTmMap_tmFreeSize, modTask_tmFreeSize]
  · intro p
    simp only [tmTabOf_modTmcb, tmTabOf_setTmMap, tmTabOf_modTask, modTask_task,
      setTmMap_taskPool, if_true]
    by_cases hp : p = o
    · simp only [hp, if_true, tmTabOf]
    · simp only [if_neg hp]
  · intro p
    simp only [tmIdxTabOf_modTmcb, tmIdxTabOf_setTmMap, tmIdxTabOf_modTask, modTask_task,
      setTmMap_taskPool, if_true]
    by_cases hp : p = o
    · simp only [hp, if_true, tmIdxTabOf]
    · simp only [if_neg hp]
  · intro i
    simp only [modTmcb_tmcb, setTmMap_timerPool, modTask_timerPool]
    by_cases hi : i = tn
    · simp only [hi, if_true]
    · simp only [if_neg hi]
  · intro i
    simp only [modTmcb_tmcb, setTmMap_timerPool, modTask_timerPool]
    by_cases hi : i = tn
    · simp only [hi, if_true]
    · simp only [if_neg hi]
  · intro i
    simp only [modTmcb_tmcb, setTmMap_timerPool, modTask_timerPool]
    by_cases hi : i = tn
    · simp only [hi, if_true]
    · simp only [if_neg hi]
  · simp only [modTmcb_tmMap, modTask_tmMap, setTmMap_tmMap]

theorem timerExit_tail {s s2 s1 : Sched} {ptm : Nat} {eno : SchErrno} {lft : List Nat}
    (hr : RingAt (tmNext s) (tmLast s) s.tmFree s.tmFreeSize lft) (hp : ptm ∉ lft)
    (hn : ∀ i, (s2.schTimerNodePool i).next = (s.schTimerNodePool i).next)
    (hl : ∀ i, (s2.schTimerNodePool i).last = (s.schTimerNodePool i).last)
    (hf : s2.tmFree = s.tmFree) (hs : s2.tmFreeSize = s.tmFreeSize)
    (htp : s2.schTaskNodePool = s.schTaskNodePool)
    (hoth : ∀ i, i ≠ ptm → (s2.schTimerNodePool i).tmcb = (s.schTimerNodePool i).tmcb)
    (h : schimplRetTimerNode (modTmcb s2 ptm (fun tcb => { tcb with taskNode := none }))
      (some ptm) = some (eno, s1)) :
    eno = SchEnoNone ∧ RingAt (tmNext s1) (tmLast s1) s1.tmFree s1.tmFreeSize (ptm :: lft) ∧
      s1.schTaskNodePool = s.schTaskNodePool ∧
      (∀ i, i ≠ ptm → (s1.schTimerNodePool i).tmcb = (s.schTimerNodePool i).tmcb) := by
  have hr2 : RingAt (tmNext (modTmcb s2 ptm (fun tcb => { tcb with taskNode := none })))
      (tmLast (modTmcb s2 ptm (fun tcb => { tcb with taskNode := none })))
      (modTmcb s2 ptm (fun tcb => { tcb with taskNode := none })).tmFree
      (modTmcb s2 ptm (fun tcb => { tcb with taskNode := none })).tmFreeSize lft :=
    ringAt_timer_congr hr (fun i => by rw [modTmcb_next, hn]) (fun i => by rw [modTmcb_last, hl])
      (by rw [modTmcb_tmFree, hf]) (by rw [modTmcb_tmFreeSize, hs])
  obtain ⟨s3, e3, r3, -, -, -, -, -, -, -, -, p3, t3, -⟩ := retTimerNode_spec hr2 hp
  rw [e3] at h
  have h1 := Prod.mk.inj (Option.some.inj h)
  refine ⟨h1.1.symm, ?_, ?_, ?_⟩
  · rw [← h1.2]; exact r3
  · rw [← h1.2, p3, modTmcb_taskPool, htp]
  · intro i hi
    rw [← h1.2, t3 i, modTmcb_tmcb, if_neg hi, hoth i hi]

/-- The exit of a timer context whose node is off the well-formed free list:
the node is put back at the head of the free list; the task nodes and the
other timer control blocks are untouched. -/
theorem timerExit_spec {s s1 : Sched} {ptm : Nat} {killed : Bool} {eno : SchErrno}
    {lft : List Nat} (hr : RingAt (tmNext s) (tmLast s) s.tmFree s.tmFreeSize lft)
    (hp : ptm ∉ lft) (h : timerExit s ptm killed = some (eno, s1)) :
    eno = SchEnoNone ∧ RingAt (tmNext s1) (tmLast s1) s1.tmFree s1.tmFreeSize (ptm :: lft) ∧
      s1.schTaskNodePool = s.schTaskNodePool ∧
      (∀ i, i ≠ ptm → (s1.schTimerNodePool i).tmcb = (s.schTimerNodePool i).tmcb) := by
  unfold timerExit at h
  cases killed with
  | false =>
    simp only [Bool.false_eq_true, if_false] at h
    split at h
    · exact absurd h (by simp)
    · exact timerExit_tail hr hp (fun _ => rfl) (fun _ => rfl) rfl rfl rfl (fun _ _ => rfl) h
  | true =>
    simp only [if_true] at h
    split at h
    · exact absurd h (by simp)
    · rename_i s2 hs2
      have hs2e : s2 = s ∨
          s2 = modTmcb s ptm (fun tcb => { tcb with stop := none, stopped := none }) := by
        split at hs2
        · exact absurd hs2 (by simp)
        · split at hs2
          · exact absurd hs2 (by simp)
          · split at hs2
            · exact absurd hs2 (by simp)
            · exact Or.inr (Option.some.inj hs2).symm
      split at h
      · exact absurd h (by simp)
      · rcases hs2e with he | he
        · subst he
          exact timerExit_tail hr hp (fun _ => rfl) (fun _ => rfl) rfl rfl rfl
            (fun _ _ => rfl) h
        · subst he
          exact timerExit_tail hr hp (fun i => modTmcb_next s ptm _ i)
            (fun i => modTmcb_last s ptm _ i) (modTmcb_tmFree s ptm _)
            (modTmcb_tmFreeSize s ptm _) (modTmcb_taskPool s ptm _)
            (fun i hi => by rw [modTmcb_tmcb, if_neg hi]) h

/-- The two outcomes of `schimplSetTimer` on a well-formed timer free list:
`Resource` with the state unchanged (table full or no free node), or success
at the first nil index with the head of the free list. -/
theorem setTimer_cases (c : SchConst) (k : SchTimerConst) {s : Sched} {lft : List Nat}
    (hr : RingAt (tmNext s) (tmLast s) s.tmFree s.tmFreeSize lft) (ptn : Nat)
    (tdc : timerDescription) {eno : SchErrno} {tid : Int} {s1 : Sched}
    (e : schimplSetTimer c k s (some ptn) (some tdc) = some (eno, tid, s1)) :
    (eno = SchEnoResource ∧ tid = k.schInvalidTid ∧ s1 = s) ∨
    (eno = SchEnoNone ∧ tid = (firstFreeTid c (tmTabOf s ptn) : Int) ∧
      firstFreeTid c (tmTabOf s ptn) < c.schMaxTaskTimer ∧ ∃ a t, lft = a :: t) := by
  by_cases hff : firstFreeTid c (tmTabOf s ptn) < c.schMaxTaskTimer
  · cases lft with
    | nil =>
      have hfree : s.tmFree = none := hr.head_eq
      obtain ⟨eno1, e1, e2⟩ := setTimer_exhausted c k s ptn tdc hfree
      rw [e1] at e
      have h1 := Prod.mk.inj (Option.some.inj e)
      have h2 := Prod.mk.inj h1.2
      exact Or.inl ⟨by rw [← h1.1, e2], h2.1.symm, h2.2.symm⟩
    | cons a t =>
      obtain ⟨s2, e2, -⟩ := setTimer_ok c k ptn tdc hr hff
      rw [e2] at e
      have h1 := Prod.mk.inj (Option.some.inj e)
      have h2 := Prod.mk.inj h1.2
      exact Or.inr ⟨h1.1.symm, h2.1.symm, hff, a, t, rfl⟩
  · have hfull : firstFreeTid c (s.schTaskNodePool ptn).task.tmTab ≥ c.schMaxTaskTimer := by
      simp only [tmTabOf] at hff; omega
    simp only [schimplSetTimer, if_pos hfull] at e
    have h1 := Prod.mk.inj (Option.some.inj e)
    have h2 := Prod.mk.inj h1.2
    exact Or.inl ⟨h1.1.symm, h2.1.symm, h2.2.symm⟩

/-- One clean-up followed by the exit of the context keeps the timer side well
formed. -/
theorem cleanStep_wf {c : SchConst} {k : SchTimerConst} {s sB s1 : Sched}
    {ctxs : List (Nat × Int)} {lft : List Nat} {ptm : Nat} {tid0 : Int} {eno : SchErrno}
    {killed : Bool} (h : TimerWF c s ctxs lft) (hctx : (ptm, tid0) ∈ ctxs)
    (hc : funcAbsTimerClean c k s ptm tid0 = some sB)
    (he : timerExit sB ptm killed = some (eno, s1)) :
    TimerWF c s1 (ctxs.filter (fun x => decide (x.1 ≠ ptm))) (ptm :: lft) := by
  obtain ⟨o, ho, h0, h1, hent⟩ := h.live _ hctx
  simp only [] at ho h0 h1 hent
  obtain ⟨sB1, eB, fn, fl, ff, fs, ftab, fidx, fown, -⟩ := funcAbsTimerClean_spec c k ho h0 h1
  rw [eB] at hc
  have hsB : sB1 = sB := Option.some.inj hc
  subst hsB
  have hpl : ptm ∉ lft := (h.owned o _ ptm hent).2.1
  have hrB := ringAt_timer_congr h.free fn fl ff fs
  obtain ⟨-, r1, p1, t1⟩ := timerExit_spec hrB hpl he
  refine h.clean ptm tid0 o hctx ho r1 ?_ ?_ ?_
  · intro p
    rw [← ftab p]
    simp only [tmTabOf, p1]
  · intro p
    rw [← fidx p]
    simp only [tmIdxTabOf, p1]
  · intro i hi
    rw [t1 i hi, fown i]

/-- Every state reached by arming, expiry and kill has a well-formed timer side. -/
theorem reachable_timerWF {c : SchConst} {k : SchTimerConst} {s : Sched}
    {ctxs : List (Nat × Int)} (h : TimerReachable c k s ctxs) : ∃ lft, TimerWF c s ctxs lft := by
  induction h with
  | idle s hi => exact timersIdle_wf c hi
  | armed s ctxs ptn tdc tid s1 ptm tid0 _ e hptm hst ih =>
    obtain ⟨lft, hw⟩ := ih
    rcases setTimer_cases c k hw.free ptn tdc e with ⟨h1, -, -⟩ | ⟨-, htid, hff, a, t, hl⟩
    · exact absurd h1 (by simp)
    · subst hl
      obtain ⟨s2, e2, r2, tab2, idx2, -, own2, oth2, -⟩ := setTimer_ok c k ptn tdc hw.free hff
      rw [e2] at e
      have hs : s2 = s1 := (Prod.mk.inj (Prod.mk.inj (Option.some.inj e)).2).2
      subst hs
      have hnil := firstFreeTid_lt c (tmTabOf s ptn) hff
      have hown : (s2.schTimerNodePool a).tmcb.taskNode = some ptn := by rw [own2]
      have hpa : ptm = a := by
        rw [htid, Int.toNat_ofNat, tab2 ptn, if_pos rfl, Function.update_same] at hptm
        exact (Option.some.inj hptm).symm
      subst hpa
      have ht0 : tid0 = (firstFreeTid c (tmTabOf s ptn) : Int) := by
        simp only [timerStartTid, hown] at hst
        have hi := idx2 ptn
        rw [if_pos rfl] at hi
        simp only [tmIdxTabOf] at hi
        rw [hi, mapGet_mapPut, if_pos rfl] at hst
        exact (Option.some.inj hst).symm
      rw [ht0]
      refine ⟨t, hw.arm ptn _ hff hnil r2 tab2 idx2 hown ?_⟩
      intro i hi
      rw [oth2 i hi]
  | refused s ctxs ptn tdc eno tid s1 _ e hne ih =>
    obtain ⟨lft, hw⟩ := ih
    rcases setTimer_cases c k hw.free ptn tdc e with ⟨-, -, hs⟩ | ⟨h1, -⟩
    · rw [hs]; exact ⟨lft, hw⟩
    · exact absurd h1 hne
  | expired s ctxs ptm tid0 w eno s1 _ hctx e ih =>
    obtain ⟨lft, hw⟩ := ih
    unfold timerExpired at e
    cases hse : schimplSendTimerEvent k s ptm w with
    | none => simp [hse] at e
    | some r =>
      obtain ⟨eno1, sA⟩ := r
      simp only [hse] at e
      obtain ⟨r0, q0, hsA⟩ := sendTimerEvent_some hse
      have hwA : TimerWF c sA ctxs lft := by rw [hsA]; exact hw.putMailbox r0 q0
      cases hcl : funcAbsTimerClean c k sA ptm tid0 with
      | none => simp [hcl] at e
      | some sB =>
        simp only [hcl] at e
        exact ⟨_, cleanStep_wf hwA hctx hcl e⟩
  | killed s ctxs ptm tid0 eno s1 _ hctx e ih =>
    obtain ⟨lft, hw⟩ := ih
    unfold timerKilled at e
    cases hcl : funcAbsTimerClean c k s ptm tid0 with
    | none => simp [hcl] at e
    | some sB =>
      simp only [hcl] at e
      exact ⟨_, cleanStep_wf hw hctx hcl e⟩

/-- A fresh scheduler has no timer armed. -/
theorem fresh_timersIdle (c : SchConst) (h : ∃ k, c.schTimerNodePoolSize = 2 ^ k) :
    TimersIdle (freshSched c) := by
  refine ⟨⟨_, fresh_timer_ring c h⟩, ?_⟩
  intro p
  have ht : ((freshSched c).schTaskNodePool p).task = zeroTask := by
    rw [fresh_task_node]
    split_ifs <;> rfl
  refine ⟨fun i => ?_, ?_⟩
  · simp only [tmTabOf, ht]
    rfl
  · simp only [tmIdxTabOf, ht]
    rfl

/-! ## The four list operations of the task pool -/

/-- Every state reached by the four list operations has a well-formed task
pool, and no node carries a channel. -/
theorem poolReachable_wf (c : SchConst) (hc : ∃ k, c.schTaskNodePoolSize = 2 ^ k) {s : Sched}
    (h : PoolReachable c s) :
    ∃ lf lb, TaskPoolWF s lf lb ∧ ∀ i, chansNil (s.schTaskNodePool i).task := by
  induction h with
  | init =>
    refine ⟨_, _, fresh_wf c hc, ?_⟩
    intro i
    rw [fresh_task_node]
    split_ifs <;> exact ⟨rfl, rfl, rfl⟩
  | acquire s eno ptn s1 _ hr ih =>
    obtain ⟨lf, lb, hw, hch⟩ := ih
    cases lf with
    | nil =>
      have hf : s.tkFree = none := hw.free.head_eq
      simp only [schimplGetTaskNode, hf] at hr
      have hs : s = s1 := (Prod.mk.inj (Prod.mk.inj (Option.some.inj hr)).2).2
      rw [← hs]
      exact ⟨[], lb, hw, hch⟩
    | cons a t =>
      obtain ⟨s2, e2, hw2, -, -, -, -, -, ht, -⟩ := getTaskNode_wf hw
      rw [e2] at hr
      have hs : s2 = s1 := (Prod.mk.inj (Prod.mk.inj (Option.some.inj hr)).2).2
      rw [← hs]
      exact ⟨t, lb, hw2, fun i => by rw [ht i]; exact hch i⟩
  | release s p eno s1 _ hpf hpb hr ih =>
    obtain ⟨lf, lb, hw, hch⟩ := ih
    rw [hw.freeList_eq] at hpf
    rw [hw.busyList_eq] at hpb
    obtain ⟨s2, e2, hw2, -, ht, -⟩ := retTaskNode_wf hw hpf hpb (hch p)
    rw [e2] at hr
    have hs : s2 = s1 := (Prod.mk.inj (Option.some.inj hr)).2
    rw [← hs]
    exact ⟨_, _, hw2, fun i => by rw [ht i]; exact hch i⟩
  | enque s p eno s1 _ hpf hpb hr ih =>
    obtain ⟨lf, lb, hw, hch⟩ := ih
    rw [hw.freeList_eq] at hpf
    rw [hw.busyList_eq] at hpb
    obtain ⟨s2, e2, hw2, -, ht, -⟩ := busyEnque_wf hw hpf hpb
    rw [e2] at hr
    have hs : s2 = s1 := (Prod.mk.inj (Option.some.inj hr)).2
    rw [← hs]
    exact ⟨_, _, hw2, fun i => by rw [ht i]; exact hch i⟩
  | deque s p eno s1 _ hp hr ih =>
    obtain ⟨lf, lb, hw, hch⟩ := ih
    rw [hw.busyList_eq] at hp
    obtain ⟨s2, lb1, e2, hw2, -, -, ht, -⟩ := busyDeque_wf hw hp
    rw [e2] at hr
    have hs : s2 = s1 := (Prod.mk.inj (Option.some.inj hr)).2
    rw [← hs]
    exact ⟨_, _, hw2, fun i => by rw [ht i]; exact hch i⟩

/-! ## The claims -/

/-- C1 (the code departs from the claim): task "A" is created on a fresh
scheduler and its teardown returns `SchEnoNone`; afterwards the name registry
still holds "A", and `schimplGetTaskNodeByName` returns `SchEnoNone` with the
released slot instead of `SchEnoNotFound`. -/
theorem C1_teardown_leaves_name_registered :
    (schimplStopTaskEx demoConst demoOneTask (some 0)).map
        (fun r => (r.1, schimplGetTaskNodeByName r.2 "A")) =
      some (SchEnoNone, SchEnoNone, some 0) := by
  decide

/-- C2 (the code departs from the claim): on a fresh scheduler of four nodes,
`create_task "A"` followed by a second `create_task "A"` returns `Duplicated`
and leaves `freeSize + busySize = 3`: the node taken for the second call is on
neither list. -/
theorem C2_duplicated_leaks_a_node :
    (schimplCreateTask demoConst demoOneTask (some (demoDesc "A"))).map
        (fun r => (r.1, r.2.2.freeSize + r.2.2.busySize, freeList r.2.2, busyList r.2.2)) =
      some (SchEnoDuplicated, 3, [2, 3], [0]) ∧
    (demoConst.schTaskNodePoolSize : Int) = 4 := by
  decide

/-- C3 (the claim as stated fails): with the four nodes of the pool taken by
"A", "B", "C", "D", the registry maps "A" to slot 0, and `create_task "A"`
returns `Resource`, not `Duplicated`. -/
theorem C3_exhausted_pool_returns_resource :
    mapGet demoFull.tkMap "A" = some 0 ∧
    (schimplCreateTask demoConst demoFull (some (demoDesc "A"))).map (fun r => (r.1, r.2.1)) =
      some (SchEnoResource, none) := by
  decide

/-- C3 (amended): in every state whose task pool is well formed, if the registry
maps the non-empty trimmed name of a description (with a watchdog and a
mailbox size from 0 to `schMaxChanSize`, the largest `make` accepts) to a
handle `h` that is on the busy list, then
`create_task` returns no handle, with `Duplicated` when the free list is not
empty and `Resource` when it is; the registry is unchanged (it still maps the
name to `h`), the node `h` is unchanged in every field and link, and the busy
list, its head and its size are unchanged. -/
theorem C3_duplicate_name_leaves_first_task (c : SchConst) (s : Sched) (lf lb : List Nat)
    (hw : TaskPoolWF s lf lb) (d : schTaskDescription) (hd : descOk c d) (h : Nat)
    (hne : TrimSpace d.Name ≠ "") (hreg : mapGet s.tkMap (TrimSpace d.Name) = some h)
    (hbusy : h ∈ busyList s) :
    ∃ s1, schimplCreateTask c s (some d) =
        some (if s.tkFree = none then SchEnoResource else SchEnoDuplicated, none, s1) ∧
      s1.tkMap = s.tkMap ∧ mapGet s1.tkMap (TrimSpace d.Name) = some h ∧
      s1.schTaskNodePool h = s.schTaskNodePool h ∧ busyList s1 = busyList s ∧
      s1.tkBusy = s.tkBusy ∧ s1.busySize = s.busySize := by
  rw [hw.busyList_eq] at hbusy
  cases lf with
  | nil =>
    have hh : s.tkFree = none := hw.free.head_eq
    refine ⟨s, ?_, rfl, hreg, rfl, rfl, rfl, rfl⟩
    rw [if_pos hh]
    exact createTask_exhausted c hw d
  | cons a t =>
    have hh : s.tkFree ≠ none := by rw [hw.free.head_eq]; simp
    obtain ⟨t1, p1, p2, -⟩ := prepareTask_spec c (hw.chans a (by simp)) hd
    have hlen : ¬ t1.name.length ≤ 0 := by
      rw [p2, Nat.le_zero]
      intro hc
      apply hne
      generalize TrimSpace d.Name = n at hc
      obtain ⟨l⟩ := n
      have : l = [] := List.length_eq_zero.mp hc
      rw [this]
    have hdup : (mapGet s.tkMap t1.name).isSome = true := by rw [p2, hreg]; rfl
    obtain ⟨s1, e1, e2, e3, e4, e5, e6⟩ := createTask_dup_core c hw d p1 hlen hdup
    have hh1 : h ∉ a :: t := fun hc => hw.disjoint h hc hbusy
    refine ⟨s1, ?_, e3, by rw [e3]; exact hreg, e6 h hh1, ?_, e4, e5⟩
    · rw [if_neg hh]; exact e1
    · rw [e2.busyList_eq, hw.busyList_eq]

/-- C3 (amended), at the state where "A" runs in slot 0 of a fresh scheduler. -/
theorem C3_duplicate_name_witness :
    ∃ s1, schimplCreateTask demoConst demoOneTask (some (demoDesc "A")) =
        some (if demoOneTask.tkFree = none then SchEnoResource else SchEnoDuplicated, none, s1) ∧
      s1.tkMap = demoOneTask.tkMap ∧ mapGet s1.tkMap (TrimSpace (demoDesc "A").Name) = some 0 ∧
      s1.schTaskNodePool 0 = demoOneTask.schTaskNodePool 0 ∧
      busyList s1 = busyList demoOneTask ∧
      s1.tkBusy = demoOneTask.tkBusy ∧ s1.busySize = demoOneTask.busySize := by
  obtain ⟨lf, lb, hw⟩ := reachable_wf demoConst ⟨2, rfl⟩
    (Reachable.create (freshSched demoConst) (demoDesc "A") SchEnoNone (some 0) demoOneTask
      Reachable.init rfl)
  exact C3_duplicate_name_leaves_first_task demoConst demoOneTask lf lb hw (demoDesc "A")
    (by decide) 0 (by decide) (by decide) (by decide)

/-- C4 (the claim as stated fails): four valid descriptions with the pairwise
distinct names "A", " A", "B", "C" on a fresh scheduler of four nodes; the
second creation returns `Duplicated` with no handle. -/
theorem C4_distinct_names_can_collide :
    (demoSpacedDescs.map (fun d => d.Name)).Nodup ∧
    (∀ d ∈ demoSpacedDescs, validDesc demoConst d) ∧
    demoSpacedDescs.length = demoConst.schTaskNodePoolSize ∧
    (createAll demoConst demoSpacedDescs (freshSched demoConst)).map (fun r => r.1) =
      some [(SchEnoNone, some 0), (SchEnoDuplicated, none), (SchEnoNone, some 2),
        (SchEnoNone, some 3)] := by
  refine ⟨by decide, by decide, by decide, by rfl⟩

/-- C4 (amended): on a freshly initialised scheduler whose task pool has a
power of two of nodes, as many consecutive `create_task` calls as the pool has
nodes, with valid descriptions (a watchdog, a mailbox size from 0 to
`schMaxChanSize`, the largest `make` accepts, flag `Go` or `Suspend`) whose
names are pairwise distinct after trimming the surrounding white space (empty
names apart), all return
`SchEnoNone`; the i-th call returns slot i, so the slots are pairwise distinct;
and one more `create_task` returns `Resource` with no handle and changes
nothing. -/
theorem C4_pool_fills_then_resource (c : SchConst) (hc : ∃ k, c.schTaskNodePoolSize = 2 ^ k)
    (ds : List schTaskDescription) (hlen : ds.length = c.schTaskNodePoolSize)
    (hval : ∀ d ∈ ds, validDesc c d)
    (hnames : ((ds.map (fun d => TrimSpace d.Name)).filter (fun n => decide (n ≠ ""))).Nodup)
    (d : schTaskDescription) :
    ∃ rs s1, createAll c ds (freshSched c) = some (rs, s1) ∧
      rs = (List.range c.schTaskNodePoolSize).map (fun i => (SchEnoNone, some i)) ∧
      (∀ r ∈ rs, r.1 = SchEnoNone ∧ r.2 ≠ none) ∧ (rs.map Prod.snd).Nodup ∧
      schimplCreateTask c s1 (some d) = some (SchEnoResource, none, s1) := by
  have hw := fresh_wf c hc
  obtain ⟨s1, e1, e2⟩ := createAll_spec c ds (freshSched c) _ _ hw
    (by rw [List.length_range, hlen]) hval hnames
    (by intro d1 _ _; rw [(fresh_fields c).2.2.2.2.2.2.1]; rfl)
  have htake : (List.range c.schTaskNodePoolSize).take ds.length =
      List.range c.schTaskNodePoolSize := by
    rw [hlen]; exact List.take_of_length_le (by simp)
  have hdrop : (List.range c.schTaskNodePoolSize).drop ds.length = [] := by
    rw [hlen]; exact List.drop_of_length_le (by simp)
  rw [htake] at e1
  rw [hdrop] at e2
  refine ⟨_, s1, e1, rfl, ?_, ?_, createTask_exhausted c e2 d⟩
  · intro r hr
    obtain ⟨i, -, hi⟩ := List.mem_map.mp hr
    rw [← hi]
    exact ⟨rfl, by simp⟩
  · rw [List.map_map]
    refine (List.nodup_range _).map ?_
    intro i j hij
    exact Option.some.inj hij

/-- C4 (amended), for the four descriptions "A", "B", "C", "D" and a pool of
four nodes. -/
theorem C4_pool_fills_witness :
    ∃ rs s1, createAll demoConst demoFourDescs (freshSched demoConst) = some (rs, s1) ∧
      rs = (List.range demoConst.schTaskNodePoolSize).map (fun i => (SchEnoNone, some i)) ∧
      (∀ r ∈ rs, r.1 = SchEnoNone ∧ r.2 ≠ none) ∧ (rs.map Prod.snd).Nodup ∧
      schimplCreateTask demoConst s1 (some (demoDesc "E")) = some (SchEnoResource, none, s1) :=
  C4_pool_fills_then_resource demoConst ⟨2, rfl⟩ demoFourDescs rfl (by decide) (by decide)
    (demoDesc "E")

/-- C5: for both pools, on a well-formed non-empty free list (a ring `a :: t`
with the recorded head and size) acquisition returns the head `a` with
`SchEnoNone` and the release of `a` that follows returns `SchEnoNone` and
restores the whole state: head, size and every link.  Hence on a freshly
initialised scheduler (pool size a power of two), acquire-then-release
repeated pool-size times ends in the initial state, head included. -/
theorem C5_acquire_release_restores (c : SchConst) (s : Sched) (a : Nat) (t : List Nat) :
    (RingAt (tkNext s) (tkLast s) s.tkFree s.freeSize (a :: t) →
      ∃ s1, schimplGetTaskNode s = some (SchEnoNone, some a, s1) ∧
        schimplRetTaskNode s1 (some a) = some (SchEnoNone, s)) ∧
    (RingAt (tmNext s) (tmLast s) s.tmFree s.tmFreeSize (a :: t) →
      ∃ s1, schimplGetTimerNode s = some (SchEnoNone, some a, s1) ∧
        schimplRetTimerNode s1 (some a) = some (SchEnoNone, s)) ∧
    ((∃ k, c.schTaskNodePoolSize = 2 ^ k) →
      repeatOpt taskAcquireRelease c.schTaskNodePoolSize (freshSched c) =
        some (freshSched c)) ∧
    ((∃ k, c.schTimerNodePoolSize = 2 ^ k) →
      repeatOpt timerAcquireRelease c.schTimerNodePoolSize (freshSched c) =
        some (freshSched c)) := by
  refine ⟨task_acquire_release s a t, timer_acquire_release s a t, ?_, ?_⟩
  · intro hc
    apply repeatOpt_fixed
    obtain ⟨k, hk⟩ := hc
    have hpos : 0 < c.schTaskNodePoolSize := by rw [hk]; exact Nat.pos_pow_of_pos k (by decide)
    obtain ⟨n, hn⟩ : ∃ n, c.schTaskNodePoolSize = n + 1 := ⟨c.schTaskNodePoolSize - 1, by omega⟩
    have hr := fresh_task_ring c ⟨k, hk⟩
    rw [hn, List.range_succ_eq_map] at hr
    obtain ⟨s1, h1, h2⟩ := task_acquire_release _ _ _ hr
    simp [taskAcquireRelease, h1, h2]
  · intro hct
    apply repeatOpt_fixed
    obtain ⟨k, hk⟩ := hct
    have hpos : 0 < c.schTimerNodePoolSize := by rw [hk]; exact Nat.pos_pow_of_pos k (by decide)
    obtain ⟨n, hn⟩ : ∃ n, c.schTimerNodePoolSize = n + 1 :=
      ⟨c.schTimerNodePoolSize - 1, by omega⟩
    have hr := fresh_timer_ring c ⟨k, hk⟩
    rw [hn, List.range_succ_eq_map] at hr
    obtain ⟨s1, h1, h2⟩ := timer_acquire_release _ _ _ hr
    simp [timerAcquireRelease, h1, h2]

/-- C5, on the fresh scheduler with two pools of four nodes. -/
theorem C5_acquire_release_witness :
    (∃ s1, schimplGetTaskNode (freshSched demoConst) = some (SchEnoNone, some 0, s1) ∧
      schimplRetTaskNode s1 (some 0) = some (SchEnoNone, freshSched demoConst)) ∧
    (∃ s1, schimplGetTimerNode (freshSched demoConst) = some (SchEnoNone, some 0, s1) ∧
      schimplRetTimerNode s1 (some 0) = some (SchEnoNone, freshSched demoConst)) ∧
    repeatOpt taskAcquireRelease demoConst.schTaskNodePoolSize (freshSched demoConst) =
      some (freshSched demoConst) ∧
    repeatOpt timerAcquireRelease demoConst.schTimerNodePoolSize (freshSched demoConst) =
      some (freshSched demoConst) :=
  have h := C5_acquire_release_restores demoConst (freshSched demoConst) 0 [1, 2, 3]
  ⟨h.1 (fresh_task_ring demoConst ⟨2, rfl⟩), h.2.1 (fresh_timer_ring demoConst ⟨2, rfl⟩),
    h.2.2.1 ⟨2, rfl⟩, h.2.2.2 ⟨2, rfl⟩⟩

/-- C6 (the code departs from the claim): the state reached by creating task "A"
and tearing it down is reachable, its registry maps "A" to slot 0, but the name
of slot 0 is empty and the slot is on the free list, not on the busy list. -/
theorem C6_registry_entry_outlives_task :
    Reachable demoConst demoAfterStop ∧ mapGet demoAfterStop.tkMap "A" = some 0 ∧
      (demoAfterStop.schTaskNodePool 0).task.name = "" ∧ busyList demoAfterStop = [] ∧
      freeList demoAfterStop = [0, 1, 2, 3] := by
  refine ⟨?_, by decide, by decide, by decide, by decide⟩
  refine Reachable.teardown demoOneTask 0 SchEnoNone demoAfterStop ?_ (by decide) (by decide) rfl
  exact Reachable.create (freshSched demoConst) (demoDesc "A") SchEnoNone (some 0) demoOneTask
    Reachable.init rfl

/-- C7: in every state whose task pool is well formed (as it is in every state
reachable from initialisation, see `reachable_wf`), for every task on the busy
list, once its teardown `schimplStopTaskEx` has returned `SchEnoNone`, the
mailbox, termination and stopped channels of the slot are nil, the slot is not
on the busy list and it is on the free list. -/
theorem C7_shutdown_closure (c : SchConst) (s : Sched) (lf lb : List Nat)
    (hw : TaskPoolWF s lf lb) (p : Nat) (hbusy : p ∈ busyList s) (s1 : Sched)
    (hstop : schimplStopTaskEx c s (some p) = some (SchEnoNone, s1)) :
    (s1.schTaskNodePool p).task.mailbox.que = none ∧ (s1.schTaskNodePool p).task.done = none ∧
    (s1.schTaskNodePool p).task.stopped = none ∧ p ∉ busyList s1 ∧ p ∈ freeList s1 := by
  rw [hw.busyList_eq] at hbusy
  obtain ⟨lf1, lb1, hw1, hx⟩ := stopTaskEx_spec c hw hbusy hstop
  obtain ⟨h1, h2, -, ⟨h3, h4, h5⟩, -⟩ := hx rfl
  refine ⟨h3, h4, h5, ?_, ?_⟩
  · rw [hw1.busyList_eq]
    intro hm
    exact ((h2 p).mp hm).2 rfl
  · rw [hw1.freeList_eq, h1]
    exact List.mem_cons_self _ _

/-- C7, for the task "A" created with flag `Go` on a fresh scheduler. -/
theorem C7_shutdown_closure_witness :
    0 ∈ busyList demoOneTask ∧
    (demoAfterStop.schTaskNodePool 0).task.mailbox.que = none ∧
    (demoAfterStop.schTaskNodePool 0).task.done = none ∧
    (demoAfterStop.schTaskNodePool 0).task.stopped = none ∧ 0 ∉ busyList demoAfterStop ∧
    0 ∈ freeList demoAfterStop := by
  obtain ⟨lf, lb, hw⟩ := reachable_wf demoConst ⟨2, rfl⟩
    (Reachable.create (freshSched demoConst) (demoDesc "A") SchEnoNone (some 0) demoOneTask
      Reachable.init rfl)
  exact ⟨by decide, C7_shutdown_closure demoConst demoOneTask lf lb hw 0 (by decide)
    demoAfterStop rfl⟩

/-- C8 (the claim as stated fails): task "A" was created with user data 7;
`schimplTcbClean` on its control block returns `SchEnoNone` and the user data
is still 7. -/
theorem C8_user_data_survives_clean :
    (schimplTcbClean demoConst demoOneTask 0).map
        (fun r => (r.1, (r.2.schTaskNodePool 0).task.userData)) =
      some (SchEnoNone, some 7) := by
  decide

/-- C8 (amended): for every task control block, after `schimplTcbClean` has
returned `SchEnoNone` the handler is nil, the bite counter of the watchdog is
zero and every entry of the timer table is nil; the user-data reference is the
one the control block had before the call. -/
theorem C8_tcb_clean_resets (c : SchConst) (s : Sched) (tcb : Nat) (s1 : Sched)
    (hr : schimplTcbClean c s tcb = some (SchEnoNone, s1)) :
    (s1.schTaskNodePool tcb).task.utep = none ∧
    (s1.schTaskNodePool tcb).task.dog.BiteCounter = 0 ∧
    (s1.schTaskNodePool tcb).task.userData = (s.schTaskNodePool tcb).task.userData ∧
    (∀ k, k < c.schMaxTaskTimer → (s1.schTaskNodePool tcb).task.tmTab k = none) := by
  obtain ⟨-, -, -, -, h1, -, -, -, h2, h3, h4⟩ := tcbClean_spec c s tcb hr
  exact ⟨h1, h2, h3, h4⟩

/-- C8 (amended), on the control block of task "A". -/
theorem C8_tcb_clean_witness :
    ((stateAfterCode demoOneTask (schimplTcbClean demoConst demoOneTask 0)).schTaskNodePool
        0).task.utep = none ∧
    ((stateAfterCode demoOneTask (schimplTcbClean demoConst demoOneTask 0)).schTaskNodePool
        0).task.dog.BiteCounter = 0 ∧
    ((stateAfterCode demoOneTask (schimplTcbClean demoConst demoOneTask 0)).schTaskNodePool
        0).task.userData = (demoOneTask.schTaskNodePool 0).task.userData ∧
    (∀ k, k < demoConst.schMaxTaskTimer →
      ((stateAfterCode demoOneTask (schimplTcbClean demoConst demoOneTask 0)).schTaskNodePool
        0).task.tmTab k = none) :=
  C8_tcb_clean_resets demoConst demoOneTask 0
    (stateAfterCode demoOneTask (schimplTcbClean demoConst demoOneTask 0)) rfl

/-- C9 (the code departs from the claim): `create_group` for the two members
"A" and "B", whose creations succeed in slots 0 and 1, returns `SchEnoNone`
with a list of four nil handles, and registers that list. -/
theorem C9_group_handles_are_nil :
    (schimplCreateTaskGroup demoConst (freshSched demoConst)
        (some (demoGroup "G" ["A", "B"]))).map
        (fun r => (r.1, r.2.1, mapGet r.2.2.grpMap "G", mapGet r.2.2.tkMap "A",
          mapGet r.2.2.tkMap "B")) =
      some (SchEnoNone, [none, none, none, none], some [none, none, none, none],
        some 0, some 1) := by
  rfl

/-- C10 (the code departs from the claim): `create_group` for the members "A",
"A", "B" stops at the second member with `Duplicated`, "B" is never created
and no group is registered; `stop_group` on the group "G" registered for the
member "A" stops at the first member with `Parameter` and leaves the group
registered. -/
theorem C10_group_operations_short_circuit :
    (schimplCreateTaskGroup demoConst (freshSched demoConst)
        (some (demoGroup "G" ["A", "A", "B"]))).map
        (fun r => (r.1, mapGet r.2.2.tkMap "B", mapGet r.2.2.grpMap "G")) =
      some (SchEnoDuplicated, none, none) ∧
    mapGet demoOneGroup.grpMap "G" = some [none, none] ∧
    (schimplStopTaskGroup demoOneGroup "G").map
        (fun r => (r.1, mapGet r.2.grpMap "G", r.2.grpCnt)) =
      some (SchEnoParameter, some [none, none], 1) := by
  decide

/-- C11 (the code departs from the claim): with the group "G" registered, the
group name "H" is absent from the group registry; `start_group "H"` returns
`Mismatched` (with count -1), while `stop_group "H"` returns `NotFound`. -/
theorem C11_start_group_absent_is_mismatched :
    mapGet demoOneGroup.grpMap "H" = none ∧
    (schimplStartTaskGroup demoConst demoOneGroup "H").map (fun r => (r.1, r.2.1)) =
      some (SchEnoMismatched, -1) ∧
    (schimplStopTaskGroup demoOneGroup "H").map (fun r => r.1) = some SchEnoNotFound := by
  decide

/-- C12: `schimplStartTask name` returns `NotFound` exactly when `name` is absent
from the name registry, and then changes nothing; it returns `Mismatched`
exactly when `name` is registered and the run-state of its task is not
`Suspend`, and then changes nothing; when `name` is registered with run-state
`Suspend` it sets the run-state to `Go` and returns `SchEnoNone`.  After a
start that returned `SchEnoNone` a second start of the same name returns
`Mismatched` (the two flags being different constants). -/
theorem C12_start_task (c : SchConst) (s : Sched) (name : String) :
    ((schimplStartTask c s name).1 = SchEnoNotFound ↔ mapGet s.tkMap name = none) ∧
    ((schimplStartTask c s name).1 = SchEnoNotFound → (schimplStartTask c s name).2 = s) ∧
    ((schimplStartTask c s name).1 = SchEnoMismatched ↔
      ∃ p, mapGet s.tkMap name = some p ∧
        (s.schTaskNodePool p).task.goStatus ≠ c.SchCreatedSuspend) ∧
    ((schimplStartTask c s name).1 = SchEnoMismatched → (schimplStartTask c s name).2 = s) ∧
    (∀ p, mapGet s.tkMap name = some p →
      (s.schTaskNodePool p).task.goStatus = c.SchCreatedSuspend →
      schimplStartTask c s name =
        (SchEnoNone, setTask s p { (s.schTaskNodePool p).task with goStatus := c.SchCreatedGo })) ∧
    (c.SchCreatedGo ≠ c.SchCreatedSuspend → (schimplStartTask c s name).1 = SchEnoNone →
      schimplStartTask c (schimplStartTask c s name).2 name =
        (SchEnoMismatched, (schimplStartTask c s name).2)) := by
  cases hg : mapGet s.tkMap name with
  | none =>
    have e : schimplStartTask c s name = (SchEnoNotFound, s) := by
      simp [schimplStartTask, schimplGetTaskNodeByName, hg]
    simp [e]
  | some p =>
    by_cases hst : (s.schTaskNodePool p).task.goStatus = c.SchCreatedSuspend
    · have e : schimplStartTask c s name =
          (SchEnoNone, setTask s p { (s.schTaskNodePool p).task with
            goStatus := c.SchCreatedGo }) := by
        simp [schimplStartTask, schimplGetTaskNodeByName, hg, hst]
      rw [e]
      refine ⟨by simp, by simp, by simp [hst], by simp, ?_, ?_⟩
      · intro p1 hp1 _
        rw [Option.some.inj hp1]
      · intro hne _
        simp [schimplStartTask, schimplGetTaskNodeByName, hg, setTask, hne]
    · have e : schimplStartTask c s name = (SchEnoMismatched, s) := by
        simp [schimplStartTask, schimplGetTaskNodeByName, hg, hst]
      rw [e]
      refine ⟨by simp, by simp, by simp [hst], by simp, ?_, by simp⟩
      intro p1 hp1 h1
      rw [← Option.some.inj hp1] at h1
      exact absurd h1 hst

/-- C12, for the task "A" created with flag `Suspend`: the first start returns
`SchEnoNone`, the second `Mismatched`. -/
theorem C12_start_task_witness :
    (schimplStartTask demoConst demoSuspended "A").1 = SchEnoNone ∧
    schimplStartTask demoConst (schimplStartTask demoConst demoSuspended "A").2 "A" =
      (SchEnoMismatched, (schimplStartTask demoConst demoSuspended "A").2) :=
  ⟨by decide, (C12_start_task demoConst demoSuspended "A").2.2.2.2.2 (by decide) (by decide)⟩

/-- C13 (the claim as stated fails): with "A" registered and three free nodes,
the valid description named " A" has a name that is not in the registry, and
`create_task` returns `Duplicated` with no handle. -/
theorem C13_fresh_name_can_collide :
    mapGet demoOneTask.tkMap " A" = none ∧ validDesc demoConst (demoDesc " A") ∧
    freeList demoOneTask = [1, 2, 3] ∧
    (schimplCreateTask demoConst demoOneTask (some (demoDesc " A"))).map
        (fun r => (r.1, r.2.1)) = some (SchEnoDuplicated, none) := by
  decide

/-- C13 (amended): on a well-formed task pool with a free node `a` at the head
of the free list, for every description with a watchdog and a mailbox size
from 0 to `schMaxChanSize` (the largest `make` accepts) whose name, trimmed of
surrounding white space, is empty or not registered, `create_task` returns the
handle `a`; with flag `Go` the code is
`SchEnoNone` and the run-state `Go`, with flag `Suspend` the code is
`SchEnoNone` and the run-state `Suspend`, with any other flag the code is
`SchEnoSuspended` and the run-state `Suspend`.  In all three cases the slot is
initialised from the description and `a` is the new head of the busy list;
the registry maps the trimmed name to `a` when that name is not empty, and a
task whose trimmed name is empty is not enrolled: the registry is unchanged. -/
theorem C13_create_by_flag (c : SchConst) (s : Sched) (a : Nat) (t lb : List Nat)
    (hw : TaskPoolWF s (a :: t) lb) (d : schTaskDescription) (hd : descOk c d)
    (hfresh : TrimSpace d.Name = "" ∨ mapGet s.tkMap (TrimSpace d.Name) = none) :
    ∃ eno s1, schimplCreateTask c s (some d) = some (eno, some a, s1) ∧
      (d.Flag = c.SchCreatedGo →
        eno = SchEnoNone ∧ (s1.schTaskNodePool a).task.goStatus = c.SchCreatedGo) ∧
      (d.Flag = c.SchCreatedSuspend →
        eno = SchEnoNone ∧ (s1.schTaskNodePool a).task.goStatus = c.SchCreatedSuspend) ∧
      (d.Flag ≠ c.SchCreatedGo → d.Flag ≠ c.SchCreatedSuspend →
        eno = SchEnoSuspended ∧ (s1.schTaskNodePool a).task.goStatus = c.SchCreatedSuspend) ∧
      (s1.schTaskNodePool a).task.name = TrimSpace d.Name ∧
      (s1.schTaskNodePool a).task.utep = d.Ep ∧
      (s1.schTaskNodePool a).task.mailbox =
        { que := some { cap := d.MbSize.toNat, buf := [], closed := false }, size := d.MbSize } ∧
      (s1.schTaskNodePool a).task.done = some { cap := 1, buf := [], closed := false } ∧
      (s1.schTaskNodePool a).task.stopped = some { cap := 1, buf := [], closed := false } ∧
      some (s1.schTaskNodePool a).task.dog = d.Wd ∧
      (s1.schTaskNodePool a).task.userData = d.UserDa ∧
      busyList s1 = a :: busyList s ∧
      (TrimSpace d.Name ≠ "" → mapGet s1.tkMap (TrimSpace d.Name) = some a) ∧
      (TrimSpace d.Name = "" → s1.tkMap = s.tkMap) := by
  obtain ⟨t1, p1, p2, p3, p4, p5, p6, p7, p8, p9, -⟩ :=
    prepareTask_spec c (hw.chans a (by simp)) hd
  have hlen0 : t1.name.length ≤ 0 ↔ TrimSpace d.Name = "" := by
    rw [p2, Nat.le_zero]
    generalize TrimSpace d.Name = n
    obtain ⟨l⟩ := n
    show l.length = 0 ↔ String.mk l = ""
    rw [List.length_eq_zero]
    constructor
    · intro h; rw [h]
    · intro h; exact congrArg String.data h
  have hfr : t1.name.length ≤ 0 ∨ mapGet s.tkMap t1.name = none := by
    rcases hfresh with h | h
    · exact Or.inl (hlen0.mpr h)
    · exact Or.inr (by rw [p2]; exact h)
  obtain ⟨s1, e1, e2, e3, e4, -⟩ := createTask_ok_core c hw d p1 hfr
  refine ⟨_, s1, e1, ?_, ?_, ?_, ?_, ?_, ?_, ?_, ?_, ?_, ?_, ?_, ?_, ?_⟩
  · intro hf
    rw [e4]
    simp [hf]
  · intro hf
    rw [e4]
    by_cases hg : c.SchCreatedSuspend = c.SchCreatedGo
    · simp [hf, hg]
    · simp [hf, hg]
  · intro h1 h2
    rw [e4]
    simp [h1, h2]
  · rw [e4]; exact p2
  · rw [e4]; exact p3
  · rw [e4]; exact p4
  · rw [e4]; exact p5
  · rw [e4]; exact p6
  · rw [e4]; exact p7
  · rw [e4]; exact p9
  · rw [e2.busyList_eq, hw.busyList_eq]
  · intro hne
    rw [e3, if_neg (fun hc => hne (hlen0.mp hc)), mapGet_mapPut, p2]
    simp
  · intro he
    rw [e3, if_pos (hlen0.mpr he)]

/-- C13 (amended), for the description "B" with an unknown flag on the state
where "A" runs: the code is `SchEnoSuspended`, the handle is slot 1. -/
theorem C13_create_by_flag_witness :
    ∃ eno s1, schimplCreateTask demoConst demoOneTask
        (some { demoDesc "B" with Flag := 5 }) = some (eno, some 1, s1) ∧
      eno = SchEnoSuspended ∧
      (s1.schTaskNodePool 1).task.goStatus = demoConst.SchCreatedSuspend ∧
      busyList s1 = 1 :: busyList demoOneTask ∧ mapGet s1.tkMap "B" = some 1 := by
  obtain ⟨lf, lb, hw⟩ := reachable_wf demoConst ⟨2, rfl⟩
    (Reachable.create (freshSched demoConst) (demoDesc "A") SchEnoNone (some 0) demoOneTask
      Reachable.init rfl)
  have hlf : lf = [1, 2, 3] := by rw [← hw.freeList_eq]; decide
  subst hlf
  obtain ⟨eno, s1, h1, -, -, h4, -, -, -, -, -, -, -, h12, h13, -⟩ :=
    C13_create_by_flag demoConst demoOneTask 1 [2, 3] lb hw { demoDesc "B" with Flag := 5 }
      (by decide) (Or.inr (by decide))
  obtain ⟨h5, h6⟩ := h4 (by decide) (by decide)
  exact ⟨eno, s1, h1, h5, h6, h12, h13 (by decide)⟩

/-- C14 (the claim as stated fails): task "A" has a mailbox of one message,
which holds one message, and no handler loop is receiving; the message, its
sender and its receiver are not nil and the mailbox exists, yet
`schimplSendMsg` does not return: nothing is appended and no `SchEnoNone` comes
back. -/
theorem C14_send_on_full_mailbox_waits :
    (demoMsg 2).sender ≠ none ∧ (demoMsg 2).recver = some (TaskPtr.pool 0) ∧
    (demoMailboxFull.schTaskNodePool 0).task.mailbox.que =
      some { cap := 1, buf := [demoMsg 1], closed := false } ∧
    schimplSendMsg demoMailboxFull (some (demoMsg 2)) false = none := by
  refine ⟨by decide, by decide, by decide, rfl⟩

/-- C14 (amended): `schimplSendMsg` returns `Parameter` and leaves the whole
state (so every mailbox) as it was when the message, its sender or its
receiver is nil.  When the three are non-nil and the mailbox of the receiver
exists, is open, and has room or is empty with the handler loop of the
receiver waiting for a message, it returns `SchEnoNone`, the mailbox of the
receiver is the old one with exactly that message appended at its tail, and
no other node changes.  When the mailbox exists and has neither room nor a
waiting loop on an empty buffer, the call does not return. -/
theorem C14_send_message (s : Sched) (msg : Option schMessage) (w : Bool) :
    ((msg = none ∨ ∃ m, msg = some m ∧ (m.sender = none ∨ m.recver = none)) →
      schimplSendMsg s msg w = some (SchEnoParameter, s)) ∧
    (∀ m snd r q, msg = some m → m.sender = some snd → m.recver = some r →
      (nodeOf s r).task.mailbox.que = some q → q.closed = false →
      (q.buf.length < q.cap ∨ (w = true ∧ q.buf.length = 0)) →
      ∃ s1, schimplSendMsg s msg w = some (SchEnoNone, s1) ∧
        s1 = putMailbox s r { q with buf := q.buf ++ [m] } ∧
        (nodeOf s1 r).task.mailbox.que = some { q with buf := q.buf ++ [m] } ∧
        (∀ r1, r1 ≠ r → nodeOf s1 r1 = nodeOf s r1)) ∧
    (∀ m snd r q, msg = some m → m.sender = some snd → m.recver = some r →
      (nodeOf s r).task.mailbox.que = some q →
      ¬ (q.buf.length < q.cap ∨ (w = true ∧ q.buf.length = 0)) →
      schimplSendMsg s msg w = none) := by
  refine ⟨?_, ?_, ?_⟩
  · rintro (h | ⟨m, h, hm | hm⟩)
    · rw [h]; rfl
    · rw [h]; simp [schimplSendMsg, hm]
    · rw [h]
      cases hs : m.sender <;> simp [schimplSendMsg, hm, hs]
  · intro m snd r q hmsg hs hr hq hc hl
    rw [hmsg]
    exact ⟨_, sendMsg_room w hs hr hq hc hl, rfl, nodeOf_putMailbox_self s r q _ hq,
      fun r1 h1 => nodeOf_putMailbox_other s r r1 _ h1⟩
  · intro m snd r q hmsg hs hr hq hl
    rw [hmsg]
    exact sendMsg_full w hs hr hq hl

/-- C14 (amended), for a message sent to the task "A" whose mailbox (of one
message) is empty, and for one sent to a task with a mailbox of capacity 0
whose handler loop is waiting. -/
theorem C14_send_message_witness :
    (∃ s1, schimplSendMsg demoOneTask (some (demoMsg 1)) false = some (SchEnoNone, s1) ∧
      (nodeOf s1 (TaskPtr.pool 0)).task.mailbox.que =
        some { cap := 1, buf := [] ++ [demoMsg 1], closed := false }) ∧
    (∃ s1, schimplSendMsg demoPerpetual (some (demoMsg 1)) true = some (SchEnoNone, s1) ∧
      (nodeOf s1 (TaskPtr.pool 0)).task.mailbox.que =
        some { cap := 0, buf := [] ++ [demoMsg 1], closed := false }) := by
  obtain ⟨s1, h1, -, h3, -⟩ :=
    (C14_send_message demoOneTask (some (demoMsg 1)) false).2.1 (demoMsg 1) TaskPtr.rawSchTsk
      (TaskPtr.pool 0) { cap := 1, buf := [], closed := false } rfl rfl rfl (by decide) rfl
      (Or.inl (by decide))
  obtain ⟨s2, k1, -, k3, -⟩ :=
    (C14_send_message demoPerpetual (some (demoMsg 1)) true).2.1 (demoMsg 1) TaskPtr.rawSchTsk
      (TaskPtr.pool 0) { cap := 0, buf := [], closed := false } rfl rfl rfl (by decide) rfl
      (Or.inr ⟨rfl, rfl⟩)
  exact ⟨⟨s1, h1, h3⟩, ⟨s2, k1, k3⟩⟩

/-- C15: take a task node whose mailbox is open (of any capacity) and a run of
completed sends (into room of the buffer or to the waiting loop) and of rounds
of its handler loop in which `send m1` completes before `send m2` is issued,
both to that node.  Then the messages
dispatched to the handler, followed by those still waiting, are the messages
that waited at the start, those sent before `m1`, then `m1`, those sent in
between, then `m2`, and the later ones.  So `m1` is dispatched at position
`i1` and `m2` at the later position `i2` of the dispatch order (as soon as
that many messages have been dispatched). -/
theorem C15_mailbox_fifo (s : Sched) (p : Nat) (q : Chan schMessage)
    (hq : (s.schTaskNodePool p).task.mailbox.que = some q) (hc : q.closed = false)
    (pre mid post : List MbEvent) (m1 m2 : schMessage) (w1 w2 : Bool)
    (h1 : m1.recver = some (TaskPtr.pool p)) (h2 : m2.recver = some (TaskPtr.pool p))
    (log : List schMessage) (s1 : Sched)
    (hrun : runMailbox p (pre ++ MbEvent.send m1 w1 :: (mid ++ MbEvent.send m2 w2 :: post)) s =
      some (log, s1)) :
    log ++ mailboxOf s1 p =
      (q.buf ++ sentTo p pre) ++ m1 :: (sentTo p mid ++ m2 :: sentTo p post) ∧
    (q.buf ++ sentTo p pre).length < (q.buf ++ sentTo p pre).length + 1 + (sentTo p mid).length ∧
    ((q.buf ++ sentTo p pre).length < log.length →
      log[(q.buf ++ sentTo p pre).length]? = some m1) ∧
    ((q.buf ++ sentTo p pre).length + 1 + (sentTo p mid).length < log.length →
      log[(q.buf ++ sentTo p pre).length + 1 + (sentTo p mid).length]? = some m2) := by
  have law := runMailbox_law p _ s q log s1 hq hc hrun
  have e : log ++ mailboxOf s1 p =
      (q.buf ++ sentTo p pre) ++ m1 :: (sentTo p mid ++ m2 :: sentTo p post) := by
    rw [law, sentTo_append]
    simp [sentTo, h1, h2, sentTo_append]
  refine ⟨e, by omega, ?_, ?_⟩
  · intro hlt
    have := congrArg (fun l => l[(q.buf ++ sentTo p pre).length]?) e
    simp only [] at this
    rw [List.getElem?_append_left hlt] at this
    rw [this, List.getElem?_append_right (le_refl _), Nat.sub_self]
    exact List.getElem?_cons_zero
  · intro hlt
    have := congrArg
      (fun l => l[(q.buf ++ sentTo p pre).length + 1 + (sentTo p mid).length]?) e
    simp only [] at this
    rw [List.getElem?_append_left hlt] at this
    rw [this, List.getElem?_append_right (by omega)]
    have e2 : (q.buf ++ sentTo p pre).length + 1 + (sentTo p mid).length -
        (q.buf ++ sentTo p pre).length = (sentTo p mid).length + 1 := by omega
    rw [e2, List.getElem?_cons_succ, List.getElem?_append_right (le_refl _), Nat.sub_self]
    exact List.getElem?_cons_zero

/-- C15, for two sends to the watched task "A" followed by two rounds of its
handler loop: the handler gets the first message, then the second. -/
theorem C15_mailbox_fifo_witness :
    ∃ log s1, runMailbox 0 ([] ++ MbEvent.send (demoMsg 1) false ::
        ([] ++ MbEvent.send (demoMsg 2) false :: [MbEvent.dispatch, MbEvent.dispatch]))
        demoWatched = some (log, s1) ∧
      log[0]? = some (demoMsg 1) ∧ log[1]? = some (demoMsg 2) := by
  have hlog : (runMailbox 0 ([] ++ MbEvent.send (demoMsg 1) false ::
      ([] ++ MbEvent.send (demoMsg 2) false :: [MbEvent.dispatch, MbEvent.dispatch]))
      demoWatched).map Prod.fst = some [demoMsg 1, demoMsg 2] := by decide
  cases hrun : runMailbox 0 ([] ++ MbEvent.send (demoMsg 1) false ::
      ([] ++ MbEvent.send (demoMsg 2) false :: [MbEvent.dispatch, MbEvent.dispatch]))
      demoWatched with
  | none => rw [hrun] at hlog; exact absurd hlog (by simp)
  | some r =>
    obtain ⟨log, s1⟩ := r
    rw [hrun] at hlog
    have hl : log = [demoMsg 1, demoMsg 2] := Option.some.inj hlog
    obtain ⟨-, -, h3, h4⟩ :=
      C15_mailbox_fifo demoWatched 0 { cap := 2, buf := [], closed := false } rfl rfl
        [] [] [MbEvent.dispatch, MbEvent.dispatch] (demoMsg 1) (demoMsg 2) false false rfl rfl
        log s1 hrun
    refine ⟨log, s1, rfl, ?_, ?_⟩
    · exact h3 (by rw [hl]; decide)
    · exact h4 (by rw [hl]; decide)

/-- C16: on a task whose timer table has no nil entry, `set_timer` returns
`(Resource, schInvalidTid)` and the whole state (timer table, reverse map,
timer-to-owner map, timer pool) is unchanged.  Consequently, on a task with an
empty timer table and a well-formed timer free list of at least
`schMaxTaskTimer` nodes, `schMaxTaskTimer + 1` consecutive `set_timer` calls
return the identifiers `0, 1, ..., schMaxTaskTimer - 1` with `SchEnoNone` and
then `(Resource, schInvalidTid)` for the last call. -/
theorem C16_set_timer_table_full (c : SchConst) (k : SchTimerConst) (s : Sched) (ptn : Nat) :
    (∀ tdc, (∀ i, i < c.schMaxTaskTimer → tmTabOf s ptn i ≠ none) →
      schimplSetTimer c k s (some ptn) (some tdc) =
        some (SchEnoResource, k.schInvalidTid, s)) ∧
    (∀ lft tds td, RingAt (tmNext s) (tmLast s) s.tmFree s.tmFreeSize lft →
      c.schMaxTaskTimer ≤ lft.length →
      (∀ i, i < c.schMaxTaskTimer → tmTabOf s ptn i = none) →
      tds.length = c.schMaxTaskTimer →
      ∃ s1, setTimers c k ptn (tds ++ [td]) s =
        some ((List.range c.schMaxTaskTimer).map (fun (i : Nat) => (SchEnoNone, (i : Int))) ++
          [(SchEnoResource, k.schInvalidTid)], s1)) := by
  refine ⟨fun tdc h => setTimer_full c k s ptn tdc h, ?_⟩
  intro lft tds td hr hlen hnil htds
  obtain ⟨s1, e⟩ := setTimers_fill c k ptn td tds 0 s lft (by omega) hr (by omega)
    (fun i hi => absurd hi (Nat.not_lt_zero i)) (fun i _ him => hnil i him)
  refine ⟨s1, ?_⟩
  rw [e, htds, List.range_eq_range']

/-- C16, for the task "A" with two armed timers (table of two entries): a third
`set_timer` returns `Resource` and leaves the state as it was; and on the task
"A" without timers three calls return 0, 1 and `Resource`. -/
theorem C16_set_timer_table_full_witness :
    schimplSetTimer demoConst demoTimerConst demoTwoTimers (some 0) (some (demoTimerDesc 9)) =
      some (SchEnoResource, -1, demoTwoTimers) ∧
    ∃ s1, setTimers demoConst demoTimerConst 0
        ([demoTimerDesc 7, demoTimerDesc 8] ++ [demoTimerDesc 9]) demoOneTask =
      some ((List.range 2).map (fun (i : Nat) => (SchEnoNone, (i : Int))) ++
        [(SchEnoResource, -1)], s1) := by
  refine ⟨(C16_set_timer_table_full demoConst demoTimerConst demoTwoTimers 0).1
    (demoTimerDesc 9) ?_,
    (C16_set_timer_table_full demoConst demoTimerConst demoOneTask 0).2 [0, 1, 2, 3]
      [demoTimerDesc 7, demoTimerDesc 8] (demoTimerDesc 9) ?_ (by decide) ?_ rfl⟩
  · intro i hi
    have h2 : i < 2 := hi
    interval_cases i <;> decide
  · exact ⟨⟨by decide, List.Chain.cons (by decide) (List.Chain.cons (by decide)
      (List.Chain.cons (by decide) List.Chain.nil)), by decide⟩, by decide, by decide⟩
  · intro i hi
    have h2 : i < 2 := hi
    interval_cases i <;> decide

/-- C17: in every state reached from a state without timers by `set_timer`, by
the clean-up of an expired one-shot timer and by the clean-up of a killed
timer (in any order, on any tasks), for every task node `p` the reverse map
of `p` records index `i` for timer node `tm` exactly when `i` is an index of
the timer table of `p` and position `i` of that table holds `tm`.  And a
`set_timer` that returns `SchEnoNone` in such a state returns as timer
identifier an index of the table at which the table holds the new timer node
and which the reverse map records for that node. -/
theorem C17_reverse_map_invariant (c : SchConst) (k : SchTimerConst) (s : Sched)
    (ctxs : List (Nat × Int)) (h : TimerReachable c k s ctxs) :
    (∀ (p tm : Nat) (i : Int), mapGet (tmIdxTabOf s p) tm = some i ↔
      (0 ≤ i ∧ i < c.schMaxTaskTimer ∧ tmTabOf s p i.toNat = some tm)) ∧
    (∀ ptn tdc tid s1,
      schimplSetTimer c k s (some ptn) (some tdc) = some (SchEnoNone, tid, s1) →
      ∃ tm, tmTabOf s1 ptn tid.toNat = some tm ∧ 0 ≤ tid ∧ tid < c.schMaxTaskTimer ∧
        mapGet (tmIdxTabOf s1 ptn) tm = some tid) := by
  obtain ⟨lft, hw⟩ := reachable_timerWF h
  refine ⟨fun p tm i => hw.rev p tm i, ?_⟩
  intro ptn tdc tid s1 e
  rcases setTimer_cases c k hw.free ptn tdc e with ⟨h1, -, -⟩ | ⟨-, htid, hff, a, t, hl⟩
  · exact absurd h1 (by simp)
  · subst hl
    obtain ⟨s2, e2, -, tab2, idx2, -⟩ := setTimer_ok c k ptn tdc hw.free hff
    rw [e2] at e
    have hs : s2 = s1 := (Prod.mk.inj (Prod.mk.inj (Option.some.inj e)).2).2
    subst hs
    refine ⟨a, ?_, by omega, by omega, ?_⟩
    · rw [htid, Int.toNat_ofNat, tab2 ptn, if_pos rfl, Function.update_same]
    · rw [idx2 ptn, if_pos rfl, mapGet_mapPut, if_pos rfl, htid]

/-- C17, for the state with one timer armed on task node 0 of a fresh
scheduler: the reverse map records index 0 for timer node 0 exactly when
position 0 of the table holds it. -/
theorem C17_reverse_map_invariant_witness :
    (mapGet (tmIdxTabOf demoFreshArmed 0) 0 = some 0 ↔
      ((0 : Int) ≤ 0 ∧ (0 : Int) < demoConst.schMaxTaskTimer ∧
        tmTabOf demoFreshArmed 0 (0 : Int).toNat = some 0)) :=
  (C17_reverse_map_invariant demoConst demoTimerConst demoFreshArmed [(0, 0)]
    (TimerReachable.armed (freshSched demoConst) [] 0 (demoTimerDesc 7) 0 demoFreshArmed 0 0
      (TimerReachable.idle _ (fresh_timersIdle demoConst ⟨2, rfl⟩)) rfl (by decide)
      (by decide))).1 0 0 0

/-- C18 (the claim as stated fails): task "A" has an armed timer and a full
mailbox (one message, capacity one) that no handler loop is receiving from;
`schimplSendTimerEvent` does not return, so no message is enqueued and no
`SchEnoNone` comes back.  And for a timer armed with the tag 9223372036854775807,
the largest `int`, with `EvTimerBase = 1000`, the identifier of the message
enqueued is -9223372036854774809, not `EvTimerBase + utid`. -/
theorem C18_timer_event_waits_or_wraps :
    (demoArmedFull.schTimerNodePool 0).tmcb.taskNode = some 0 ∧
    (demoArmedFull.schTaskNodePool 0).task.mailbox.que =
      some { cap := 1, buf := [demoMsg 1], closed := false } ∧
    schimplSendTimerEvent demoTimerConst demoArmedFull 0 false = none ∧
    (demoHugeTag.schTimerNodePool 0).tmcb.utid = 9223372036854775807 ∧
    (schimplSendTimerEvent demoTimerConst demoHugeTag 0 false).map
      (fun r => (r.1, (mailboxOf r.2 0).map (fun m => m.Id))) =
      some (SchEnoNone, [-9223372036854774809]) ∧
    demoTimerConst.EvTimerBase + 9223372036854775807 ≠ -9223372036854774809 := by
  refine ⟨by decide, by decide, rfl, by decide, by decide, by decide⟩

/-- C18 (amended): for a timer node `ptm` armed with tag `utid`, payload `extra`
and owner task node `o`, when `EvTimerBase + utid` is within the range of the
64-bit `int` and the mailbox of `o` is open and has room, or is empty with the
handler loop of `o` waiting for a message, `schimplSendTimerEvent` returns
`SchEnoNone`; the mailbox of `o` is the old one followed by exactly one
message, with sender `rawTmTsk`, receiver `o`, identifier `EvTimerBase + utid`
and body `extra`; no other task node and no timer node changes.  When the
mailbox has neither room nor a waiting loop on an empty buffer, the call does
not return. -/
theorem C18_timer_event (k : SchTimerConst) (s : Sched) (ptm o : Nat) (q : Chan schMessage)
    (w : Bool) (ho : (s.schTimerNodePool ptm).tmcb.taskNode = some o)
    (hq : (s.schTaskNodePool o).task.mailbox.que = some q) :
    (q.closed = false → (q.buf.length < q.cap ∨ (w = true ∧ q.buf.length = 0)) →
      -(2 ^ 63) ≤ k.EvTimerBase + (s.schTimerNodePool ptm).tmcb.utid →
      k.EvTimerBase + (s.schTimerNodePool ptm).tmcb.utid < 2 ^ 63 →
      ∃ s1, schimplSendTimerEvent k s ptm w = some (SchEnoNone, s1) ∧
        (s1.schTaskNodePool o).task.mailbox.que = some { q with buf := q.buf ++
          [{ sender := some TaskPtr.rawTmTsk, recver := some (TaskPtr.pool o),
             Id := k.EvTimerBase + (s.schTimerNodePool ptm).tmcb.utid,
             Body := (s.schTimerNodePool ptm).tmcb.extra }] } ∧
        (∀ i, i ≠ o → s1.schTaskNodePool i = s.schTaskNodePool i) ∧
        s1.schTimerNodePool = s.schTimerNodePool) ∧
    (¬ (q.buf.length < q.cap ∨ (w = true ∧ q.buf.length = 0)) →
      schimplSendTimerEvent k s ptm w = none) := by
  constructor
  · intro hc hl h0 h1
    refine ⟨_, sendTimerEvent_room k w ho hq hc hl, ?_, ?_, ?_⟩
    · rw [wrapInt_of_range _ h0 h1]
      exact nodeOf_putMailbox_self s (TaskPtr.pool o) q _ hq
    · intro i hi
      exact nodeOf_putMailbox_other s (TaskPtr.pool o) (TaskPtr.pool i) _
        (fun h => hi (TaskPtr.pool.inj h))
    · rfl
  · intro hl
    exact sendTimerEvent_full k w ho hq hl

/-- C18 (amended), for the timer with tag 7 and payload 9 armed by task "A",
whose mailbox is empty. -/
theorem C18_timer_event_witness :
    ∃ s1, schimplSendTimerEvent demoTimerConst demoArmed 0 false = some (SchEnoNone, s1) ∧
      (s1.schTaskNodePool 0).task.mailbox.que = some { cap := 1, closed := false, buf :=
        [{ sender := some TaskPtr.rawTmTsk, recver := some (TaskPtr.pool 0), Id := 1007,
           Body := some 9 }] } := by
  obtain ⟨s1, h1, h2, -⟩ :=
    (C18_timer_event demoTimerConst demoArmed 0 0 { cap := 1, buf := [], closed := false } false
      (by decide) (by decide)).1 rfl (Or.inl (by decide)) (by decide) (by decide)
  exact ⟨s1, h1, h2⟩

/-- C19 (the code departs from the claim): the timer table has
`schMaxTaskTimer = 2` entries; `kill_timer` on task "A" with `tid = 2`, which is
not a valid index, does not return `Parameter`: the check lets it through and
the table is indexed out of range (no result, whatever the timer would
answer).  With `tid = 3` and `tid = -1` it returns `Parameter`, with the valid
index 1, whose entry is nil, `NotFound`. -/
theorem C19_kill_timer_at_table_size :
    demoConst.schMaxTaskTimer = 2 ∧
    (∀ ack, schimplKillTimer demoConst demoOneTask (some 0) 2 ack = none) ∧
    (∀ ack, schimplKillTimer demoConst demoOneTask (some 0) 3 ack =
      some (SchEnoParameter, demoOneTask)) ∧
    (∀ ack, schimplKillTimer demoConst demoOneTask (some 0) (-1) ack =
      some (SchEnoParameter, demoOneTask)) ∧
    (∀ ack, schimplKillTimer demoConst demoOneTask (some 0) 1 ack =
      some (SchEnoNotFound, demoOneTask)) := by
  refine ⟨rfl, fun _ => rfl, fun _ => rfl, fun _ => rfl, fun _ => ?_⟩
  have h : (demoOneTask.schTaskNodePool 0).task.tmTab (1 : Int).toNat = none := by decide
  simp only [schimplKillTimer, h]
  rfl

/-- C20 (the code departs from the claim): the watched task "A" is on the busy
list, inside its handler (`HaveDog` and `Inited` set) with bite counter 0.
After one sweep of `dogWatch` its bite counter is 0, not 1, and after three
consecutive sweeps it is 0, not 3: the sweep sets the counter to zero right
after incrementing it. -/
theorem C20_sweep_resets_bite_counter :
    busyList demoInHandler = [0] ∧
    (demoInHandler.schTaskNodePool 0).task.dog.HaveDog = true ∧
    (demoInHandler.schTaskNodePool 0).task.dog.Inited = true ∧
    (demoInHandler.schTaskNodePool 0).task.dog.BiteCounter = 0 ∧
    (dogWatch 4 demoInHandler).map
      (fun r => (r.1, (r.2.schTaskNodePool 0).task.dog.BiteCounter)) = some (SchEnoNone, 0) ∧
    (dogWatchTimes 4 3 demoInHandler).map
      (fun s => (s.schTaskNodePool 0).task.dog.BiteCounter) = some 0 := by
  decide

/-- C26 (the code departs from the claim): on the tick of a periodic timer the
timer event is sent with the lock of the task held and the lock of the
scheduler free; on the expiry of a one-shot timer it is sent with both locks
held, the lock of the scheduler included. -/
theorem C26_one_shot_sends_under_scheduler_lock :
    locksAtSend periodicTickPath { task := false, sched := false } =
      some [{ task := true, sched := false }] ∧
    locksAtSend oneShotExpiryPath { task := false, sched := false } =
      some [{ task := true, sched := true }] := by
  decide

/-- C27 (the claim as stated fails): node 0 is acquired from a fresh scheduler
and put on the busy list; put on the busy list again, being on it, it leaves a
busy list of recorded size 2 on which the walk from the head meets node 0
twice.  And node 1, put on the busy list while on the free list of a fresh
scheduler, is on both lists. -/
theorem C27_enqueue_of_listed_node_breaks_lists :
    busyList demoEnqued = [0] ∧
    demoEnquedTwice.busySize = 2 ∧ busyList demoEnquedTwice = [0, 0] ∧
    freeList (freshSched demoConst) = [0, 1, 2, 3] ∧
    busyList demoEnquedFree = [1] ∧ demoEnquedFree.tkFree = some 0 ∧
    (demoEnquedFree.schTaskNodePool 0).next = some 1 := by
  decide

/-- C27 (amended): in every state reached from initialisation (pool size a
power of two) by acquire, by release and busy-enqueue of a node that is on
neither list, and by busy-dequeue of a node that is on the busy list, the free
list and the busy list are each a ring of distinct nodes in which every node
is followed by the next one and the final node by the first (`next` and `last`
mutually inverse), with the recorded head (nil for the empty list) and the
recorded size; the walks from the two heads give these lists; and no node is
on both. -/
theorem C27_pool_lists_well_formed (c : SchConst) (hc : ∃ k, c.schTaskNodePoolSize = 2 ^ k)
    (s : Sched) (h : PoolReachable c s) :
    ∃ lf lb, RingAt (tkNext s) (tkLast s) s.tkFree s.freeSize lf ∧
      RingAt (tkNext s) (tkLast s) s.tkBusy s.busySize lb ∧
      freeList s = lf ∧ busyList s = lb ∧ (∀ i, i ∈ lf → i ∉ lb) := by
  obtain ⟨lf, lb, hw, -⟩ := poolReachable_wf c hc h
  exact ⟨lf, lb, hw.free, hw.busy, hw.freeList_eq, hw.busyList_eq, hw.disjoint⟩

/-- C27 (amended), for the state where node 0 has been acquired and put on the
busy list. -/
theorem C27_pool_lists_witness :
    ∃ lf lb, RingAt (tkNext demoEnqued) (tkLast demoEnqued) demoEnqued.tkFree
        demoEnqued.freeSize lf ∧
      RingAt (tkNext demoEnqued) (tkLast demoEnqued) demoEnqued.tkBusy demoEnqued.busySize lb ∧
      freeList demoEnqued = lf ∧ busyList demoEnqued = lb ∧ (∀ i, i ∈ lf → i ∉ lb) :=
  C27_pool_lists_well_formed demoConst ⟨2, rfl⟩ demoEnqued
    (PoolReachable.enque _ 0 SchEnoNone demoEnqued
      (PoolReachable.acquire (freshSched demoConst) SchEnoNone (some 0) _ PoolReachable.init rfl)
      (by decide) (by decide) rfl)

/-- C28 (the code departs from the claim): on a task pool whose free list has 4
nodes and whose recorded free size is 1, `schimplGetTaskNode` returns `Internal`
and leaves the head moved from node 0 to node 1, the recorded size at 0 and
node 0 unlinked (`next` of node 3 and `last` of node 1 changed).  On the timer
pool in the same condition `schimplGetTimerNode` returns `Internal` and changes
nothing. -/
theorem C28_task_acquire_error_not_atomic :
    demoBadFreeSize.tkFree = some 0 ∧ demoBadFreeSize.freeSize = 1 ∧
    (demoBadFreeSize.schTaskNodePool 3).next = some 0 ∧
    (demoBadFreeSize.schTaskNodePool 1).last = some 0 ∧
    (schimplGetTaskNode demoBadFreeSize).map (fun r =>
      (r.1, r.2.1, r.2.2.tkFree, r.2.2.freeSize, (r.2.2.schTaskNodePool 3).next,
        (r.2.2.schTaskNodePool 1).last)) =
      some (SchEnoInternal, none, some 1, 0, some 1, some 3) ∧
    schimplGetTimerNode demoBadTimerFreeSize =
      some (SchEnoInternal, none, demoBadTimerFreeSize) := by
  refine ⟨by decide, by decide, by decide, by decide, rfl, rfl⟩

/-- C29 (the code departs from the claim): after the group "G" is created and a
group is created again under the name "G" (both calls return `SchEnoNone`),
the group registry has one key and the group counter is 2. -/
theorem C29_group_counter_counts_overwrite :
    demoOneGroup.grpCnt = 1 ∧ mapLen demoOneGroup.grpMap = 1 ∧
    (schimplCreateTaskGroup demoConst demoOneGroup (some (demoGroup "G" ["B"]))).map
      (fun r => r.1) = some SchEnoNone ∧
    demoGroupTwice.grpCnt = 2 ∧ mapLen demoGroupTwice.grpMap = 1 ∧
    demoGroupTwice.grpMap.map Prod.fst = ["G"] := by
  decide

/-- C30 (the code departs from the claim): `set_timer` returns `(SchEnoNone, 0)`
for a one-shot timer of duration 0 and for a timer of unknown type 7; in both
cases the execution context of the timer returns `SchEnoParameter` at once and
leaves position 0 of the timer table of the owner holding timer node 0, the
reverse map and the timer-to-owner map still containing node 0, and node 0 off
the timer free list.  For a one-shot timer of duration 5 that expires, all
four are cleaned. -/
theorem C30_bad_timer_leaks_its_slot :
    (schimplSetTimer demoConst demoTimerConst demoOneTask (some 0)
      (some { demoTimerDesc 7 with Dur := 0 })).map (fun r => (r.1, r.2.1)) =
      some (SchEnoNone, 0) ∧
    (schimplTimerCommonTask demoConst demoTimerConst demoZeroDur (some 0) [TimerEvent.tick false]).map
      (fun r => (r.1, tmTabOf r.2 0 0, mapGet (tmIdxTabOf r.2 0) 0, mapGet r.2.tmMap 0,
        tmFreeList r.2)) =
      some (SchEnoParameter, some 0, some 0, some 0, [1, 2, 3]) ∧
    (schimplSetTimer demoConst demoTimerConst demoOneTask (some 0)
      (some { demoTimerDesc 7 with Tmt := 7 })).map (fun r => (r.1, r.2.1)) =
      some (SchEnoNone, 0) ∧
    (schimplTimerCommonTask demoConst demoTimerConst demoBadType (some 0) [TimerEvent.tick false]).map
      (fun r => (r.1, tmTabOf r.2 0 0, mapGet (tmIdxTabOf r.2 0) 0, mapGet r.2.tmMap 0,
        tmFreeList r.2)) =
      some (SchEnoParameter, some 0, some 0, some 0, [1, 2, 3]) ∧
    (schimplTimerCommonTask demoConst demoTimerConst demoArmed (some 0) [TimerEvent.tick false]).map
      (fun r => (r.1, tmTabOf r.2 0 0, mapGet (tmIdxTabOf r.2 0) 0, mapGet r.2.tmMap 0,
        tmFreeList r.2)) =
      some (SchEnoNone, none, none, none, [0, 1, 2, 3]) := by
  refine ⟨by decide, by decide, by decide, by decide, by decide⟩

end Scheduler

/-!
# The discovery messages: theorems
-/

namespace Udpmsg

open UdpMsgType UdpMsgErrno

theorem bytesEquLoop_eq (a : Bytes) : ∀ b : Bytes, a.length = b.length →
    bytesEquLoop a b = decide (a = b) := by
  induction a with
  | nil =>
    intro b hb
    cases b with
    | nil => rfl
    | cons _ _ => simp at hb
  | cons x a ih =>
    intro b hb
    cases b with
    | nil => simp at hb
    | cons y b =>
      simp only [List.length_cons, Nat.succ.injEq, add_left_inj] at hb
      by_cases hxy : x = y
      · subst hxy
        simp [bytesEquLoop, ih b hb]
      · simp [bytesEquLoop, hxy]

/-- The closure `funcBytesEqu` decides equality of two byte slices: same length
and same content. -/
theorem funcBytesEqu_eq (a b : Bytes) : funcBytesEqu a b = decide (a = b) := by
  unfold funcBytesEqu
  by_cases h : a.length = b.length
  · simp only [ne_eq, h, not_true_eq_false, if_false]
    exact bytesEquLoop_eq a b h
  · have hne : a ≠ b := fun he => h (by rw [he])
    simp [h, hne]

/-- C21 (the code departs from the claim): `EncodePing` on a `UdpMsg` before any
use and the `Ping` of the scenario (`Id = 42`, empty `Extra`) does not return:
the payload made by `new` has nil endpoints, and the first assignment through
them fails; the envelope has got its tag, no bytes are recorded.  And
`GetPing` on the decoded envelope that holds every field of that `Ping` the
payload type has returns a `Ping` with `Id = 0`, not 42, even when every type
assertion on node identities succeeds. -/
theorem C21_ping_does_not_round_trip :
    EncodePing demoEnv zeroUdpMsg demoPing = (demoTagged MessageType.PING, none) ∧
    (EncodePing demoEnv zeroUdpMsg demoPing).1.Buf = [] ∧
    GetPing demoEnv demoPingEnvelope = some { demoPing with Id := 0 } ∧
    GetPing demoEnv demoPingEnvelope ≠ some demoPing := by
  decide

/-- C22 (the code departs from the claim): `GetDecodedMsgType` maps the tag
`FINDNODE` to `UdpMsgTypePong` and the tag `NEIGHBORS` to `UdpMsgTypePing`, the
types it gives for `PONG` and `PING`; no tag is mapped to
`UdpMsgTypeFindNode` or `UdpMsgTypeNeighbors`. -/
theorem C22_decoded_type_conflates_tags :
    GetDecodedMsgType demoEnv (demoTagged MessageType.PING) = UdpMsgTypePing ∧
    GetDecodedMsgType demoEnv (demoTagged MessageType.PONG) = UdpMsgTypePong ∧
    GetDecodedMsgType demoEnv (demoTagged MessageType.FINDNODE) = UdpMsgTypePong ∧
    GetDecodedMsgType demoEnv (demoTagged MessageType.NEIGHBORS) = UdpMsgTypePing ∧
    GetDecodedMsgType demoEnv (demoTagged (MessageType.other 9)) = UdpMsgTypeUnknown := by
  decide

/-- C23 (the code departs from the claim): `EncodeFindNode` leaves the envelope
tagged `PONG`, not `FINDNODE`, with no payload populated, and does not return
a code (the payload made by `new` has nil endpoints). -/
theorem C23_find_node_is_tagged_pong :
    (EncodeFindNode demoEnv zeroUdpMsg demoFindNode).1.Msg.MsgType = some MessageType.PONG ∧
    (EncodeFindNode demoEnv zeroUdpMsg demoFindNode).1.Msg.FindNode = none ∧
    (EncodeFindNode demoEnv zeroUdpMsg demoFindNode).2 = none ∧
    (Encode demoEnv zeroUdpMsg UdpMsgTypeFindNode (AnyMsg.findNode demoFindNode)).2 = none := by
  decide

/-- C24: for a decoded envelope tagged `PING`, `PONG`, `FINDNODE` or `NEIGHBORS`
whose tagged payload and its `From` endpoint are present, and every source
address, `CheckUdpMsgFromPeer` returns true exactly when the bytes of
`From.IP` of the tagged payload are the bytes of the IP of the source address
(same length, same content); the port of the source address does not
matter; for an envelope with any other tag it returns false. -/
theorem C24_from_peer_check (pum : UdpMsg) (src : UDPAddr) :
    (∀ p n, pum.Msg.MsgType = some MessageType.PING → pum.Msg.Ping = some p →
      p.From = some n →
      CheckUdpMsgFromPeer pum (some src) = some (decide (n.IP = src.IP))) ∧
    (∀ p n, pum.Msg.MsgType = some MessageType.PONG → pum.Msg.Pong = some p →
      p.From = some n →
      CheckUdpMsgFromPeer pum (some src) = some (decide (n.IP = src.IP))) ∧
    (∀ p n, pum.Msg.MsgType = some MessageType.FINDNODE → pum.Msg.FindNode = some p →
      p.From = some n →
      CheckUdpMsgFromPeer pum (some src) = some (decide (n.IP = src.IP))) ∧
    (∀ p n, pum.Msg.MsgType = some MessageType.NEIGHBORS → pum.Msg.Neighbors = some p →
      p.From = some n →
      CheckUdpMsgFromPeer pum (some src) = some (decide (n.IP = src.IP))) ∧
    (∀ t, pum.Msg.MsgType = some t → t ≠ MessageType.PING → t ≠ MessageType.PONG →
      t ≠ MessageType.FINDNODE → t ≠ MessageType.NEIGHBORS →
      CheckUdpMsgFromPeer pum (some src) = some false) ∧
    (∀ port, CheckUdpMsgFromPeer pum (some { src with Port := port }) =
      CheckUdpMsgFromPeer pum (some src)) := by
  refine ⟨?_, ?_, ?_, ?_, ?_, ?_⟩
  · intro p n ht hp hn
    simp [CheckUdpMsgFromPeer, ht, hp, hn, fromIP, funcBytesEqu_eq]
  · intro p n ht hp hn
    simp [CheckUdpMsgFromPeer, ht, hp, hn, fromIP, funcBytesEqu_eq]
  · intro p n ht hp hn
    simp [CheckUdpMsgFromPeer, ht, hp, hn, fromIP, funcBytesEqu_eq]
  · intro p n ht hp hn
    simp [CheckUdpMsgFromPeer, ht, hp, hn, fromIP, funcBytesEqu_eq]
  · intro t ht h1 h2 h3 h4
    simp [CheckUdpMsgFromPeer, ht, h1, h2, h3, h4]
  · intro port
    simp only [CheckUdpMsgFromPeer]
    cases pum.Msg.MsgType with
    | none => rfl
    | some t =>
      simp only []
      split_ifs
      · cases pum.Msg.Ping.bind (fun p => fromIP p.From) <;> rfl
      · cases pum.Msg.Pong.bind (fun p => fromIP p.From) <;> rfl
      · cases pum.Msg.FindNode.bind (fun p => fromIP p.From) <;> rfl
      · cases pum.Msg.Neighbors.bind (fun p => fromIP p.From) <;> rfl
      · rfl

/-- C24, for the decoded `Ping` from 10.0.0.1: the check is true for the source
address 10.0.0.1 and false for 10.0.0.3. -/
theorem C24_from_peer_check_witness :
    CheckUdpMsgFromPeer demoPingEnvelope (some { IP := [10, 0, 0, 1], Port := 30303 }) =
      some true ∧
    CheckUdpMsgFromPeer demoPingEnvelope (some { IP := [10, 0, 0, 3], Port := 30303 }) =
      some false :=
  ⟨(C24_from_peer_check demoPingEnvelope { IP := [10, 0, 0, 1], Port := 30303 }).1
      _ (demoPbNode 1) rfl rfl rfl,
   (C24_from_peer_check demoPingEnvelope { IP := [10, 0, 0, 3], Port := 30303 }).1
      _ (demoPbNode 1) rfl rfl rfl⟩

/-- C25 (the code departs from the claim): on a decoded `Neighbors` payload with
one endpoint record `GetNeighbors` does not return (the destination slice
`ngb.Nodes` is nil when the loop indexes it), and the same with two records;
with no record it returns a `Neighbors` with an empty `Nodes` list. -/
theorem C25_get_neighbors_indexes_nil_slice :
    GetNeighbors demoEnv (demoNeighborsEnvelope [some (demoPbNode 3)]) = none ∧
    GetNeighbors demoEnv (demoNeighborsEnvelope [some (demoPbNode 3), some (demoPbNode 4)]) =
      none ∧
    (GetNeighbors demoEnv (demoNeighborsEnvelope [])).map (fun n => n.Nodes) = some [] := by
  decide

end Udpmsg
